import Mathlib

/-!
# Co-save serialization engine (`f4se/Serialization.cpp`)

A shallow embedding of the chunked co-save container: the three fixed-size
headers, the write-side and read-side record functions, the plugin registry,
the save and load passes, the identifier resolver and the text codec,
followed by theorems about them.

Conventions of the embedding

* `UInt32` values are natural numbers; every place where the C++ arithmetic
  can wrap carries an explicit `% 2 ^ 32`.
* `UInt64` stream offsets are natural numbers. A file of `2 ^ 64` bytes does
  not exist, so additions of offsets are not reduced; the one subtraction the
  code performs on offsets (`FlushWriteChunk`) wraps as in C++ (`sub64`).
* The process-wide variables of the translation unit (`s_currentFile`,
  `s_pluginHeader`, `s_chunkOpen`, ...) are the fields of `Globals`; the
  registry `s_pluginCallbacks` is passed next to it because the record
  functions never touch it.
* Output parameters (`formIdOut`, `handleOut`, `str`) are passed as their
  content before the call and returned as their content after it.
* A callback is represented by the calls it makes on the serialization
  interface. A value returned by a load callback stands for whatever the
  plugin stored in its own memory while loading.
-/

namespace Serialization

/-! ## Bytes and little-endian words -/

/-- One octet of file content (`UInt8`). -/
abbrev Byte := Fin 256

/-- The low eight bits of a number, as a byte. -/
def byteOf (n : Nat) : Byte := ⟨n % 256, Nat.mod_lt n (by decide)⟩

/-- Memory image of a `UInt32` on the little-endian target: four bytes, least
significant first. -/
def encodeU32 (n : Nat) : List Byte :=
  [byteOf n, byteOf (n / 256), byteOf (n / 65536), byteOf (n / 16777216)]

/-- Value of a little-endian byte string. -/
def decodeLE : List Byte → Nat
  | [] => 0
  | b :: bs => b.val + 256 * decodeLE bs

/-- The bytes `[off, off + n)` of a byte string (fewer when it is shorter). -/
def slice (bs : List Byte) (off n : Nat) : List Byte := (bs.drop off).take n

/-! ## File format structures -/

/-- Modelled from the spec: the macro `MACRO_SWAP32` is not part of the
sources; the signature is "a fixed 4-byte magic constant", here the four
characters `F4SE` read as a little-endian word. -/
def kSignature : Nat := 0x45533446

/-- `Header::kVersion`. -/
def kVersion : Nat := 1

/-- `Header::kVersion_Invalid`. -/
def kVersion_Invalid : Nat := 0

/-- Modelled from the spec: `kPluginHandle_Invalid` is declared in
`f4se/PluginAPI.h`, which is not part of the sources; it is the all-ones
32-bit handle. -/
def kPluginHandle_Invalid : Nat := 0xFFFFFFFF

/-- `struct Header`: five `UInt32` fields, 20 bytes. -/
structure Header where
  signature : Nat
  formatVersion : Nat
  f4seVersion : Nat
  runtimeVersion : Nat
  numPlugins : Nat
  deriving DecidableEq, Repr

/-- `struct PluginHeader`: three `UInt32` fields, 12 bytes. -/
structure PluginHeader where
  signature : Nat
  numChunks : Nat
  length : Nat
  deriving DecidableEq, Repr

/-- `struct ChunkHeader`: three `UInt32` fields, 12 bytes. -/
structure ChunkHeader where
  type : Nat
  version : Nat
  length : Nat
  deriving DecidableEq, Repr

/-- Memory image of a `Header`, as `WriteBuf(&s_fileHeader, sizeof(s_fileHeader))` sends it. -/
def Header.bytes (h : Header) : List Byte :=
  encodeU32 h.signature ++ encodeU32 h.formatVersion ++ encodeU32 h.f4seVersion
    ++ encodeU32 h.runtimeVersion ++ encodeU32 h.numPlugins

/-- Memory image of a `PluginHeader`. -/
def PluginHeader.bytes (h : PluginHeader) : List Byte :=
  encodeU32 h.signature ++ encodeU32 h.numChunks ++ encodeU32 h.length

/-- Memory image of a `ChunkHeader`. -/
def ChunkHeader.bytes (h : ChunkHeader) : List Byte :=
  encodeU32 h.type ++ encodeU32 h.version ++ encodeU32 h.length

/-- The `Header` whose memory image is the given 20 bytes (`ReadBuf(&header, sizeof(header))`). -/
def Header.ofBytes (bs : List Byte) : Header :=
  { signature := decodeLE (slice bs 0 4)
    formatVersion := decodeLE (slice bs 4 4)
    f4seVersion := decodeLE (slice bs 8 4)
    runtimeVersion := decodeLE (slice bs 12 4)
    numPlugins := decodeLE (slice bs 16 4) }

/-- The `PluginHeader` whose memory image is the given 12 bytes. -/
def PluginHeader.ofBytes (bs : List Byte) : PluginHeader :=
  { signature := decodeLE (slice bs 0 4)
    numChunks := decodeLE (slice bs 4 4)
    length := decodeLE (slice bs 8 4) }

/-- The `ChunkHeader` whose memory image is the given 12 bytes. -/
def ChunkHeader.ofBytes (bs : List Byte) : ChunkHeader :=
  { type := decodeLE (slice bs 0 4)
    version := decodeLE (slice bs 4 4)
    length := decodeLE (slice bs 8 4) }

/-! ## The byte stream -/

/-- Modelled from the spec: the class `IFileStream` (`common/IFileStream.h`) is
not part of the sources. The spec asks for "sequential read/write/seek over a
single file, exposing current offset and remaining-byte count": the file is
its byte content together with the current offset. -/
structure IFileStream where
  data : List Byte
  streamOffset : Nat
  deriving DecidableEq, Repr

namespace IFileStream

/-- Modelled from the spec: `Create` starts a fresh, empty file. -/
def Create : IFileStream := { data := [], streamOffset := 0 }

/-- Modelled from the spec: `Open` positions the stream at the start of an
existing file. -/
def Open (content : List Byte) : IFileStream := { data := content, streamOffset := 0 }

/-- Modelled from the spec: current offset. -/
def GetOffset (f : IFileStream) : Nat := f.streamOffset

/-- Modelled from the spec: absolute seek. -/
def SetOffset (f : IFileStream) (off : Nat) : IFileStream := { f with streamOffset := off }

/-- Modelled from the spec: relative seek forward. -/
def Skip (f : IFileStream) (n : Nat) : IFileStream := { f with streamOffset := f.streamOffset + n }

/-- Modelled from the spec: remaining-byte count (none once the offset is at
or past the end). -/
def GetRemain (f : IFileStream) : Nat := f.data.length - f.streamOffset

/-- Modelled from the spec: sequential write at the current offset. Bytes
already there are overwritten, the file grows when the write passes its end,
and a gap left by an earlier seek past the end is filled with zero bytes. -/
def WriteBuf (f : IFileStream) (buf : List Byte) : IFileStream :=
  let padded := f.data ++ List.replicate (f.streamOffset - f.data.length) (0 : Byte)
  { data := padded.take f.streamOffset ++ buf ++ padded.drop (f.streamOffset + buf.length)
    streamOffset := f.streamOffset + buf.length }

/-- Modelled from the spec: sequential read of `n` bytes at the current
offset. The spec gives no result for a read that runs past the end of the
file; such a read is `none` here and the calling function reports a fault. -/
def ReadBuf (f : IFileStream) (n : Nat) : Option (List Byte × IFileStream) :=
  if f.streamOffset + n ≤ f.data.length then
    some (slice f.data f.streamOffset n, { f with streamOffset := f.streamOffset + n })
  else none

end IFileStream

/-! ## Global state and outcomes -/

/-- The file-scope variables of `Serialization.cpp` that the record functions use. -/
structure Globals where
  s_currentFile : IFileStream
  s_currentPlugin : Nat
  s_fileHeader : Header
  s_pluginHeaderOffset : Nat
  s_pluginHeader : PluginHeader
  s_chunkOpen : Bool
  s_chunkHeaderOffset : Nat
  s_chunkHeader : ChunkHeader
  deriving DecidableEq, Repr

/-- Why a call did not return normally. -/
inductive Fault where
  /-- An `ASSERT` failed. -/
  | assertion
  /-- A stream read ran past the end of the file. -/
  | endOfStream
  /-- Callback code threw. -/
  | raised
  /-- A `std::vector` element outside the vector was addressed. -/
  | badIndex
  deriving DecidableEq, Repr

/-- Result of a call: its return value or the fault that ended it, and in both
cases the global state it left behind. -/
inductive Outcome (α : Type) where
  | ok (val : α) (g : Globals)
  | fault (why : Fault) (g : Globals)
  deriving DecidableEq, Repr

/-- Global state after the call, whichever way it ended. -/
def Outcome.globals {α : Type} : Outcome α → Globals
  | .ok _ g => g
  | .fault _ g => g

/-- The value a call returned; `none` when it ended in a fault. -/
def Outcome.returned {α : Type} : Outcome α → Option α
  | .ok val _ => some val
  | .fault _ _ => none

/-- Difference of two `UInt64` values, wrapping below zero. -/
def sub64 (a b : Nat) : Nat := if b ≤ a then a - b else a + 2 ^ 64 - b

/-! ## Write side -/

/-- `FlushWriteChunk`: back-patches the header of the open chunk. -/
def FlushWriteChunk (g : Globals) : Outcome Unit :=
  if !g.s_chunkOpen then .ok () g
  else
    let curOffset := g.s_currentFile.GetOffset
    let chunkSize := sub64 (sub64 curOffset g.s_chunkHeaderOffset) 12
    if ¬ chunkSize < 0x80000000 then .fault .assertion g
    else
      let hdr : ChunkHeader := { g.s_chunkHeader with length := chunkSize % 2 ^ 32 }
      let f := (g.s_currentFile.SetOffset g.s_chunkHeaderOffset).WriteBuf hdr.bytes
      let f := f.SetOffset curOffset
      .ok ()
        { g with
          s_chunkHeader := hdr
          s_currentFile := f
          s_pluginHeader :=
            { g.s_pluginHeader with length := (g.s_pluginHeader.length + (chunkSize + 12)) % 2 ^ 32 }
          s_chunkOpen := false }

/-- `OpenRecord(type, version)`. -/
def OpenRecord (type version : Nat) (g : Globals) : Outcome Bool :=
  let rest (g1 : Globals) : Outcome Bool :=
    match FlushWriteChunk g1 with
    | .fault why g2 => .fault why g2
    | .ok _ g2 =>
      .ok true
        { g2 with
          s_chunkHeaderOffset := g2.s_currentFile.GetOffset
          s_currentFile := g2.s_currentFile.Skip 12
          s_pluginHeader :=
            { g2.s_pluginHeader with numChunks := (g2.s_pluginHeader.numChunks + 1) % 2 ^ 32 }
          s_chunkHeader := { type := type, version := version, length := 0 }
          s_chunkOpen := true }
  if g.s_pluginHeader.numChunks = 0 then
    if g.s_chunkOpen then .fault .assertion g
    else
      rest
        { g with
          s_pluginHeaderOffset := g.s_currentFile.GetOffset
          s_currentFile := g.s_currentFile.Skip 12 }
  else rest g

/-- `WriteRecordData(buf, length)`: `buf` holds the `length` bytes passed. -/
def WriteRecordData (buf : List Byte) (g : Globals) : Outcome Bool :=
  .ok true { g with s_currentFile := g.s_currentFile.WriteBuf buf }

/-! ## Read side -/

/-- `FlushReadRecord`: skips what is left of the open chunk and closes it. -/
def FlushReadRecord (g : Globals) : Globals :=
  if g.s_chunkOpen then
    let g1 : Globals :=
      if g.s_chunkHeader.length ≠ 0 then
        { g with s_currentFile := g.s_currentFile.Skip g.s_chunkHeader.length }
      else g
    { g1 with s_chunkOpen := false }
  else g

/-- `GetNextRecordInfo(&type, &version, &length)`: `none` is the `false`
return, `some (type, version, length)` the `true` return with the three
output parameters. -/
def GetNextRecordInfo (g : Globals) : Outcome (Option (Nat × Nat × Nat)) :=
  let g1 := FlushReadRecord g
  if g1.s_pluginHeader.numChunks = 0 then .ok none g1
  else
    let g2 : Globals :=
      { g1 with s_pluginHeader := { g1.s_pluginHeader with numChunks := g1.s_pluginHeader.numChunks - 1 } }
    match g2.s_currentFile.ReadBuf 12 with
    | none => .fault .endOfStream g2
    | some (bs, f) =>
      let hdr := ChunkHeader.ofBytes bs
      .ok (some (hdr.type, hdr.version, hdr.length))
        { g2 with s_currentFile := f, s_chunkHeader := hdr, s_chunkOpen := true }

/-- `ReadRecordData(buf, length)`: returns the number of bytes copied and the
bytes placed in `buf`. -/
def ReadRecordData (length : Nat) (g : Globals) : Outcome (Nat × List Byte) :=
  if !g.s_chunkOpen then .fault .assertion g
  else
    let length := if length > g.s_chunkHeader.length then g.s_chunkHeader.length else length
    match g.s_currentFile.ReadBuf length with
    | none => .fault .endOfStream g
    | some (buf, f) =>
      .ok (length, buf)
        { g with
          s_currentFile := f
          s_chunkHeader := { g.s_chunkHeader with length := g.s_chunkHeader.length - length } }

/-- A run of `ReadRecordData` calls with the given requested lengths, made one
after the other on the current chunk: the values returned by the calls that
completed, and the state afterwards. A call that faults returns nothing. -/
def readRecordDataCalls : List Nat → Globals → List Nat × Globals
  | [], g => ([], g)
  | n :: rest, g =>
    match ReadRecordData n g with
    | .ok (m, _) g1 =>
      let r := readRecordDataCalls rest g1
      (m :: r.1, r.2)
    | .fault _ g1 => readRecordDataCalls rest g1

/-! ## The plugin registry -/

/-- A registered function pointer whose body no property here depends on. -/
abbrev CallbackId := Nat

/-- One call a save callback makes on the interface, or the point where it
throws. -/
inductive SaveCall where
  | openRecord (type version : Nat)
  | writeRecordData (buf : List Byte)
  | raise
  deriving DecidableEq, Repr

/-- A save callback: the calls it makes, in order. Both write-side functions
always return `true`, so what a save callback does cannot depend on their
results. -/
abbrev SaveCallback := List SaveCall

/-- A load callback: after each read-side call it continues according to what
the call returned; `ret a` is a normal return having gathered `a`, `raise` a
throw. -/
inductive LoadCallback (α : Type) where
  | ret (a : α)
  | raise
  | getNextRecordInfo (k : Option (Nat × Nat × Nat) → LoadCallback α)
  | readRecordData (length : Nat) (k : Nat × List Byte → LoadCallback α)

/-- Modelled from the spec: `struct PluginCallbacks` is declared in
`f4se/InternalSerialization.h`, which is not part of the sources. It is the
spec's extension registration record: the four optional callbacks, the UID
with its "has UID" flag, and the transient "had data this load" flag. -/
structure PluginCallbacks (α : Type) where
  revert : Option CallbackId
  save : Option SaveCallback
  load : Option (LoadCallback α)
  formDelete : Option CallbackId
  uid : Nat
  hadUID : Bool
  hadData : Bool

/-- Modelled from the spec: a freshly constructed record has no callbacks and
no UID. -/
def PluginCallbacks.empty {α : Type} : PluginCallbacks α :=
  { revert := none, save := none, load := none, formDelete := none,
    uid := 0, hadUID := false, hadData := false }

/-- `std::vector::resize(n)`: truncates, or appends freshly constructed records. -/
def resize {α : Type} (tbl : List (PluginCallbacks α)) (n : Nat) : List (PluginCallbacks α) :=
  tbl.take n ++ List.replicate (n - tbl.length) PluginCallbacks.empty

/-- `GetPluginInfo(plugin)`: the table after the call. The pointer returned is
to element `plugin` of that table; `plugin + 1` is computed in `UInt32`. -/
def GetPluginInfo {α : Type} (tbl : List (PluginCallbacks α)) (plugin : Nat) :
    List (PluginCallbacks α) :=
  if plugin ≥ tbl.length then resize tbl ((plugin + 1) % 2 ^ 32) else tbl

/-- Handles whose record already carries `uid`, in table order: the collisions
that `SetUniqueID` logs. -/
def collisions {α : Type} (tbl : List (PluginCallbacks α)) (uid : Nat) : List Nat :=
  (List.range tbl.length).filter fun i =>
    match tbl[i]? with
    | some r => r.hadUID && decide (r.uid = uid)
    | none => false

/-- What `SetUniqueID` leaves behind: the fault that ended it, if any, the
table, and the handles reported as colliding. -/
structure SetUniqueIDResult (α : Type) where
  fault : Option Fault
  table : List (PluginCallbacks α)
  logged : List Nat

/-- `SetUniqueID(plugin, uid)`. -/
def SetUniqueID {α : Type} (tbl : List (PluginCallbacks α)) (plugin uid : Nat) :
    SetUniqueIDResult α :=
  let logged := collisions tbl uid
  let tbl1 := GetPluginInfo tbl plugin
  match tbl1[plugin]? with
  | none => { fault := some .badIndex, table := tbl1, logged := logged }
  | some info =>
    if info.hadUID then { fault := some .assertion, table := tbl1, logged := logged }
    else
      { fault := none
        table := tbl1.set plugin { info with uid := uid, hadUID := true }
        logged := logged }

/-- `SetRevertCallback(plugin, callback)`: the table after the call; `none`
when the record that `GetPluginInfo` points to lies outside the table. -/
def SetRevertCallback {α : Type} (tbl : List (PluginCallbacks α)) (plugin : Nat)
    (callback : Option CallbackId) : Option (List (PluginCallbacks α)) :=
  let tbl1 := GetPluginInfo tbl plugin
  match tbl1[plugin]? with
  | none => none
  | some info => some (tbl1.set plugin { info with revert := callback })

/-- `SetSaveCallback(plugin, callback)`: the table after the call; `none` when
the record that `GetPluginInfo` points to lies outside the table. -/
def SetSaveCallback {α : Type} (tbl : List (PluginCallbacks α)) (plugin : Nat)
    (callback : Option SaveCallback) : Option (List (PluginCallbacks α)) :=
  let tbl1 := GetPluginInfo tbl plugin
  match tbl1[plugin]? with
  | none => none
  | some info => some (tbl1.set plugin { info with save := callback })

/-- `SetLoadCallback(plugin, callback)`: the table after the call; `none` when
the record that `GetPluginInfo` points to lies outside the table. -/
def SetLoadCallback {α : Type} (tbl : List (PluginCallbacks α)) (plugin : Nat)
    (callback : Option (LoadCallback α)) : Option (List (PluginCallbacks α)) :=
  let tbl1 := GetPluginInfo tbl plugin
  match tbl1[plugin]? with
  | none => none
  | some info => some (tbl1.set plugin { info with load := callback })

/-- `SetFormDeleteCallback(plugin, callback)`: the table after the call; `none`
when the record that `GetPluginInfo` points to lies outside the table. -/
def SetFormDeleteCallback {α : Type} (tbl : List (PluginCallbacks α)) (plugin : Nat)
    (callback : Option CallbackId) : Option (List (PluginCallbacks α)) :=
  let tbl1 := GetPluginInfo tbl plugin
  match tbl1[plugin]? with
  | none => none
  | some info => some (tbl1.set plugin { info with formDelete := callback })

/-- The table `t` is the table `tbl` after handle `h` has been registered and
its record replaced by `r`: it has `max (size of tbl) (h + 1)` records, `r` is
at index `h`, every other record of `tbl` is unchanged at its index, and every
other new record is empty. -/
def registeredWith {α : Type} (tbl t : List (PluginCallbacks α)) (h : Nat)
    (r : PluginCallbacks α) : Prop :=
  t.length = max tbl.length (h + 1) ∧ t[h]? = some r
    ∧ ∀ j, j ≠ h →
        t[j]? = if j < tbl.length then tbl[j]?
          else if j < h + 1 then some PluginCallbacks.empty else none

/-! ## Running callbacks -/

/-- Execution of a save callback. A fault inside a call ends the callback. -/
def runSave : SaveCallback → Globals → Outcome Unit
  | [], g => .ok () g
  | .raise :: _, g => .fault .raised g
  | .openRecord type version :: rest, g =>
    match OpenRecord type version g with
    | .ok _ g1 => runSave rest g1
    | .fault why g1 => .fault why g1
  | .writeRecordData buf :: rest, g =>
    match WriteRecordData buf g with
    | .ok _ g1 => runSave rest g1
    | .fault why g1 => .fault why g1

/-- Execution of a load callback. A fault inside a call ends the callback. -/
def runLoad {α : Type} : LoadCallback α → Globals → Outcome α
  | .ret a, g => .ok a g
  | .raise, g => .fault .raised g
  | .getNextRecordInfo k, g =>
    match GetNextRecordInfo g with
    | .ok r g1 => runLoad (k r) g1
    | .fault why g1 => .fault why g1
  | .readRecordData length k, g =>
    match ReadRecordData length g with
    | .ok r g1 => runLoad (k r) g1
    | .fault why g1 => .fault why g1

/-! ## The save pass -/

/-- Body of the plugin loop of `HandleSaveGlobalData` for plugin `i`, whose
record has a save callback `cb` and the UID `uid`: the section state is reset,
the callback runs inside its own `try`, the last chunk is flushed and the
section header is back-patched when the section has chunks. A fault of the
callback is swallowed by its `catch`; a fault of the flush leaves the loop. -/
def savePlugin (i uid : Nat) (cb : SaveCallback) (g : Globals) : Outcome Unit :=
  let g1 : Globals :=
    { g with
      s_currentPlugin := i
      s_pluginHeader := { signature := uid, numChunks := 0, length := 0 }
      s_chunkOpen := false }
  let g2 := (runSave cb g1).globals
  match FlushWriteChunk g2 with
  | .fault why g3 => .fault why g3
  | .ok _ g3 =>
    if g3.s_pluginHeader.numChunks ≠ 0 then
      let curOffset := g3.s_currentFile.GetOffset
      let f := (g3.s_currentFile.SetOffset g3.s_pluginHeaderOffset).WriteBuf g3.s_pluginHeader.bytes
      let f := f.SetOffset curOffset
      .ok ()
        { g3 with
          s_currentFile := f
          s_fileHeader :=
            { g3.s_fileHeader with numPlugins := (g3.s_fileHeader.numPlugins + 1) % 2 ^ 32 } }
    else .ok () g3

/-- The plugin loop of `HandleSaveGlobalData`, from index `i` on. -/
def savePlugins {α : Type} : List (PluginCallbacks α) → Nat → Globals → Outcome Unit
  | [], _, g => .ok () g
  | info :: rest, i, g =>
    match info.save with
    | some cb =>
      if info.hadUID then
        match savePlugin i info.uid cb g with
        | .ok _ g1 => savePlugins rest (i + 1) g1
        | .fault why g1 => .fault why g1
      else savePlugins rest (i + 1) g
    | none => savePlugins rest (i + 1) g

/-- `HandleSaveGlobalData`. `createOk` tells whether the co-save file could be
created; `f4seVersion` and `runtimeVersion` stand for the build constants
`PACKED_F4SE_VERSION` and `RUNTIME_VERSION`. The result is the global state at
the end and the content of the co-save file on disk (`none`: no file). -/
def HandleSaveGlobalData {α : Type} (createOk : Bool) (f4seVersion runtimeVersion : Nat)
    (regs : List (PluginCallbacks α)) (g : Globals) : Globals × Option (List Byte) :=
  if !createOk then (g, none)
  else
    let g1 : Globals :=
      { g with
        s_currentFile := IFileStream.Create.Skip 20
        s_fileHeader :=
          { signature := kSignature, formatVersion := kVersion, f4seVersion := f4seVersion,
            runtimeVersion := runtimeVersion, numPlugins := 0 } }
    match savePlugins regs 0 g1 with
    | .fault _ g2 => (g2, some g2.s_currentFile.data)
    | .ok _ g2 =>
      let f := (g2.s_currentFile.SetOffset 0).WriteBuf g2.s_fileHeader.bytes
      ({ g2 with s_currentFile := f }, some f.data)

/-! ## The load pass -/

/-- What the load pass did, in order: the section headers it read and the load
callbacks it invoked. -/
inductive Event (α : Type) where
  /-- The file header passed the three checks and section processing began. -/
  | headerAccepted (hdr : Header)
  /-- A section header was read at `offset`. -/
  | sectionHeader (offset : Nat) (hdr : PluginHeader)
  /-- The load callback of `handle` was invoked in global state `entry`, for a
  section found in the file (`hadSection`) or after the section loop, and ended
  as `exit`. -/
  | load (handle : Nat) (hadSection : Bool) (entry : Globals) (exit : Outcome α)
  deriving DecidableEq

/-- The search of `HandleLoadGlobalData` for the record carrying `signature`,
over the records from index `i` on, `pluginIdx` being the value found so far. -/
def findPlugin {α : Type} : List (PluginCallbacks α) → Nat → Nat → Nat → Nat
  | [], _, _, pluginIdx => pluginIdx
  | info :: rest, i, signature, pluginIdx =>
    findPlugin rest (i + 1) signature
      (if info.hadUID && decide (info.uid = signature) then i % 2 ^ 32 else pluginIdx)

/-- State of the load pass: the registry, the globals and the events so far. -/
structure LoadState (α : Type) where
  regs : List (PluginCallbacks α)
  g : Globals
  log : List (Event α)

/-- First half of the body of the section loop of `HandleLoadGlobalData`, once
the section header `bs` has been read at `offset` (the stream `f` is past it):
the plugin is looked up and, inside the `try`, marked and its load callback
run. A fault of the callback is swallowed by the `catch`. -/
def deliverSection {α : Type} (offset : Nat) (bs : List Byte) (f : IFileStream)
    (st : LoadState α) : LoadState α :=
  let g1 : Globals := { st.g with s_currentFile := f, s_pluginHeader := PluginHeader.ofBytes bs }
  let pluginIdx := findPlugin st.regs 0 g1.s_pluginHeader.signature kPluginHandle_Invalid
  let log1 := st.log ++ [Event.sectionHeader offset g1.s_pluginHeader]
  if pluginIdx ≠ kPluginHandle_Invalid then
    match st.regs[pluginIdx]? with
    | none => { regs := st.regs, g := g1, log := log1 }
    | some info =>
      let regs2 := st.regs.set pluginIdx { info with hadData := true }
      match info.load with
      | some cb =>
        let g2 : Globals := { g1 with s_chunkOpen := false }
        let out := runLoad cb g2
        { regs := regs2, g := out.globals, log := log1 ++ [Event.load pluginIdx true g2 out] }
      | none => { regs := regs2, g := g1, log := log1 }
  else { regs := st.regs, g := g1, log := log1 }

/-- Second half of the body of the section loop: the stream is moved to the
end of the section, `pluginChunkStart + s_pluginHeader.length`, unless it is
there already. -/
def reconcile {α : Type} (pluginChunkStart : Nat) (st2 : LoadState α) : LoadState α :=
  let expectedOffset := pluginChunkStart + st2.g.s_pluginHeader.length
  if st2.g.s_currentFile.GetOffset ≠ expectedOffset then
    { st2 with g := { st2.g with s_currentFile := st2.g.s_currentFile.SetOffset expectedOffset } }
  else st2

/-- Body of the section loop of `HandleLoadGlobalData` once the section header
`bs` has been read at `offset`; `pluginChunkStart` is the offset of the stream
`f` behind the header. -/
def loadSection {α : Type} (offset : Nat) (bs : List Byte) (f : IFileStream) (st : LoadState α) :
    LoadState α :=
  reconcile f.GetOffset (deliverSection offset bs f st)

/-- The section loop of `HandleLoadGlobalData`. Every turn moves the stream at
least 12 bytes forward, so `fuel` at least the number of remaining bytes is
never used up. The flag tells whether the loop was left through a fault. -/
def loadSections {α : Type} : Nat → LoadState α → LoadState α × Bool
  | 0, st => (st, false)
  | fuel + 1, st =>
    if st.g.s_currentFile.GetRemain ≥ 12 then
      match st.g.s_currentFile.ReadBuf 12 with
      | none => (st, true)
      | some (bs, f) => loadSections fuel (loadSection st.g.s_currentFile.GetOffset bs f st)
    else (st, false)

/-- The last loop of `HandleLoadGlobalData`, over the records from index `i`
on: the load callback of every record without data is invoked. A fault in one
of them reaches the outer `catch` and ends the loop. -/
def loadNoData {α : Type} : List (PluginCallbacks α) → Nat → Globals → List (Event α) →
    Globals × List (Event α)
  | [], _, g, log => (g, log)
  | info :: rest, i, g, log =>
    if !info.hadData then
      match info.load with
      | some cb =>
        match runLoad cb g with
        | .ok a g1 => loadNoData rest (i + 1) g1 (log ++ [Event.load i false g (.ok a g1)])
        | .fault why g1 => (g1, log ++ [Event.load i false g (.fault why g1)])
      | none => loadNoData rest (i + 1) g log
    else loadNoData rest (i + 1) g log

/-- The part of `HandleLoadGlobalData` behind the three header checks: the
`hadData` flags are reset, the sections are processed, and the load callbacks
of the records left without data are invoked unless a fault reached the outer
`catch` before. -/
def loadAccepted {α : Type} (header : Header) (regs : List (PluginCallbacks α)) (g : Globals) :
    LoadState α :=
  let regs1 := regs.map fun info => { info with hadData := false }
  let r := loadSections g.s_currentFile.GetRemain
    { regs := regs1, g := g, log := [Event.headerAccepted header] }
  if r.2 then r.1
  else
    let r2 := loadNoData r.1.regs 0 r.1.g r.1.log
    { regs := r.1.regs, g := r2.1, log := r2.2 }

/-- `HandleLoadGlobalData`. `disk` is the content of the co-save file, `none`
when there is no such file. -/
def HandleLoadGlobalData {α : Type} (disk : Option (List Byte))
    (regs : List (PluginCallbacks α)) (g : Globals) : LoadState α :=
  match disk with
  | none => { regs := regs, g := g, log := [] }
  | some content =>
    let g0 : Globals := { g with s_currentFile := IFileStream.Open content }
    match g0.s_currentFile.ReadBuf 20 with
    | none => { regs := regs, g := g0, log := [] }
    | some (bs, f) =>
      let header := Header.ofBytes bs
      let g1 : Globals := { g0 with s_currentFile := f }
      if header.signature ≠ kSignature then { regs := regs, g := g1, log := [] }
      else if header.formatVersion ≤ kVersion_Invalid then { regs := regs, g := g1, log := [] }
      else if header.formatVersion > kVersion then { regs := regs, g := g1, log := [] }
      else loadAccepted header regs g1

/-! ## Identifier resolution

`ResolveModIndex`, the load-order lookup, is not part of the sources. The two
resolve functions take it as a parameter; its result is a `UInt32`. -/

/-- What a resolve call leaves behind: the value returned, the content of the
output parameter afterwards, and the arguments of the calls it made to
`ResolveModIndex`, in order. -/
structure Resolved where
  ret : Bool
  out : Nat
  queried : List Nat
  deriving DecidableEq, Repr

/-- `ResolveFormId(formId, formIdOut)`: `formIdOut` is the content of the
output parameter before the call. -/
def ResolveFormId (ResolveModIndex : Nat → Nat) (formId formIdOut : Nat) : Resolved :=
  let modID := formId >>> 24
  if modID = 0xFF then { ret := true, out := formId, queried := [] }
  else
    let modID := if modID = 0xFE then formId >>> 12 else modID
    let loadedModID := ResolveModIndex modID % 2 ^ 32
    if loadedModID < 0xFF then
      { ret := true
        out := (formId &&& 0x00FFFFFF) ||| ((loadedModID <<< 24) % 2 ^ 32)
        queried := [modID] }
    else if loadedModID > 0xFF then
      { ret := true
        out := ((loadedModID <<< 12) % 2 ^ 32) ||| (formId &&& 0x00000FFF)
        queried := [modID] }
    else { ret := false, out := formIdOut, queried := [modID] }

/-- `ResolveHandle(handle, handleOut)`: `handleOut` is the content of the
output parameter before the call. `modID` is a `UInt32`, `loadedModID` a
`UInt64`. -/
def ResolveHandle (ResolveModIndex : Nat → Nat) (handle handleOut : Nat) : Resolved :=
  let modID := ((handle &&& 0xFF000000) >>> 24) % 2 ^ 32
  if modID = 0xFF then { ret := true, out := handle, queried := [] }
  else
    let modID := if modID = 0xFE then ((handle >>> 12) &&& 0xFFFFF) % 2 ^ 32 else modID
    let loadedModID := ResolveModIndex modID % 2 ^ 32
    if loadedModID < 0xFF then
      { ret := true
        out := (handle &&& 0xFFFFFFFF00FFFFFF) ||| ((loadedModID <<< 24) % 2 ^ 64)
        queried := [modID] }
    else if loadedModID > 0xFF then
      { ret := true
        out := (handle &&& 0xFFFFFFFF00000FFF) ||| ((loadedModID <<< 12) % 2 ^ 64)
        queried := [modID] }
    else { ret := false, out := handleOut, queried := [modID] }

/-- The slot a reference names, as the format describes it: bits 24..31, or,
when these read as the light sentinel `0xFE`, the 20-bit value in bits 12..31.
The same for a form identifier and for a handle. -/
def extractedSlot (ref : Nat) : Nat :=
  if ref / 2 ^ 24 % 256 = 0xFE then ref / 2 ^ 12 % 2 ^ 20 else ref / 2 ^ 24 % 256

/-! ## Typed values: text

The calls `intfc->WriteRecordData` and `intfc->ReadRecordData` go through the
interface table, which is not part of the sources; they are the functions
`WriteRecordData` and `ReadRecordData` of this file. -/

/-- The constant `SHRT_MAX`. -/
def SHRT_MAX : Nat := 32767

/-- Memory image of a `UInt16` on the little-endian target: two bytes, least
significant first. -/
def encodeU16 (n : Nat) : List Byte := [byteOf n, byteOf (n / 256)]

/-- The text of a C string: the bytes in front of the first zero byte. -/
def cstring (buf : List Byte) : List Byte := buf.takeWhile fun b => b != 0

/-- `strlen(str)`: `str` is the memory at the pointer, a zero byte follows it. -/
def strlen (str : List Byte) : Nat := (cstring str).length

/-- The array `new char[n]`: its elements are not initialised, `junk` tells
what the allocation happens to hold. -/
def newArray (junk : Nat → Byte) (n : Nat) : List Byte := (List.range n).map junk

/-- A buffer after the bytes `got` have been copied to its start. -/
def copyInto (buf got : List Byte) : List Byte := got ++ buf.drop got.length

/-- `WriteData<std::string>(intfc, str)`: `str` is the content of the string,
`str->length()` the number of its bytes. -/
def WriteData_string (str : List Byte) (g : Globals) : Outcome Bool :=
  let len := str.length % 2 ^ 16
  if len > SHRT_MAX then .ok false g
  else
    match WriteRecordData (encodeU16 len) g with
    | .fault why g1 => .fault why g1
    | .ok false g1 => .ok false g1
    | .ok true g1 =>
      if len = 0 then .ok true g1
      else
        match WriteRecordData (str.take len) g1 with
        | .fault why g2 => .fault why g2
        | .ok false g2 => .ok false g2
        | .ok true g2 => .ok true g2

/-- `WriteData<const char>(intfc, str)`: `str` is the memory at the pointer. -/
def WriteData_constChar (str : List Byte) (g : Globals) : Outcome Bool :=
  let len := strlen str % 2 ^ 16
  if len > SHRT_MAX then .ok false g
  else
    match WriteRecordData (encodeU16 len) g with
    | .fault why g1 => .fault why g1
    | .ok false g1 => .ok false g1
    | .ok true g1 =>
      if len = 0 then .ok true g1
      else
        match WriteRecordData (str.take len) g1 with
        | .fault why g2 => .fault why g2
        | .ok false g2 => .ok false g2
        | .ok true g2 => .ok true g2

/-- `WriteData<BSFixedString>(intfc, str)`: `str` is what `str->c_str()` points to. -/
def WriteData_BSFixedString (str : List Byte) (g : Globals) : Outcome Bool :=
  WriteData_constChar str g

/-- `ReadData<std::string>(intfc, str)`: `str` is the content of the output
string before the call; the result is the value returned and the content of
the output string afterwards. `junk` is what the array `buf` holds when it is
allocated. -/
def ReadData_string (junk : Nat → Byte) (str : List Byte) (g : Globals) :
    Outcome (Bool × List Byte) :=
  match ReadRecordData 2 g with
  | .fault why g1 => .fault why g1
  | .ok (n1, got1) g1 =>
    if n1 = 0 then .ok (false, str) g1
    else
      let len := decodeLE (copyInto (encodeU16 0) got1)
      if len = 0 then .ok (true, str) g1
      else if len > SHRT_MAX then .ok (false, str) g1
      else
        let buf := (newArray junk (len + 1)).set 0 0
        match ReadRecordData len g1 with
        | .fault why g2 => .fault why g2
        | .ok (n2, got2) g2 =>
          if n2 = 0 then .ok (false, str) g2
          else
            let buf := (copyInto buf got2).set len 0
            .ok (true, cstring buf) g2

/-- `ReadData<BSFixedString>(intfc, str)`: as `ReadData<std::string>`, the
output being the string `BSFixedString(buf)`. -/
def ReadData_BSFixedString (junk : Nat → Byte) (str : List Byte) (g : Globals) :
    Outcome (Bool × List Byte) :=
  match ReadRecordData 2 g with
  | .fault why g1 => .fault why g1
  | .ok (n1, got1) g1 =>
    if n1 = 0 then .ok (false, str) g1
    else
      let len := decodeLE (copyInto (encodeU16 0) got1)
      if len = 0 then .ok (true, str) g1
      else if len > SHRT_MAX then .ok (false, str) g1
      else
        let buf := (newArray junk (len + 1)).set 0 0
        match ReadRecordData len g1 with
        | .fault why g2 => .fault why g2
        | .ok (n2, got2) g2 =>
          if n2 = 0 then .ok (false, str) g2
          else
            let buf := (copyInto buf got2).set len 0
            .ok (true, cstring buf) g2

/-- The bytes a write-side call put in the file: the file content between
the stream offset before the call (state `g`) and the stream offset after it
(state `g1`). -/
def bytesWritten (g g1 : Globals) : List Byte :=
  slice g1.s_currentFile.data g.s_currentFile.streamOffset
    (g1.s_currentFile.streamOffset - g.s_currentFile.streamOffset)

/-! ## The container layout, as the format description gives it -/

/-- A chunk as the format describes it: type tag, version tag and payload. -/
structure Record where
  type : Nat
  version : Nat
  payload : List Byte
  deriving DecidableEq, Repr

/-- File image of a chunk: `ChunkHeader { type, version, length }` followed by
the payload. -/
def Record.image (c : Record) : List Byte :=
  (ChunkHeader.mk c.type c.version c.payload.length).bytes ++ c.payload

/-- File image of the chunks of a section, one after the other. -/
def bodyImage : List Record → List Byte
  | [] => []
  | c :: cs => c.image ++ bodyImage cs

/-- Byte length of the chunks of a section, chunk headers included. -/
def bodyLength : List Record → Nat
  | [] => 0
  | c :: cs => 12 + c.payload.length + bodyLength cs

/-- File image of a plugin section: `PluginHeader { uid, chunk count, byte
length }` followed by the chunks. -/
def sectionImage (uid : Nat) (cs : List Record) : List Byte :=
  (PluginHeader.mk uid cs.length (bodyLength cs)).bytes ++ bodyImage cs

/-- The chunks a save callback has produced when it returns or throws, given
the chunks `closed` it had completed and the chunk `cur` it had open before
the calls listed: `OpenRecord` completes the open chunk and starts an empty
one, `WriteRecordData` extends the open chunk. -/
def recordsFrom : SaveCallback → List Record → Record → List Record × Record
  | [], closed, cur => (closed, cur)
  | .raise :: _, closed, cur => (closed, cur)
  | .openRecord type version :: rest, closed, cur =>
    recordsFrom rest (closed ++ [cur]) ⟨type, version, []⟩
  | .writeRecordData buf :: rest, closed, cur =>
    recordsFrom rest closed { cur with payload := cur.payload ++ buf }

/-- The chunks of a save callback whose first call, if it makes one before
throwing, is `OpenRecord`. -/
def recordsOf : SaveCallback → List Record
  | .openRecord type version :: rest =>
    (recordsFrom rest [] ⟨type, version, []⟩).1 ++ [(recordsFrom rest [] ⟨type, version, []⟩).2]
  | _ => []

/-- A save callback writes data only inside chunks it opened: it does not
start with `WriteRecordData`. After the first `OpenRecord` a chunk is open
until the callback ends. -/
def writesInsideChunks : SaveCallback → Bool
  | .writeRecordData _ :: _ => false
  | _ => true

/-- The bytes `bs` stand in the file content `data` from offset `a` on. Bytes
past the end of `data` count as zero, as a later write would make them. -/
def holds (data : List Byte) (a : Nat) (bs : List Byte) : Prop :=
  ∀ k, k < bs.length → data.getD (a + k) 0 = bs.getD k 0

/-- The calls that make one chunk: `OpenRecord(type, version)` followed by one
`WriteRecordData` call for each of the buffers `bufs`. -/
structure RecordCalls where
  type : Nat
  version : Nat
  bufs : List (List Byte)
  deriving DecidableEq, Repr

/-- The chunk these calls produce: its payload is what the `WriteRecordData`
calls wrote, in order. -/
def RecordCalls.record (c : RecordCalls) : Record := ⟨c.type, c.version, c.bufs.flatten⟩

/-- The save callback that makes the given chunks one after the other, without
an explicit close. -/
def scriptOf : List RecordCalls → SaveCallback
  | [] => []
  | c :: cs =>
    SaveCall.openRecord c.type c.version :: (c.bufs.map SaveCall.writeRecordData ++ scriptOf cs)

/-- The first call of the save callback is `OpenRecord`: it opens at least one
chunk. -/
def opensChunk : SaveCallback → Bool
  | .openRecord _ _ :: _ => true
  | _ => false

/-- The record takes part in a save pass with a section of its own: it has a
save callback, it has a UID, and the callback opens at least one chunk. -/
def savesSection {α : Type} (info : PluginCallbacks α) : Bool :=
  match info.save with
  | some cb => info.hadUID && opensChunk cb
  | none => false

/-- The sections a save pass over the registry puts in the file, in handle
order: one for every record that has a save callback, has a UID and whose
callback opened at least one chunk; each with the UID and the chunks. -/
def savedSections {α : Type} : List (PluginCallbacks α) → List (Nat × List Record)
  | [] => []
  | info :: rest =>
    match info.save with
    | some cb =>
      if info.hadUID then
        match recordsOf cb with
        | [] => savedSections rest
        | r :: rs => (info.uid, r :: rs) :: savedSections rest
      else savedSections rest
    | none => savedSections rest

/-- File image of a sequence of sections. -/
def sectionsImage : List (Nat × List Record) → List Byte
  | [] => []
  | s :: ss => sectionImage s.1 s.2 ++ sectionsImage ss

/-- File image of a co-save file: the header, counting the sections, followed
by the sections. -/
def fileImage (f4seVersion runtimeVersion : Nat) (secs : List (Nat × List Record)) : List Byte :=
  (Header.mk kSignature kVersion f4seVersion runtimeVersion secs.length).bytes
    ++ sectionsImage secs

/-- The values of `s_pluginHeader` and `s_chunkOpen` a save pass over the
registry leaves behind, given the values before it: those of the last record
with a save callback and a UID. -/
def sectionStateAfter {α : Type} : List (PluginCallbacks α) → PluginHeader × Bool →
    PluginHeader × Bool
  | [], st => st
  | info :: rest, st =>
    match info.save with
    | some cb =>
      if info.hadUID then
        sectionStateAfter rest
          (⟨info.uid, (recordsOf cb).length, bodyLength (recordsOf cb)⟩, false)
      else sectionStateAfter rest st
    | none => sectionStateAfter rest st

/-- A plugin section as the load pass meets it in a file: the UID and the
chunk count of its header, and the bytes that follow the header; the length
field of the header is the number of these bytes. -/
structure Section where
  uid : Nat
  numChunks : Nat
  body : List Byte
  deriving DecidableEq, Repr

/-- File image of a section. -/
def Section.image (s : Section) : List Byte :=
  (PluginHeader.mk s.uid s.numChunks s.body.length).bytes ++ s.body

/-- File image of a sequence of sections. -/
def sectionsBytes : List Section → List Byte
  | [] => []
  | s :: ss => s.image ++ sectionsBytes ss

/-- What a turn of the section loop shows from outside: the section header it
read and where, and the record it handed the section to, with the stream
offset, the section header and the chunk-open flag at the moment the load
callback was entered. -/
inductive Visit where
  | header (offset : Nat) (hdr : PluginHeader)
  | delivered (handle offset : Nat) (hdr : PluginHeader) (chunkOpen : Bool)
  deriving DecidableEq, Repr

/-- The part of an event that concerns the sections of the file. -/
def Event.visit {α : Type} : Event α → Option Visit
  | .sectionHeader offset hdr => some (.header offset hdr)
  | .load handle true entry _ =>
    some (.delivered handle entry.s_currentFile.streamOffset entry.s_pluginHeader
      entry.s_chunkOpen)
  | _ => none

/-- Offset at which a section header was read, if the visit is such a read. -/
def Visit.headerOffset : Visit → Option Nat
  | .header offset _ => some offset
  | .delivered _ _ _ _ => none

/-- The hand-over the format description predicts for a section with header
`hdr` whose body starts at `offset`: to the record that the lookup finds for
its UID, if that record has a load callback, with no chunk open; none if the
lookup finds no record. -/
def deliveredTo {α : Type} (regs : List (PluginCallbacks α)) (offset : Nat) (hdr : PluginHeader) :
    List Visit :=
  let pluginIdx := findPlugin regs 0 hdr.signature kPluginHandle_Invalid
  if pluginIdx ≠ kPluginHandle_Invalid then
    match regs[pluginIdx]? with
    | some info => if info.load.isSome then [Visit.delivered pluginIdx offset hdr false] else []
    | none => []
  else []

/-- The visits the format description predicts for the sections `secs` that
start at offset `off`: every section header is read right behind the previous
section, and every section is handed over at its first chunk header. -/
def expectedVisits {α : Type} (regs : List (PluginCallbacks α)) : Nat → List Section → List Visit
  | _, [] => []
  | off, s :: ss =>
    Visit.header off ⟨s.uid, s.numChunks, s.body.length⟩
      :: (deliveredTo regs (off + 12) ⟨s.uid, s.numChunks, s.body.length⟩
          ++ expectedVisits regs (off + 12 + s.body.length) ss)

/-- The load callback that calls `GetNextRecordInfo` until it returns `false`
and reads each chunk in full with one `ReadRecordData` call, gathering the
chunks it saw after `acc`; the iteration is cut off after `n` chunks. -/
def readAll : Nat → List Record → LoadCallback (List Record)
  | 0, acc => .ret acc
  | n + 1, acc =>
    .getNextRecordInfo fun r =>
      match r with
      | none => .ret acc
      | some (type, version, length) =>
        .readRecordData length fun got => readAll n (acc ++ [⟨type, version, got.2⟩])

/-- The record with its `hadData` flag cleared. -/
def PluginCallbacks.clearData {α : Type} (info : PluginCallbacks α) : PluginCallbacks α :=
  { info with hadData := false }

/-- The save callback that emits the given chunks, each with `OpenRecord`
followed by one `WriteRecordData` of the whole payload. -/
def saveScript (recs : List Record) : SaveCallback :=
  scriptOf (recs.map fun r => ⟨r.type, r.version, [r.payload]⟩)

/-- The chunks the save callback of the record writes; none without a save
callback. -/
def written {α : Type} (info : PluginCallbacks α) : List Record :=
  match info.save with
  | some cb => recordsOf cb
  | none => []

/-- The handle and the result of a load callback invocation: what the callback
returned, `none` if it ended in a fault. -/
def Event.observed {α : Type} : Event α → Option (Nat × Option α)
  | .load handle _ _ (.ok a _) => some (handle, some a)
  | .load handle _ _ (.fault _ _) => some (handle, none)
  | _ => none

/-- The record after a load pass over a file saved from the same registry:
`hadData` tells whether the record wrote a section. -/
def PluginCallbacks.markData {α : Type} (info : PluginCallbacks α) : PluginCallbacks α :=
  { info with hadData := !(written info).isEmpty }

/-- The load callback invocations expected for the sections of a file saved
from the records given, whose handles start at `i`: in handle order, every
record that wrote chunks is invoked once and returns the chunks it wrote. -/
def sectionLoads {α : Type} (i : Nat) : List (PluginCallbacks α) → List (Nat × Option (List Record))
  | [] => []
  | info :: rest =>
    if (written info).isEmpty then sectionLoads (i + 1) rest
    else (i, some (written info)) :: sectionLoads (i + 1) rest

/-- The load callback invocations expected after the section loop: in handle
order, every record that wrote no chunk is invoked once and returns what it
wrote, no chunk. -/
def noDataLoads {α : Type} (i : Nat) : List (PluginCallbacks α) → List (Nat × Option (List Record))
  | [] => []
  | info :: rest =>
    if (written info).isEmpty then (i, some (written info)) :: noDataLoads (i + 1) rest
    else noDataLoads (i + 1) rest

/-- The record is set up for a round trip: it has a UID, its save callback
emits a list of chunks with `saveScript`, its load callback is `readAll` with
a cut-off above the number of these chunks, every chunk has 32-bit type and
version tags and a payload shorter than 2^31 bytes, and the section total is
below 2^32. -/
structure RoundTripReady (info : PluginCallbacks (List Record)) : Prop where
  hasUID : info.hadUID = true
  uidLt : info.uid < 2 ^ 32
  saves : info.save = some (saveScript (written info))
  loads : ∃ n, info.load = some (readAll n []) ∧ (written info).length < n
  fields : ∀ r ∈ written info, r.type < 2 ^ 32 ∧ r.version < 2 ^ 32 ∧ r.payload.length < 2 ^ 31
  total : bodyLength (written info) < 2 ^ 32

/-- No chunk is open and no chunk is left in the section: the next
`GetNextRecordInfo` returns `false`. -/
def quiet (g : Globals) : Prop := g.s_pluginHeader.numChunks = 0 ∧ g.s_chunkOpen = false

/-- Write-side state of a section whose header is reserved at offset `o`, after
the chunks `closed` have been flushed and with no chunk open. `d0`, `h0` and
`i` are the file content, the file header and the current plugin the section
started from. -/
structure Flushed (d0 : List Byte) (h0 : Header) (i o uid : Nat) (closed : List Record)
    (g : Globals) : Prop where
  hdrOff : g.s_pluginHeaderOffset = o
  sig : g.s_pluginHeader.signature = uid
  num : g.s_pluginHeader.numChunks = closed.length
  len : g.s_pluginHeader.length = bodyLength closed
  isOpen : g.s_chunkOpen = false
  off : g.s_currentFile.streamOffset = o + 12 + bodyLength closed
  body : holds g.s_currentFile.data (o + 12) (bodyImage closed)
  lenGe : g.s_currentFile.streamOffset ≤ g.s_currentFile.data.length
  low : ∀ k, k < o → g.s_currentFile.data.getD k 0 = d0.getD k 0
  high : ∀ k, o + 12 + bodyLength closed ≤ k → g.s_currentFile.data.getD k 0 = d0.getD k 0
  lenLe : g.s_currentFile.data.length ≤ max d0.length g.s_currentFile.streamOffset
  fh : g.s_fileHeader = h0
  cp : g.s_currentPlugin = i

/-- Write-side state of a section whose header is reserved at offset `o`, after
the chunks `closed` have been flushed and while the chunk `cur` is open. -/
structure Writing (d0 : List Byte) (h0 : Header) (i o uid : Nat) (closed : List Record)
    (cur : Record) (g : Globals) : Prop where
  hdrOff : g.s_pluginHeaderOffset = o
  sig : g.s_pluginHeader.signature = uid
  num : g.s_pluginHeader.numChunks = closed.length + 1
  len : g.s_pluginHeader.length = bodyLength closed
  isOpen : g.s_chunkOpen = true
  chOff : g.s_chunkHeaderOffset = o + 12 + bodyLength closed
  chType : g.s_chunkHeader.type = cur.type
  chVersion : g.s_chunkHeader.version = cur.version
  off : g.s_currentFile.streamOffset = o + 12 + bodyLength closed + 12 + cur.payload.length
  body : holds g.s_currentFile.data (o + 12) (bodyImage closed)
  pay : holds g.s_currentFile.data (o + 12 + bodyLength closed + 12) cur.payload
  written : cur.payload = [] ∨ g.s_currentFile.streamOffset ≤ g.s_currentFile.data.length
  low : ∀ k, k < o → g.s_currentFile.data.getD k 0 = d0.getD k 0
  high : ∀ k, o + 12 + bodyLength closed + 12 + cur.payload.length ≤ k →
    g.s_currentFile.data.getD k 0 = d0.getD k 0
  lenLe : g.s_currentFile.data.length ≤ max d0.length g.s_currentFile.streamOffset
  fh : g.s_fileHeader = h0
  cp : g.s_currentPlugin = i

/-- Write-side state in a section whose header is reserved at offset `o`,
after `c` calls `OpenRecord(0, 0)` with no byte written to any chunk: the last
chunk is open and empty, and every byte of the file is zero. -/
structure ZeroRun (h0 : Header) (o c : Nat) (g : Globals) : Prop where
  isOpen : g.s_chunkOpen = true
  num : g.s_pluginHeader.numChunks = c % 2 ^ 32
  chOff : g.s_chunkHeaderOffset = o + 12 * c
  off : g.s_currentFile.streamOffset = o + 12 * c + 12
  chdr : g.s_chunkHeader = ⟨0, 0, 0⟩
  zero : ∀ k, g.s_currentFile.data.getD k 0 = 0
  lenLe : g.s_currentFile.data.length ≤ o + 12 * c + 12
  fh : g.s_fileHeader = h0

/-- Write-side state after the section of the chunks `recs` has been closed:
the section stands in the file from offset `o` on, the stream is behind it,
and the file header counts one more plugin. -/
structure Saved (d0 : List Byte) (h0 : Header) (i o uid : Nat) (recs : List Record)
    (g : Globals) : Prop where
  off : g.s_currentFile.streamOffset = o + 12 + bodyLength recs
  image : holds g.s_currentFile.data o (sectionImage uid recs)
  lenGe : g.s_currentFile.streamOffset ≤ g.s_currentFile.data.length
  low : ∀ k, k < o → g.s_currentFile.data.getD k 0 = d0.getD k 0
  high : ∀ k, o + 12 + bodyLength recs ≤ k → g.s_currentFile.data.getD k 0 = d0.getD k 0
  lenLe : g.s_currentFile.data.length ≤ max d0.length g.s_currentFile.streamOffset
  fh : g.s_fileHeader = { h0 with numPlugins := (h0.numPlugins + 1) % 2 ^ 32 }
  ph : g.s_pluginHeader = ⟨uid, recs.length, bodyLength recs⟩
  isOpen : g.s_chunkOpen = false
  cp : g.s_currentPlugin = i

/-! ## Concrete states and files used as test inputs -/

/-- Global state of a process that has neither saved nor loaded yet. -/
def idleGlobals : Globals :=
  { s_currentFile := IFileStream.Create, s_currentPlugin := 0,
    s_fileHeader := ⟨0, 0, 0, 0, 0⟩, s_pluginHeaderOffset := 0, s_pluginHeader := ⟨0, 0, 0⟩,
    s_chunkOpen := false, s_chunkHeaderOffset := 0, s_chunkHeader := ⟨0, 0, 0⟩ }

/-- A file header that passes the three checks of the load pass. -/
def acceptedHeader : Header := ⟨kSignature, kVersion, 0, 0, 1⟩

/-- Read-side state at the start of a section body holding two chunks: one of
type 1, version 2 with the payload `10 20 30`, one of type 4, version 5 with
no payload. -/
def twoChunkState : Globals :=
  { idleGlobals with
    s_currentFile :=
      IFileStream.Open
        ((ChunkHeader.mk 1 2 3).bytes ++ [10, 20, 30] ++ (ChunkHeader.mk 4 5 0).bytes)
    s_pluginHeader := ⟨9, 2, 27⟩ }

/-- The state `twoChunkState` after the first `GetNextRecordInfo`. -/
def twoChunkOpen : Globals := (GetNextRecordInfo twoChunkState).globals

/-- Two records carrying the same UID 7; the load callback of handle `h`
returns `h`. -/
def twinRegs : List (PluginCallbacks Nat) :=
  [ { revert := none, save := none, load := some (.ret 0), formDelete := none,
      uid := 7, hadUID := true, hadData := false },
    { revert := none, save := none, load := some (.ret 1), formDelete := none,
      uid := 7, hadUID := true, hadData := false } ]

/-- A co-save file with one empty section of UID 7. -/
def twinFile : List Byte := acceptedHeader.bytes ++ (PluginHeader.mk 7 0 0).bytes

/-- Handle of the record whose load callback was invoked for a section of the
file, if the event is such an invocation. -/
def Event.loadedInSection {α : Type} : Event α → Option Nat
  | .load handle true _ _ => some handle
  | _ => none

/-- A record set up for a round trip: UID `uid`, a save callback emitting
`recs`, a load callback reading up to five chunks. -/
def roundTripRecord (uid : Nat) (recs : List Record) : PluginCallbacks (List Record) :=
  { revert := none, save := some (saveScript recs), load := some (readAll 5 []),
    formDelete := none, uid := uid, hadUID := true, hadData := false }

/-- Three records: handle 0 writes two chunks, handle 1 none, handle 2 one
chunk without payload. -/
def roundTripRegs : List (PluginCallbacks (List Record)) :=
  [roundTripRecord 77 [⟨1, 2, [10, 20, 30]⟩, ⟨3, 4, [9]⟩], roundTripRecord 78 [],
   roundTripRecord 79 [⟨5, 6, []⟩]]

/-- As many as 2^32 chunks of type 0 and version 0 with an empty payload. -/
def wrapRecords : List Record := List.replicate 4294967296 ⟨0, 0, []⟩

/-- A save callback that emits the 2^32 empty chunks of `wrapRecords`, each
with `OpenRecord(0, 0)` followed by a `WriteRecordData` of no bytes. -/
def wrapScript : SaveCallback := saveScript wrapRecords

/-- A record with UID 1, the save callback `wrapScript`, and a load callback
that reads every chunk it finds, up to 2^32 + 1 of them. -/
def wrapRecord : PluginCallbacks (List Record) :=
  { revert := none, save := some wrapScript, load := some (readAll 4294967297 []),
    formDelete := none, uid := 1, hadUID := true, hadData := false }

/-- A registry with the one record `wrapRecord`. -/
def wrapRegs : List (PluginCallbacks (List Record)) := [wrapRecord]

/-- A load callback that calls `GetNextRecordInfo` once and returns what the
call returned. -/
def probe : LoadCallback (Option (Nat × Nat × Nat)) := .getNextRecordInfo fun r => .ret r

/-- A registry with one record: UID 1, load callback `probe`. -/
def probeRegs : List (PluginCallbacks (Option (Nat × Nat × Nat))) :=
  [ { revert := none, save := none, load := some probe, formDelete := none,
      uid := 1, hadUID := true, hadData := false } ]

/-- A co-save file whose only section belongs to a plugin with UID 2 and holds
one chunk without payload. -/
def orphanFile : List Byte :=
  acceptedHeader.bytes ++ (PluginHeader.mk 2 1 12).bytes ++ (ChunkHeader.mk 0 0 0).bytes

/-- Global state in which the load pass over `orphanFile` invokes the load
callbacks of the records without data: the stream is at the end of the file
and `s_pluginHeader` still holds the header of the skipped section. -/
def orphanEntry : Globals :=
  { idleGlobals with
    s_currentFile := { data := orphanFile, streamOffset := 44 }
    s_pluginHeader := ⟨2, 1, 12⟩ }

/-- A lookup that answers every slot with the light slot `0xFE001`. -/
def lightLookup : Nat → Nat := fun _ => 0xFE001

/-- A lookup that answers every slot with the regular slot 5. -/
def regularLookup : Nat → Nat := fun _ => 5

/-- A lookup that reports every slot absent. -/
def absentLookup : Nat → Nat := fun _ => 0xFF

/-- A lookup whose answer, 2^20, does not fit the 20 bits of a light slot. -/
def wideLookup : Nat → Nat := fun _ => 0x100000

/-- Read-side state inside a chunk: the file content is `bs`, the stream is at
its start, and the open chunk has `n` bytes left. -/
def chunkOf (bs : List Byte) (n : Nat) : Globals :=
  { idleGlobals with
    s_currentFile := ⟨bs, 0⟩, s_chunkOpen := true, s_chunkHeader := ⟨0, 0, n⟩ }

/-- A fresh allocation in which every byte happens to be `0x21`. -/
def staleMemory : Nat → Byte := fun _ => 0x21

/-- A text of 65536 bytes, each the letter `A`. -/
def longText : List Byte := List.replicate 65536 0x41

/-! ## The byte stream: lemmas -/

theorem getD_pad (data : List Byte) (n k : Nat) :
    (data ++ List.replicate n (0 : Byte)).getD k 0 = data.getD k 0 := by
  simp only [List.getD_eq_getElem?_getD]
  by_cases h : k < data.length
  · rw [List.getElem?_append_left h]
  · rw [List.getElem?_append_right (by omega), List.getElem?_eq_none (l := data) (by omega),
      List.getElem?_replicate]
    split_ifs <;> rfl

theorem writeBuf_length (f : IFileStream) (buf : List Byte) :
    (f.WriteBuf buf).data.length = max f.data.length (f.streamOffset + buf.length) := by
  unfold IFileStream.WriteBuf
  simp only [List.length_append, List.length_take, List.length_drop, List.length_replicate]
  omega

theorem writeBuf_getD (f : IFileStream) (buf : List Byte) (k : Nat) :
    (f.WriteBuf buf).data.getD k 0
      = if f.streamOffset ≤ k ∧ k < f.streamOffset + buf.length
        then buf.getD (k - f.streamOffset) 0 else f.data.getD k 0 := by
  have hpad := getD_pad f.data (f.streamOffset - f.data.length)
  unfold IFileStream.WriteBuf
  simp only [List.getD_eq_getElem?_getD] at hpad ⊢
  have hl : (List.take f.streamOffset
      (f.data ++ List.replicate (f.streamOffset - f.data.length) (0 : Byte))).length
        = f.streamOffset := by
    simp only [List.length_take, List.length_append, List.length_replicate]
    omega
  by_cases h1 : k < f.streamOffset
  · rw [if_neg (by omega), List.append_assoc, List.getElem?_append_left (by omega),
      List.getElem?_take_of_lt h1, hpad]
  · by_cases h2 : k < f.streamOffset + buf.length
    · rw [if_pos ⟨by omega, h2⟩, List.append_assoc, List.getElem?_append_right (by omega), hl,
        List.getElem?_append_left (by omega)]
    · rw [if_neg (by omega), List.getElem?_append_right
        (by simp only [List.length_append, hl]; omega)]
      simp only [List.length_append, hl, List.getElem?_drop]
      rw [show f.streamOffset + buf.length + (k - (f.streamOffset + buf.length)) = k by omega,
        hpad]

theorem holds_nil (data : List Byte) (a : Nat) : holds data a [] := by
  intro k hk
  simp at hk

theorem holds_append (data : List Byte) (a : Nat) (x y : List Byte) :
    holds data a (x ++ y) ↔ holds data a x ∧ holds data (a + x.length) y := by
  unfold holds
  simp only [List.getD_eq_getElem?_getD]
  constructor
  · intro h
    constructor
    · intro k hk
      rw [h k (by simp only [List.length_append]; omega), List.getElem?_append_left hk]
    · intro k hk
      have := h (x.length + k) (by simp only [List.length_append]; omega)
      rw [List.getElem?_append_right (by omega)] at this
      rw [Nat.add_assoc, this]
      congr 2
      omega
  · rintro ⟨h1, h2⟩ k hk
    simp only [List.length_append] at hk
    by_cases hx : k < x.length
    · rw [List.getElem?_append_left hx]
      exact h1 k hx
    · rw [List.getElem?_append_right (by omega)]
      have := h2 (k - x.length) (by omega)
      rw [← this]
      congr 2
      omega

theorem holds_writeBuf_self (f : IFileStream) (buf : List Byte) :
    holds (f.WriteBuf buf).data f.streamOffset buf := by
  intro k hk
  rw [writeBuf_getD, if_pos ⟨by omega, by omega⟩]
  congr 1
  omega

theorem holds_writeBuf_frame (f : IFileStream) (buf : List Byte) (a : Nat) (bs : List Byte)
    (h : holds f.data a bs)
    (hd : a + bs.length ≤ f.streamOffset ∨ f.streamOffset + buf.length ≤ a) :
    holds (f.WriteBuf buf).data a bs := by
  intro k hk
  rw [writeBuf_getD, if_neg (by omega)]
  exact h k hk

theorem holds_slice (data : List Byte) (a : Nat) (bs : List Byte) (h : holds data a bs)
    (hl : a + bs.length ≤ data.length) : slice data a bs.length = bs := by
  unfold slice
  apply List.ext_getElem?
  intro k
  by_cases hk : k < bs.length
  · rw [List.getElem?_take_of_lt hk, List.getElem?_drop]
    have := h k hk
    simp only [List.getD_eq_getElem?_getD] at this
    rw [List.getElem?_eq_getElem (by omega), List.getElem?_eq_getElem hk] at this ⊢
    simp only [Option.getD_some] at this
    rw [this]
  · rw [List.getElem?_eq_none (by simp; omega), List.getElem?_eq_none (by omega)]

theorem holds_eq (data bs : List Byte) (h : holds data 0 bs) (hl : data.length = bs.length) :
    data = bs := by
  have := holds_slice data 0 bs h (by omega)
  unfold slice at this
  rw [List.drop_zero, ← hl, List.take_length] at this
  exact this

theorem holds_of_eq (data pre bs post : List Byte) (h : data = pre ++ bs ++ post) :
    holds data pre.length bs := by
  intro k hk
  subst h
  simp only [List.getD_eq_getElem?_getD]
  rw [List.append_assoc, List.getElem?_append_right (by omega),
    List.getElem?_append_left (by omega)]
  congr 2
  omega

/-! ## Write side: lemmas -/

@[simp] theorem encodeU32_length (n : Nat) : (encodeU32 n).length = 4 := rfl

@[simp] theorem chunkHeader_bytes_length (h : ChunkHeader) : h.bytes.length = 12 := rfl

@[simp] theorem pluginHeader_bytes_length (h : PluginHeader) : h.bytes.length = 12 := rfl

@[simp] theorem header_bytes_length (h : Header) : h.bytes.length = 20 := rfl

@[simp] theorem record_image_length (c : Record) : c.image.length = 12 + c.payload.length := by
  simp [Record.image]

@[simp] theorem bodyImage_length (cs : List Record) : (bodyImage cs).length = bodyLength cs := by
  induction cs with
  | nil => rfl
  | cons c cs ih => simp [bodyImage, bodyLength, ih]

theorem bodyImage_append (cs ds : List Record) :
    bodyImage (cs ++ ds) = bodyImage cs ++ bodyImage ds := by
  induction cs with
  | nil => rfl
  | cons c cs ih => simp [bodyImage, ih]

theorem bodyLength_append (cs ds : List Record) :
    bodyLength (cs ++ ds) = bodyLength cs + bodyLength ds := by
  induction cs with
  | nil => simp [bodyLength]
  | cons c cs ih => simp [bodyLength, ih]; omega

theorem bodyLength_ge (cs : List Record) : 12 * cs.length ≤ bodyLength cs := by
  induction cs with
  | nil => simp [bodyLength]
  | cons c cs ih => simp [bodyLength]; omega

theorem bodyLength_mem (cs : List Record) (c : Record) (h : c ∈ cs) :
    12 + c.payload.length ≤ bodyLength cs := by
  induction cs with
  | nil => simp at h
  | cons d cs ih =>
    simp only [List.mem_cons] at h
    rcases h with rfl | h
    · simp [bodyLength]
    · have := ih h
      simp [bodyLength]
      omega

theorem flushWriteChunk_writing (d0 : List Byte) (h0 : Header) (i o uid : Nat)
    (closed : List Record) (cur : Record) (g : Globals)
    (hw : Writing d0 h0 i o uid closed cur g)
    (hsz : cur.payload.length < 2 ^ 31) (htot : bodyLength (closed ++ [cur]) < 2 ^ 32) :
    ∃ g1, FlushWriteChunk g = .ok () g1 ∧ Flushed d0 h0 i o uid (closed ++ [cur]) g1 := by
  have hbl : bodyLength (closed ++ [cur]) = bodyLength closed + (12 + cur.payload.length) := by
    rw [bodyLength_append]; simp [bodyLength]
  have hcs : sub64 (sub64 g.s_currentFile.GetOffset g.s_chunkHeaderOffset) 12
      = cur.payload.length := by
    have h1 : sub64 g.s_currentFile.GetOffset g.s_chunkHeaderOffset
        = 12 + cur.payload.length := by
      unfold sub64 IFileStream.GetOffset
      rw [hw.off, hw.chOff, if_pos (by omega)]
      omega
    rw [h1]
    unfold sub64
    rw [if_pos (by omega)]
    omega
  have hmod : cur.payload.length % 2 ^ 32 = cur.payload.length := Nat.mod_eq_of_lt (by omega)
  have hhdr : ({ g.s_chunkHeader with length := cur.payload.length % 2 ^ 32 } : ChunkHeader)
      = ChunkHeader.mk cur.type cur.version cur.payload.length := by
    rw [hmod, ← hw.chType, ← hw.chVersion]
  have hres : FlushWriteChunk g = .ok ()
      { g with
        s_chunkHeader := ChunkHeader.mk cur.type cur.version cur.payload.length
        s_currentFile :=
          ((g.s_currentFile.SetOffset g.s_chunkHeaderOffset).WriteBuf
            (ChunkHeader.mk cur.type cur.version cur.payload.length).bytes).SetOffset
              g.s_currentFile.GetOffset
        s_pluginHeader :=
          { g.s_pluginHeader with
            length := (g.s_pluginHeader.length + (cur.payload.length + 12)) % 2 ^ 32 }
        s_chunkOpen := false } := by
    unfold FlushWriteChunk
    rw [hw.isOpen]
    simp only [Bool.not_true, Bool.false_eq_true, if_false]
    rw [hcs, if_neg (by omega), hhdr]
  refine ⟨_, hres, ?_⟩
  have hself := holds_writeBuf_self (g.s_currentFile.SetOffset g.s_chunkHeaderOffset)
    (ChunkHeader.mk cur.type cur.version cur.payload.length).bytes
  have hwl := writeBuf_length (g.s_currentFile.SetOffset g.s_chunkHeaderOffset)
    (ChunkHeader.mk cur.type cur.version cur.payload.length).bytes
  have hso : (g.s_currentFile.SetOffset g.s_chunkHeaderOffset).streamOffset
      = g.s_chunkHeaderOffset := rfl
  have hsd : (g.s_currentFile.SetOffset g.s_chunkHeaderOffset).data = g.s_currentFile.data := rfl
  rw [hso] at hself
  rw [hso, hsd, chunkHeader_bytes_length] at hwl
  have hoff := hw.off
  have hch := hw.chOff
  constructor
  · exact hw.hdrOff
  · exact hw.sig
  · simp [hw.num]
  · show (g.s_pluginHeader.length + (cur.payload.length + 12)) % 2 ^ 32 = _
    rw [hw.len, hbl, Nat.mod_eq_of_lt (by omega)]
    omega
  · rfl
  · show g.s_currentFile.streamOffset = _
    rw [hw.off, hbl]
    omega
  · show holds ((g.s_currentFile.SetOffset g.s_chunkHeaderOffset).WriteBuf _).data _ _
    rw [bodyImage_append, holds_append]
    constructor
    · apply holds_writeBuf_frame (g.s_currentFile.SetOffset g.s_chunkHeaderOffset) _ _ _ hw.body
      left
      rw [bodyImage_length, hso, hch]
    · simp only [bodyImage_length, bodyImage, List.append_nil, Record.image]
      rw [holds_append]
      constructor
      · rw [← hch]
        exact hself
      · apply holds_writeBuf_frame (g.s_currentFile.SetOffset g.s_chunkHeaderOffset) _ _ _
        · rw [chunkHeader_bytes_length]
          exact hw.pay
        · right
          rw [chunkHeader_bytes_length, hso, hch]
  · show g.s_currentFile.streamOffset
      ≤ ((g.s_currentFile.SetOffset g.s_chunkHeaderOffset).WriteBuf _).data.length
    rw [hwl]
    rcases hw.written with h | h
    · rw [hoff, hch, h]
      simp
    · omega
  · intro k hk
    show ((g.s_currentFile.SetOffset g.s_chunkHeaderOffset).WriteBuf _).data.getD k 0 = _
    rw [writeBuf_getD, if_neg (by rw [hso, hch]; omega)]
    exact hw.low k hk
  · intro k hk
    show ((g.s_currentFile.SetOffset g.s_chunkHeaderOffset).WriteBuf _).data.getD k 0 = _
    rw [writeBuf_getD, if_neg (by rw [hso, hch, chunkHeader_bytes_length]; omega)]
    exact hw.high k (by omega)
  · show ((g.s_currentFile.SetOffset g.s_chunkHeaderOffset).WriteBuf _).data.length
      ≤ max d0.length g.s_currentFile.streamOffset
    rw [hwl]
    have := hw.lenLe
    omega
  · exact hw.fh
  · exact hw.cp

theorem writeRecordData_writing (d0 : List Byte) (h0 : Header) (i o uid : Nat)
    (closed : List Record) (cur : Record) (g : Globals) (buf : List Byte)
    (hw : Writing d0 h0 i o uid closed cur g) :
    Writing d0 h0 i o uid closed { cur with payload := cur.payload ++ buf }
      { g with s_currentFile := g.s_currentFile.WriteBuf buf } := by
  have hoff := hw.off
  have hwl := writeBuf_length g.s_currentFile buf
  constructor
  · exact hw.hdrOff
  · exact hw.sig
  · exact hw.num
  · exact hw.len
  · exact hw.isOpen
  · exact hw.chOff
  · exact hw.chType
  · exact hw.chVersion
  · show g.s_currentFile.streamOffset + buf.length = _
    simp only [List.length_append]
    omega
  · exact holds_writeBuf_frame _ _ _ _ hw.body (by left; rw [bodyImage_length]; omega)
  · show holds (g.s_currentFile.WriteBuf buf).data _ (cur.payload ++ buf)
    rw [holds_append]
    constructor
    · exact holds_writeBuf_frame _ _ _ _ hw.pay (by left; omega)
    · rw [← hoff]
      exact holds_writeBuf_self _ _
  · right
    show g.s_currentFile.streamOffset + buf.length ≤ (g.s_currentFile.WriteBuf buf).data.length
    rw [hwl]
    omega
  · intro k hk
    show (g.s_currentFile.WriteBuf buf).data.getD k 0 = _
    rw [writeBuf_getD, if_neg (by omega)]
    exact hw.low k hk
  · intro k hk
    show (g.s_currentFile.WriteBuf buf).data.getD k 0 = _
    simp only [List.length_append] at hk
    rw [writeBuf_getD, if_neg (by omega)]
    exact hw.high k (by omega)
  · show (g.s_currentFile.WriteBuf buf).data.length
      ≤ max d0.length (g.s_currentFile.streamOffset + buf.length)
    rw [hwl]
    have := hw.lenLe
    omega
  · exact hw.fh
  · exact hw.cp

theorem openRecord_flushed (d0 : List Byte) (h0 : Header) (i o uid : Nat)
    (closed : List Record) (g : Globals) (type version : Nat)
    (hf : Flushed d0 h0 i o uid closed g) (hne : closed ≠ [])
    (htot : bodyLength closed + 12 < 2 ^ 32) :
    ∃ g1, OpenRecord type version g = .ok true g1
      ∧ Writing d0 h0 i o uid closed ⟨type, version, []⟩ g1 := by
  have hlen := bodyLength_ge closed
  have hpos : 0 < closed.length := List.length_pos.mpr hne
  have hflush : FlushWriteChunk g = .ok () g := by
    unfold FlushWriteChunk
    rw [hf.isOpen]
    rfl
  have hres : OpenRecord type version g = .ok true
      { g with
        s_chunkHeaderOffset := g.s_currentFile.GetOffset
        s_currentFile := g.s_currentFile.Skip 12
        s_pluginHeader :=
          { g.s_pluginHeader with numChunks := (g.s_pluginHeader.numChunks + 1) % 2 ^ 32 }
        s_chunkHeader := { type := type, version := version, length := 0 }
        s_chunkOpen := true } := by
    unfold OpenRecord
    simp only
    rw [if_neg (by rw [hf.num]; omega), hflush]
  refine ⟨_, hres, ?_⟩
  have hoff := hf.off
  constructor
  · exact hf.hdrOff
  · exact hf.sig
  · show (g.s_pluginHeader.numChunks + 1) % 2 ^ 32 = _
    rw [hf.num, Nat.mod_eq_of_lt (by omega)]
  · exact hf.len
  · rfl
  · show g.s_currentFile.streamOffset = _
    exact hoff
  · rfl
  · rfl
  · show g.s_currentFile.streamOffset + 12 = _
    rw [hoff]
    rfl
  · exact hf.body
  · exact holds_nil _ _
  · left
    rfl
  · exact hf.low
  · intro k hk
    exact hf.high k (by simp only [List.length_nil] at hk; omega)
  · show g.s_currentFile.data.length ≤ max d0.length (g.s_currentFile.streamOffset + 12)
    have := hf.lenLe
    omega
  · exact hf.fh
  · exact hf.cp

theorem openRecord_first (g : Globals) (type version : Nat)
    (hn : g.s_pluginHeader.numChunks = 0) (hl : g.s_pluginHeader.length = 0)
    (hopen : g.s_chunkOpen = false) :
    ∃ g1, OpenRecord type version g = .ok true g1
      ∧ Writing g.s_currentFile.data g.s_fileHeader g.s_currentPlugin
          g.s_currentFile.streamOffset g.s_pluginHeader.signature [] ⟨type, version, []⟩ g1 := by
  have hres : OpenRecord type version g = .ok true
      { g with
        s_pluginHeaderOffset := g.s_currentFile.GetOffset
        s_chunkHeaderOffset := (g.s_currentFile.Skip 12).GetOffset
        s_currentFile := (g.s_currentFile.Skip 12).Skip 12
        s_pluginHeader :=
          { g.s_pluginHeader with numChunks := (g.s_pluginHeader.numChunks + 1) % 2 ^ 32 }
        s_chunkHeader := { type := type, version := version, length := 0 }
        s_chunkOpen := true } := by
    unfold OpenRecord
    simp only
    rw [if_pos hn, hopen]
    simp only [Bool.false_eq_true, if_false]
    unfold FlushWriteChunk
    simp only [hopen, Bool.not_false, if_true]
  refine ⟨_, hres, ?_⟩
  constructor
  · rfl
  · rfl
  · show (g.s_pluginHeader.numChunks + 1) % 2 ^ 32 = _
    rw [hn]
    rfl
  · exact hl
  · rfl
  · rfl
  · rfl
  · rfl
  · rfl
  · exact holds_nil _ _
  · exact holds_nil _ _
  · left
    rfl
  · intro k _
    rfl
  · intro k _
    rfl
  · show g.s_currentFile.data.length ≤ max g.s_currentFile.data.length _
    omega
  · rfl
  · rfl

theorem recordsFrom_extends (script : SaveCallback) (closed : List Record) (cur : Record) :
    ∃ more, (recordsFrom script closed cur).1 = closed ++ more := by
  induction script generalizing closed cur with
  | nil => exact ⟨[], by simp [recordsFrom]⟩
  | cons call rest ih =>
    cases call with
    | raise => exact ⟨[], by simp [recordsFrom]⟩
    | openRecord type version =>
      obtain ⟨more, h⟩ := ih (closed ++ [cur]) ⟨type, version, []⟩
      exact ⟨cur :: more, by simp only [recordsFrom]; rw [h]; simp⟩
    | writeRecordData buf =>
      obtain ⟨more, h⟩ := ih closed { cur with payload := cur.payload ++ buf }
      exact ⟨more, by simp only [recordsFrom]; rw [h]⟩

theorem recordsFrom_bodyLength (script : SaveCallback) (closed : List Record) (cur : Record) :
    bodyLength (closed ++ [cur])
      ≤ bodyLength ((recordsFrom script closed cur).1 ++ [(recordsFrom script closed cur).2]) := by
  induction script generalizing closed cur with
  | nil => simp [recordsFrom]
  | cons call rest ih =>
    cases call with
    | raise => simp [recordsFrom]
    | openRecord type version =>
      have := ih (closed ++ [cur]) ⟨type, version, []⟩
      simp only [recordsFrom]
      rw [bodyLength_append (closed ++ [cur])] at this
      omega
    | writeRecordData buf =>
      have := ih closed { cur with payload := cur.payload ++ buf }
      simp only [recordsFrom]
      rw [bodyLength_append] at this ⊢
      simp only [bodyLength, List.length_append] at this ⊢
      omega

theorem runSave_writing (d0 : List Byte) (h0 : Header) (i o uid : Nat) (script : SaveCallback)
    (closed : List Record) (cur : Record) (g : Globals)
    (hw : Writing d0 h0 i o uid closed cur g)
    (hsz : ∀ r ∈ (recordsFrom script closed cur).1 ++ [(recordsFrom script closed cur).2],
      r.payload.length < 2 ^ 31)
    (htot : bodyLength
      ((recordsFrom script closed cur).1 ++ [(recordsFrom script closed cur).2]) < 2 ^ 32) :
    Writing d0 h0 i o uid (recordsFrom script closed cur).1 (recordsFrom script closed cur).2
      (runSave script g).globals := by
  induction script generalizing closed cur g with
  | nil => exact hw
  | cons call rest ih =>
    cases call with
    | raise => exact hw
    | openRecord type version =>
      simp only [recordsFrom] at hsz htot ⊢
      obtain ⟨more, hmore⟩ := recordsFrom_extends rest (closed ++ [cur]) ⟨type, version, []⟩
      have hmono := recordsFrom_bodyLength rest (closed ++ [cur]) ⟨type, version, []⟩
      rw [bodyLength_append (closed ++ [cur])] at hmono
      simp only [bodyLength] at hmono
      have hcur : cur.payload.length < 2 ^ 31 := by
        apply hsz
        rw [hmore]
        simp
      obtain ⟨g1, hg1, hf1⟩ := flushWriteChunk_writing d0 h0 i o uid closed cur g hw hcur
        (by omega)
      have hnum : g.s_pluginHeader.numChunks ≠ 0 := by rw [hw.num]; omega
      have hopen : OpenRecord type version g = OpenRecord type version g1 := by
        have hg1open : FlushWriteChunk g1 = .ok () g1 := by
          unfold FlushWriteChunk
          rw [hf1.isOpen]
          rfl
        have hn1 : g1.s_pluginHeader.numChunks ≠ 0 := by
          rw [hf1.num]
          simp
        unfold OpenRecord
        simp only
        rw [if_neg hnum, if_neg hn1, hg1, hg1open]
      obtain ⟨g2, hg2, hw2⟩ := openRecord_flushed d0 h0 i o uid (closed ++ [cur]) g1 type version
        hf1 (by simp) (by omega)
      have hrun : runSave (SaveCall.openRecord type version :: rest) g = runSave rest g2 := by
        simp only [runSave]
        rw [hopen, hg2]
      rw [hrun]
      exact ih (closed ++ [cur]) ⟨type, version, []⟩ g2 hw2 hsz htot
    | writeRecordData buf =>
      simp only [recordsFrom] at hsz htot ⊢
      have hrun : runSave (SaveCall.writeRecordData buf :: rest) g
          = runSave rest { g with s_currentFile := g.s_currentFile.WriteBuf buf } := by
        simp only [runSave, WriteRecordData]
      rw [hrun]
      exact ih closed { cur with payload := cur.payload ++ buf } _
        (writeRecordData_writing d0 h0 i o uid closed cur g buf hw) hsz htot

theorem savePlugin_closed (i uid : Nat) (cb : SaveCallback) (g : Globals)
    (hcb : cb = [] ∨ ∃ rest, cb = SaveCall.raise :: rest) :
    savePlugin i uid cb g = .ok ()
      { g with
        s_currentPlugin := i
        s_pluginHeader := { signature := uid, numChunks := 0, length := 0 }
        s_chunkOpen := false } := by
  have hrun : (runSave cb
      { g with
        s_currentPlugin := i
        s_pluginHeader := { signature := uid, numChunks := 0, length := 0 }
        s_chunkOpen := false }).globals
      = { g with
          s_currentPlugin := i
          s_pluginHeader := { signature := uid, numChunks := 0, length := 0 }
          s_chunkOpen := false } := by
    rcases hcb with rfl | ⟨rest, rfl⟩ <;> rfl
  unfold savePlugin
  simp only [hrun]
  unfold FlushWriteChunk
  simp

theorem savePlugin_open (i uid : Nat) (type version : Nat) (rest : SaveCallback) (g : Globals)
    (hsz : ∀ r ∈ recordsOf (SaveCall.openRecord type version :: rest), r.payload.length < 2 ^ 31)
    (htot : bodyLength (recordsOf (SaveCall.openRecord type version :: rest)) < 2 ^ 32) :
    ∃ g1, savePlugin i uid (SaveCall.openRecord type version :: rest) g = .ok () g1
      ∧ Saved g.s_currentFile.data g.s_fileHeader i g.s_currentFile.streamOffset uid
          (recordsOf (SaveCall.openRecord type version :: rest)) g1 := by
  simp only [recordsOf] at hsz htot ⊢
  obtain ⟨g1, hg1, hw1⟩ := openRecord_first
    { g with
      s_currentPlugin := i
      s_pluginHeader := { signature := uid, numChunks := 0, length := 0 }
      s_chunkOpen := false } type version rfl rfl rfl
  have hw1' : Writing g.s_currentFile.data g.s_fileHeader i g.s_currentFile.streamOffset uid []
      ⟨type, version, []⟩ g1 := hw1
  have hw2 := runSave_writing _ _ _ _ _ rest [] ⟨type, version, []⟩ g1 hw1' hsz htot
  obtain ⟨g3, hg3, hf3⟩ := flushWriteChunk_writing _ _ _ _ _ _ _ _ hw2
    (hsz _ (by simp)) htot
  have hrun : (runSave (SaveCall.openRecord type version :: rest)
      { g with
        s_currentPlugin := i
        s_pluginHeader := { signature := uid, numChunks := 0, length := 0 }
        s_chunkOpen := false }).globals = (runSave rest g1).globals := by
    simp only [runSave]
    rw [hg1]
  have hnum : g3.s_pluginHeader.numChunks ≠ 0 := by
    rw [hf3.num]
    simp
  have hph : g3.s_pluginHeader
      = ⟨uid, ((recordsFrom rest [] ⟨type, version, []⟩).1
          ++ [(recordsFrom rest [] ⟨type, version, []⟩).2]).length,
        bodyLength ((recordsFrom rest [] ⟨type, version, []⟩).1
          ++ [(recordsFrom rest [] ⟨type, version, []⟩).2])⟩ := by
    have h1 := hf3.sig
    have h2 := hf3.num
    have h3 := hf3.len
    cases hp : g3.s_pluginHeader
    rw [hp] at h1 h2 h3
    simp only at h1 h2 h3
    rw [h1, h2, h3]
  unfold savePlugin
  simp only [hrun, hg3]
  rw [if_pos hnum]
  refine ⟨_, rfl, ?_⟩
  have hself := holds_writeBuf_self (g3.s_currentFile.SetOffset g3.s_pluginHeaderOffset)
    g3.s_pluginHeader.bytes
  have hwl := writeBuf_length (g3.s_currentFile.SetOffset g3.s_pluginHeaderOffset)
    g3.s_pluginHeader.bytes
  have hso : (g3.s_currentFile.SetOffset g3.s_pluginHeaderOffset).streamOffset
      = g.s_currentFile.streamOffset := hf3.hdrOff
  have hsd : (g3.s_currentFile.SetOffset g3.s_pluginHeaderOffset).data = g3.s_currentFile.data :=
    rfl
  rw [hso] at hself
  rw [hso, hsd, pluginHeader_bytes_length] at hwl
  have hoff := hf3.off
  have hge := hf3.lenGe
  constructor
  · exact hoff
  · show holds ((g3.s_currentFile.SetOffset g3.s_pluginHeaderOffset).WriteBuf _).data _ _
    unfold sectionImage
    rw [holds_append]
    constructor
    · rw [← hph]
      exact hself
    · apply holds_writeBuf_frame (g3.s_currentFile.SetOffset g3.s_pluginHeaderOffset) _ _ _
      · rw [pluginHeader_bytes_length]
        exact hf3.body
      · right
        rw [pluginHeader_bytes_length, pluginHeader_bytes_length, hso]
  · show g3.s_currentFile.streamOffset
      ≤ ((g3.s_currentFile.SetOffset g3.s_pluginHeaderOffset).WriteBuf _).data.length
    rw [hwl]
    omega
  · intro k hk
    show ((g3.s_currentFile.SetOffset g3.s_pluginHeaderOffset).WriteBuf _).data.getD k 0 = _
    rw [writeBuf_getD, if_neg (by rw [hso]; omega)]
    exact hf3.low k hk
  · intro k hk
    show ((g3.s_currentFile.SetOffset g3.s_pluginHeaderOffset).WriteBuf _).data.getD k 0 = _
    rw [writeBuf_getD, if_neg (by rw [hso, pluginHeader_bytes_length]; omega)]
    exact hf3.high k hk
  · show ((g3.s_currentFile.SetOffset g3.s_pluginHeaderOffset).WriteBuf _).data.length
      ≤ max g.s_currentFile.data.length g3.s_currentFile.streamOffset
    rw [hwl]
    have := hf3.lenLe
    omega
  · show ({ g3.s_fileHeader with numPlugins := (g3.s_fileHeader.numPlugins + 1) % 2 ^ 32 }
      : Header) = _
    rw [hf3.fh]
  · exact hph
  · exact hf3.isOpen
  · exact hf3.cp

theorem recordsFrom_writes (bufs : List (List Byte)) (rest : SaveCallback)
    (closed : List Record) (cur : Record) :
    recordsFrom (bufs.map SaveCall.writeRecordData ++ rest) closed cur
      = recordsFrom rest closed { cur with payload := cur.payload ++ bufs.flatten } := by
  induction bufs generalizing cur with
  | nil => simp
  | cons b bs ih =>
    rw [List.map_cons, List.cons_append]
    show recordsFrom (List.map SaveCall.writeRecordData bs ++ rest) closed
        { cur with payload := cur.payload ++ b } = _
    rw [ih, List.flatten_cons, List.append_assoc]

theorem recordsFrom_scriptOf (cs : List RecordCalls) (closed : List Record) (cur : Record) :
    (recordsFrom (scriptOf cs) closed cur).1 ++ [(recordsFrom (scriptOf cs) closed cur).2]
      = closed ++ [cur] ++ cs.map RecordCalls.record := by
  induction cs generalizing closed cur with
  | nil => simp [scriptOf, recordsFrom]
  | cons c cs ih =>
    simp only [scriptOf, recordsFrom, recordsFrom_writes, List.nil_append, List.map_cons]
    rw [ih]
    simp [RecordCalls.record]

theorem recordsOf_scriptOf (c : RecordCalls) (cs : List RecordCalls) :
    recordsOf (scriptOf (c :: cs)) = (c :: cs).map RecordCalls.record := by
  simp only [scriptOf, recordsOf, recordsFrom_writes, List.nil_append]
  rw [recordsFrom_scriptOf]
  simp [RecordCalls.record]

theorem sectionImage_length (uid : Nat) (recs : List Record) :
    (sectionImage uid recs).length = 12 + bodyLength recs := by
  simp [sectionImage]

theorem holds_of_frame (data data1 : List Byte) (a : Nat) (bs : List Byte) (bound : Nat)
    (h : holds data a bs) (hb : a + bs.length ≤ bound)
    (hf : ∀ k, k < bound → data1.getD k 0 = data.getD k 0) : holds data1 a bs := by
  intro k hk
  rw [hf (a + k) (by omega)]
  exact h k hk

theorem sectionsImage_length_pos (s : Nat × List Record) (ss : List (Nat × List Record)) :
    12 ≤ (sectionsImage (s :: ss)).length := by
  simp [sectionsImage, sectionImage_length]
  omega

theorem savedSections_length_le {α : Type} (regs : List (PluginCallbacks α)) :
    (savedSections regs).length ≤ regs.length := by
  induction regs with
  | nil => simp [savedSections]
  | cons info rest ih =>
    unfold savedSections
    split
    · split_ifs
      · split
        · simp only [List.length_cons]; omega
        · simp only [List.length_cons]; omega
      · simp only [List.length_cons]; omega
    · simp only [List.length_cons]; omega

theorem recordsOf_eq_nil (cb : SaveCallback) (hin : writesInsideChunks cb = true)
    (h : recordsOf cb = []) : cb = [] ∨ ∃ rest, cb = SaveCall.raise :: rest := by
  cases cb with
  | nil => exact Or.inl rfl
  | cons call rest =>
    cases call with
    | raise => exact Or.inr ⟨rest, rfl⟩
    | openRecord type version => simp [recordsOf] at h
    | writeRecordData buf => simp [writesInsideChunks] at hin

theorem recordsOf_ne_nil (cb : SaveCallback) (r : Record) (rs : List Record)
    (h : recordsOf cb = r :: rs) : ∃ type version rest, cb = SaveCall.openRecord type version :: rest := by
  cases cb with
  | nil => simp [recordsOf] at h
  | cons call rest =>
    cases call with
    | raise => simp [recordsOf] at h
    | openRecord type version => exact ⟨type, version, rest, rfl⟩
    | writeRecordData buf => simp [recordsOf] at h

theorem savePlugins_layout {α : Type} (regs : List (PluginCallbacks α)) (i : Nat) (g : Globals)
    (hreg : ∀ info ∈ regs, ∀ cb, info.save = some cb → info.hadUID = true →
      writesInsideChunks cb = true ∧ (∀ r ∈ recordsOf cb, r.payload.length < 2 ^ 31)
        ∧ bodyLength (recordsOf cb) < 2 ^ 32)
    (happ : g.s_currentFile.data.length ≤ g.s_currentFile.streamOffset)
    (hcount : g.s_fileHeader.numPlugins + regs.length < 2 ^ 32) :
    ∃ g1, savePlugins regs i g = .ok () g1
      ∧ g1.s_currentFile.streamOffset
          = g.s_currentFile.streamOffset + (sectionsImage (savedSections regs)).length
      ∧ holds g1.s_currentFile.data g.s_currentFile.streamOffset
          (sectionsImage (savedSections regs))
      ∧ (∀ k, k < g.s_currentFile.streamOffset →
          g1.s_currentFile.data.getD k 0 = g.s_currentFile.data.getD k 0)
      ∧ g1.s_currentFile.data.length ≤ g1.s_currentFile.streamOffset
      ∧ g.s_currentFile.data.length ≤ g1.s_currentFile.data.length
      ∧ (savedSections regs ≠ [] → g1.s_currentFile.data.length = g1.s_currentFile.streamOffset)
      ∧ g1.s_fileHeader
          = { g.s_fileHeader with
              numPlugins := g.s_fileHeader.numPlugins + (savedSections regs).length }
      ∧ (g1.s_pluginHeader, g1.s_chunkOpen)
          = sectionStateAfter regs (g.s_pluginHeader, g.s_chunkOpen) := by
  induction regs generalizing i g with
  | nil =>
    exact ⟨g, rfl, by simp [savedSections, sectionsImage], holds_nil _ _, fun _ _ => rfl, happ,
      Nat.le_refl _, fun h => absurd rfl h, by simp [savedSections], rfl⟩
  | cons info rest ih =>
    have hrest : ∀ info ∈ rest, ∀ cb, info.save = some cb → info.hadUID = true →
        writesInsideChunks cb = true ∧ (∀ r ∈ recordsOf cb, r.payload.length < 2 ^ 31)
          ∧ bodyLength (recordsOf cb) < 2 ^ 32 :=
      fun x hx => hreg x (List.mem_cons_of_mem _ hx)
    simp only [List.length_cons] at hcount
    cases hs : info.save with
    | none =>
      have h1 : savePlugins (info :: rest) i g = savePlugins rest (i + 1) g := by
        simp only [savePlugins, hs]
      have h2 : savedSections (info :: rest) = savedSections rest := by
        simp only [savedSections, hs]
      have h3 : sectionStateAfter (info :: rest) (g.s_pluginHeader, g.s_chunkOpen)
          = sectionStateAfter rest (g.s_pluginHeader, g.s_chunkOpen) := by
        simp only [sectionStateAfter, hs]
      rw [h1, h2, h3]
      exact ih (i + 1) g hrest happ (by omega)
    | some cb =>
      cases hu : info.hadUID with
      | false =>
        have h1 : savePlugins (info :: rest) i g = savePlugins rest (i + 1) g := by
          simp [savePlugins, hs, hu]
        have h2 : savedSections (info :: rest) = savedSections rest := by
          simp [savedSections, hs, hu]
        have h3 : sectionStateAfter (info :: rest) (g.s_pluginHeader, g.s_chunkOpen)
            = sectionStateAfter rest (g.s_pluginHeader, g.s_chunkOpen) := by
          simp [sectionStateAfter, hs, hu]
        rw [h1, h2, h3]
        exact ih (i + 1) g hrest happ (by omega)
      | true =>
        obtain ⟨hin, hsz, htot⟩ := hreg info (List.mem_cons_self _ _) cb hs hu
        cases hr : recordsOf cb with
        | nil =>
          have hsp := savePlugin_closed i info.uid cb g (recordsOf_eq_nil cb hin hr)
          have h1 : savePlugins (info :: rest) i g = savePlugins rest (i + 1)
              { g with
                s_currentPlugin := i
                s_pluginHeader := { signature := info.uid, numChunks := 0, length := 0 }
                s_chunkOpen := false } := by
            simp [savePlugins, hs, hu, hsp]
          have h2 : savedSections (info :: rest) = savedSections rest := by
            simp [savedSections, hs, hu, hr]
          have h3 : sectionStateAfter (info :: rest) (g.s_pluginHeader, g.s_chunkOpen)
              = sectionStateAfter rest
                  (({ signature := info.uid, numChunks := 0, length := 0 } : PluginHeader),
                    false) := by
            simp [sectionStateAfter, hs, hu, hr, bodyLength]
          rw [h1, h2, h3]
          exact ih (i + 1) _ hrest happ (by show g.s_fileHeader.numPlugins + _ < _; omega)
        | cons r rs =>
          obtain ⟨type, version, tail, hcb⟩ := recordsOf_ne_nil cb r rs hr
          subst hcb
          obtain ⟨g1, hg1, hsv⟩ := savePlugin_open i info.uid type version tail g hsz htot
          have h1 : savePlugins (info :: rest) i g = savePlugins rest (i + 1) g1 := by
            simp [savePlugins, hs, hu, hg1]
          have h2 : savedSections (info :: rest)
              = (info.uid, recordsOf (SaveCall.openRecord type version :: tail))
                  :: savedSections rest := by
            simp [savedSections, hs, hu, hr]
          have h3 : sectionStateAfter (info :: rest) (g.s_pluginHeader, g.s_chunkOpen)
              = sectionStateAfter rest (g1.s_pluginHeader, g1.s_chunkOpen) := by
            simp [sectionStateAfter, hs, hu, hsv.ph, hsv.isOpen]
          have hoff := hsv.off
          have hge := hsv.lenGe
          have hle := hsv.lenLe
          have hfh := hsv.fh
          have hnp : g1.s_fileHeader.numPlugins = g.s_fileHeader.numPlugins + 1 := by
            rw [hfh]
            exact Nat.mod_eq_of_lt (by omega)
          obtain ⟨g2, hg2, hoff2, himg2, hlow2, hlen2, hmono2, heq2, hfh2, hst2⟩ :=
            ih (i + 1) g1 hrest (by omega) (by omega)
          rw [h1, h2, h3]
          refine ⟨g2, hg2, ?_, ?_, ?_, hlen2, by omega, ?_, ?_, hst2⟩
          · rw [hoff2, hoff]
            simp only [sectionsImage, List.length_append, sectionImage_length]
            omega
          · simp only [sectionsImage]
            rw [holds_append]
            constructor
            · exact holds_of_frame _ _ _ _ g1.s_currentFile.streamOffset hsv.image
                (by rw [sectionImage_length]; omega) hlow2
            · rw [sectionImage_length, ← Nat.add_assoc, ← hoff]
              exact himg2
          · intro k hk
            rw [hlow2 k (by omega)]
            exact hsv.low k hk
          · intro _
            cases hss : savedSections rest with
            | nil =>
              rw [hss] at hoff2
              simp only [sectionsImage, List.length_nil, Nat.add_zero] at hoff2
              omega
            | cons s0 ss0 => exact heq2 (by rw [hss]; simp)
          · rw [hfh2, hfh]
            simp only [List.length_cons]
            congr 1
            rw [Nat.mod_eq_of_lt (by omega)]
            omega

/-- C5: write-side encoding of one section. A save callback that makes the
chunks `c :: cs` (each by `OpenRecord` followed by any number of
`WriteRecordData` calls, with no explicit close), every payload shorter than
2^31 bytes and the section total below 2^32, is run by the plugin-loop body
`savePlugin` from any global state. With the section-header offset the stream
offset at the start, the file region from there holds
`PluginHeader {uid, n, L}` followed, for each chunk in order, by
`ChunkHeader {type, version, len}` and its `len` payload bytes, where `len` is
the number of bytes written to the chunk, `n` the number of `OpenRecord` calls
and `L` the sum of `12 + len`; the append position afterwards is the
section-header offset plus `12 + L`. -/
theorem section_encoding (i uid : Nat) (g : Globals) (c : RecordCalls) (cs : List RecordCalls)
    (hsz : ∀ r ∈ (c :: cs).map RecordCalls.record, r.payload.length < 2 ^ 31)
    (htot : bodyLength ((c :: cs).map RecordCalls.record) < 2 ^ 32) :
    ∃ g1, savePlugin i uid (scriptOf (c :: cs)) g = .ok () g1
      ∧ slice g1.s_currentFile.data g.s_currentFile.streamOffset
            (12 + bodyLength ((c :: cs).map RecordCalls.record))
          = (PluginHeader.mk uid (c :: cs).length
                (bodyLength ((c :: cs).map RecordCalls.record))).bytes
              ++ bodyImage ((c :: cs).map RecordCalls.record)
      ∧ g1.s_currentFile.streamOffset
          = g.s_currentFile.streamOffset + 12 + bodyLength ((c :: cs).map RecordCalls.record) := by
  have hrec := recordsOf_scriptOf c cs
  have hso : scriptOf (c :: cs)
      = SaveCall.openRecord c.type c.version
          :: (c.bufs.map SaveCall.writeRecordData ++ scriptOf cs) := rfl
  obtain ⟨g1, hg1, hs⟩ := savePlugin_open i uid c.type c.version
    (c.bufs.map SaveCall.writeRecordData ++ scriptOf cs) g
    (by rw [← hso, hrec]; exact hsz) (by rw [← hso, hrec]; exact htot)
  rw [← hso, hrec] at hs
  rw [← hso] at hg1
  refine ⟨g1, hg1, ?_, hs.off⟩
  have himg := holds_slice _ _ _ hs.image
    (by rw [sectionImage_length]; have := hs.off; have := hs.lenGe; omega)
  rw [sectionImage_length] at himg
  rw [himg]
  simp [sectionImage]

/-- C5, at a concrete input: a chunk written in two pieces followed by an empty
chunk, saved from the idle state. -/
theorem section_encoding_witness :
    ((∀ r ∈ ([⟨1, 2, [[10, 20], [30]]⟩, ⟨4, 5, []⟩] : List RecordCalls).map RecordCalls.record,
          r.payload.length < 2 ^ 31)
        ∧ bodyLength
            (([⟨1, 2, [[10, 20], [30]]⟩, ⟨4, 5, []⟩] : List RecordCalls).map RecordCalls.record)
          < 2 ^ 32)
      ∧ ∃ g1, savePlugin 0 9 (scriptOf [⟨1, 2, [[10, 20], [30]]⟩, ⟨4, 5, []⟩]) idleGlobals
            = .ok () g1
          ∧ slice g1.s_currentFile.data 0 39
              = (PluginHeader.mk 9 2 27).bytes
                  ++ ((ChunkHeader.mk 1 2 3).bytes ++ [10, 20, 30] ++ (ChunkHeader.mk 4 5 0).bytes)
          ∧ g1.s_currentFile.streamOffset = 39 :=
  ⟨⟨by decide, by decide⟩,
   section_encoding 0 9 idleGlobals ⟨1, 2, [[10, 20], [30]]⟩ [⟨4, 5, []⟩] (by decide) (by decide)⟩

theorem savedSections_uids {α : Type} (regs : List (PluginCallbacks α)) :
    (savedSections regs).map Prod.fst
      = (regs.filter savesSection).map fun info => info.uid := by
  induction regs with
  | nil => rfl
  | cons info rest ih =>
    unfold savedSections
    cases hs : info.save with
    | none => simp [List.filter_cons, savesSection, hs, ih]
    | some cb =>
      cases hu : info.hadUID with
      | false => simp [List.filter_cons, savesSection, hs, hu, ih]
      | true =>
        cases cb with
        | nil => simp [List.filter_cons, savesSection, hs, hu, ih, recordsOf, opensChunk]
        | cons call tail =>
          cases call with
          | raise => simp [List.filter_cons, savesSection, hs, hu, ih, recordsOf, opensChunk]
          | writeRecordData buf =>
            simp [List.filter_cons, savesSection, hs, hu, ih, recordsOf, opensChunk]
          | openRecord type version =>
            obtain ⟨more, hmore⟩ := recordsFrom_extends tail [] ⟨type, version, []⟩
            cases hr : recordsOf (SaveCall.openRecord type version :: tail) with
            | nil => simp [recordsOf] at hr
            | cons r rs =>
              simp only [hu, if_true, hr]
              simp [List.filter_cons, savesSection, hs, hu, ih, opensChunk]

theorem save_file_image {α : Type} (f4seVersion runtimeVersion : Nat)
    (regs : List (PluginCallbacks α)) (g : Globals)
    (hlen : regs.length < 2 ^ 32)
    (hreg : ∀ info ∈ regs, ∀ cb, info.save = some cb → info.hadUID = true →
      writesInsideChunks cb = true ∧ (∀ r ∈ recordsOf cb, r.payload.length < 2 ^ 31)
        ∧ bodyLength (recordsOf cb) < 2 ^ 32) :
    (HandleSaveGlobalData true f4seVersion runtimeVersion regs g).2
        = some (fileImage f4seVersion runtimeVersion (savedSections regs))
      ∧ ((HandleSaveGlobalData true f4seVersion runtimeVersion regs g).1.s_pluginHeader,
          (HandleSaveGlobalData true f4seVersion runtimeVersion regs g).1.s_chunkOpen)
        = sectionStateAfter regs (g.s_pluginHeader, g.s_chunkOpen) := by
  obtain ⟨g2, hg2, hoff, himg, hlow, hle, hmono, heq, hfh, hst⟩ := savePlugins_layout regs 0
    { g with
      s_currentFile := IFileStream.Create.Skip 20
      s_fileHeader :=
        { signature := kSignature, formatVersion := kVersion, f4seVersion := f4seVersion,
          runtimeVersion := runtimeVersion, numPlugins := 0 } }
    hreg (by simp [IFileStream.Create, IFileStream.Skip])
    (by show 0 + regs.length < 2 ^ 32; omega)
  have hoff' : g2.s_currentFile.streamOffset
      = 20 + (sectionsImage (savedSections regs)).length := hoff
  have himg' : holds g2.s_currentFile.data 20 (sectionsImage (savedSections regs)) := himg
  have hfh' : g2.s_fileHeader
      = Header.mk kSignature kVersion f4seVersion runtimeVersion (savedSections regs).length := by
    rw [hfh]
    simp
  have hres : HandleSaveGlobalData true f4seVersion runtimeVersion regs g
      = ({ g2 with
            s_currentFile := (g2.s_currentFile.SetOffset 0).WriteBuf g2.s_fileHeader.bytes },
          some ((g2.s_currentFile.SetOffset 0).WriteBuf g2.s_fileHeader.bytes).data) := by
    unfold HandleSaveGlobalData
    simp only [Bool.not_true, Bool.false_eq_true, if_false, hg2]
  rw [hres]
  refine ⟨?_, hst⟩
  simp only [Option.some.injEq]
  apply holds_eq
  · unfold fileImage
    rw [holds_append]
    constructor
    · rw [← hfh']
      exact holds_writeBuf_self (g2.s_currentFile.SetOffset 0) _
    · apply holds_writeBuf_frame (g2.s_currentFile.SetOffset 0)
      · rw [Nat.zero_add, header_bytes_length]
        exact himg'
      · right
        rw [header_bytes_length, header_bytes_length]
        show 0 + 20 ≤ 0 + 20
        exact Nat.le_refl _
  · rw [writeBuf_length]
    show max g2.s_currentFile.data.length (0 + g2.s_fileHeader.bytes.length) = _
    unfold fileImage
    rw [List.length_append, header_bytes_length, header_bytes_length]
    cases hss : savedSections regs with
    | nil =>
      rw [hss] at hoff'
      simp only [sectionsImage, List.length_nil] at hoff' ⊢
      omega
    | cons s0 ss0 =>
      have := heq (by rw [hss]; simp)
      rw [hss] at hoff'
      omega

/-- C4 (amended): section list written by `HandleSaveGlobalData`. For every
registry of fewer than 2^32 records whose save callbacks (of the records with
a UID) write data only inside chunks they opened, keep every chunk payload
shorter than 2^31 bytes and every section total below 2^32: the output file is
the file header followed by one section for exactly those records that have a
save callback, have a UID and opened at least one chunk, in ascending handle
order, each section carrying the UID of its record; the `numPlugins` field of
the header is the number of these sections; and a record whose save callback
opens no chunk contributes no bytes. -/
theorem save_section_list {α : Type} (f4seVersion runtimeVersion : Nat)
    (regs : List (PluginCallbacks α)) (g : Globals)
    (hlen : regs.length < 2 ^ 32)
    (hreg : ∀ info ∈ regs, ∀ cb, info.save = some cb → info.hadUID = true →
      writesInsideChunks cb = true ∧ (∀ r ∈ recordsOf cb, r.payload.length < 2 ^ 31)
        ∧ bodyLength (recordsOf cb) < 2 ^ 32) :
    (HandleSaveGlobalData true f4seVersion runtimeVersion regs g).2
        = some
            ((Header.mk kSignature kVersion f4seVersion runtimeVersion
                (savedSections regs).length).bytes
              ++ sectionsImage (savedSections regs))
      ∧ (savedSections regs).map Prod.fst
          = (regs.filter savesSection).map (fun info => info.uid)
      ∧ (savedSections regs).length = (regs.filter savesSection).length :=
  ⟨(save_file_image f4seVersion runtimeVersion regs g hlen hreg).1,
   savedSections_uids regs,
   by
     have h := congrArg List.length (savedSections_uids regs)
     simpa using h⟩

theorem recordsOf_saveScript (recs : List Record) : recordsOf (saveScript recs) = recs := by
  cases recs with
  | nil => rfl
  | cons r rs =>
    unfold saveScript
    rw [List.map_cons, recordsOf_scriptOf]
    simp only [List.map_cons, List.map_map, RecordCalls.record, List.flatten_cons,
      List.flatten_nil, List.append_nil, List.cons.injEq, true_and]
    apply List.map_id''
    intro x
    simp [RecordCalls.record]

theorem writesInsideChunks_saveScript (recs : List Record) :
    writesInsideChunks (saveScript recs) = true := by
  cases recs with
  | nil => rfl
  | cons r rs => rfl

theorem written_of_save {α : Type} (info : PluginCallbacks α) (recs : List Record)
    (h : info.save = some (saveScript recs)) : written info = recs := by
  unfold written
  rw [h]
  exact recordsOf_saveScript recs

theorem clearData_markData {α : Type} (info : PluginCallbacks α) :
    info.markData.clearData = info.clearData := rfl

theorem clearData_clearData {α : Type} (info : PluginCallbacks α) :
    info.clearData.clearData = info.clearData := rfl

theorem markData_of_nil {α : Type} (info : PluginCallbacks α) (h : written info = []) :
    info.markData = info.clearData := by
  unfold PluginCallbacks.markData PluginCallbacks.clearData
  rw [h]
  rfl

theorem markData_of_cons {α : Type} (info : PluginCallbacks α) (r : Record) (rs : List Record)
    (h : written info = r :: rs) :
    info.markData = { info.clearData with hadData := true } := by
  unfold PluginCallbacks.markData PluginCallbacks.clearData
  rw [h]
  rfl

theorem savedSections_cons_nil {α : Type} (info : PluginCallbacks α)
    (rest : List (PluginCallbacks α)) (h : written info = []) :
    savedSections (info :: rest) = savedSections rest := by
  unfold written at h
  cases hs : info.save with
  | none => simp only [savedSections, hs]
  | some cb =>
    rw [hs] at h
    simp only at h
    simp only [savedSections, hs, h]
    split_ifs <;> rfl

theorem savedSections_cons_cons {α : Type} (info : PluginCallbacks α)
    (rest : List (PluginCallbacks α)) (r : Record) (rs : List Record)
    (hu : info.hadUID = true) (h : written info = r :: rs) :
    savedSections (info :: rest) = (info.uid, r :: rs) :: savedSections rest := by
  unfold written at h
  cases hs : info.save with
  | none => rw [hs] at h; simp at h
  | some cb =>
    rw [hs] at h
    simp only at h
    simp only [savedSections, hs, h, hu, if_true]

/-! ## Read side: lemmas -/

theorem readRecordData_globals (n : Nat) (g : Globals) (hopen : g.s_chunkOpen = true) :
    (ReadRecordData n g).globals.s_currentFile.streamOffset + (ReadRecordData n g).globals.s_chunkHeader.length
        = g.s_currentFile.streamOffset + g.s_chunkHeader.length
      ∧ (ReadRecordData n g).globals.s_chunkOpen = true
      ∧ (ReadRecordData n g).globals.s_currentFile.data = g.s_currentFile.data
      ∧ (ReadRecordData n g).globals.s_pluginHeader = g.s_pluginHeader
      ∧ (ReadRecordData n g).globals.s_chunkHeader.length ≤ g.s_chunkHeader.length := by
  unfold ReadRecordData IFileStream.ReadBuf
  simp only [hopen]
  split_ifs with h1 h2 h3 h4
  all_goals simp [Outcome.globals]
  all_goals first | assumption | omega

theorem readRecordData_ok (n : Nat) (g : Globals) (hopen : g.s_chunkOpen = true)
    (hfile : g.s_currentFile.streamOffset + min n g.s_chunkHeader.length ≤ g.s_currentFile.data.length) :
    ReadRecordData n g =
      .ok (min n g.s_chunkHeader.length,
           slice g.s_currentFile.data g.s_currentFile.streamOffset (min n g.s_chunkHeader.length))
        { g with
          s_currentFile :=
            { g.s_currentFile with
              streamOffset := g.s_currentFile.streamOffset + min n g.s_chunkHeader.length }
          s_chunkHeader :=
            { g.s_chunkHeader with length := g.s_chunkHeader.length - min n g.s_chunkHeader.length } } := by
  unfold ReadRecordData IFileStream.ReadBuf
  simp only [hopen]
  by_cases h : n > g.s_chunkHeader.length
  · have hm : min n g.s_chunkHeader.length = g.s_chunkHeader.length := by omega
    rw [hm] at hfile ⊢
    simp [h, hfile]
  · have hm : min n g.s_chunkHeader.length = n := by omega
    rw [hm] at hfile ⊢
    simp [h, hfile]

theorem readRecordDataCalls_inv (reqs : List Nat) (g : Globals) (hopen : g.s_chunkOpen = true) :
    (readRecordDataCalls reqs g).2.s_currentFile.streamOffset
          + (readRecordDataCalls reqs g).2.s_chunkHeader.length
        = g.s_currentFile.streamOffset + g.s_chunkHeader.length
      ∧ (readRecordDataCalls reqs g).2.s_chunkOpen = true
      ∧ (readRecordDataCalls reqs g).2.s_currentFile.data = g.s_currentFile.data
      ∧ (readRecordDataCalls reqs g).2.s_pluginHeader = g.s_pluginHeader
      ∧ (readRecordDataCalls reqs g).1.sum + (readRecordDataCalls reqs g).2.s_chunkHeader.length
          ≤ g.s_chunkHeader.length := by
  induction reqs generalizing g with
  | nil => simp [readRecordDataCalls, hopen]
  | cons n rest ih =>
    have h1 := readRecordData_globals n g hopen
    have hret : ∀ m bs g1, ReadRecordData n g = .ok (m, bs) g1 →
        m + g1.s_chunkHeader.length = g.s_chunkHeader.length := by
      intro m bs g1 h
      unfold ReadRecordData IFileStream.ReadBuf at h
      simp only [hopen] at h
      split_ifs at h with h1 h2 h3 h4
      all_goals simp at h
      all_goals obtain ⟨⟨rfl, -⟩, rfl⟩ := h
      all_goals simp
      all_goals omega
    unfold readRecordDataCalls
    cases hr : ReadRecordData n g with
    | ok val g1 =>
      obtain ⟨m, bs⟩ := val
      rw [hr] at h1
      simp only [Outcome.globals] at h1
      have h2 := ih g1 h1.2.1
      have h3 := hret m bs g1 hr
      simp only [List.sum_cons]
      refine ⟨by omega, h2.2.1, by rw [h2.2.2.1, h1.2.2.1], by rw [h2.2.2.2.1, h1.2.2.2.1], by omega⟩
    | fault why g1 =>
      rw [hr] at h1
      simp only [Outcome.globals] at h1
      have h2 := ih g1 h1.2.1
      simp only
      refine ⟨by omega, h2.2.1, by rw [h2.2.2.1, h1.2.2.1], by rw [h2.2.2.2.1, h1.2.2.2.1], by omega⟩

theorem getNextRecordInfo_some (g0 g : Globals) (r : Nat × Nat × Nat)
    (h : GetNextRecordInfo g0 = .ok (some r) g) :
    g.s_chunkOpen = true ∧ g.s_chunkHeader.length = r.2.2 ∧ g.s_chunkHeader.type = r.1
      ∧ g.s_chunkHeader.version = r.2.1 := by
  unfold GetNextRecordInfo at h
  simp only at h
  split_ifs at h with h1
  · simp at h
  · split at h
    · simp at h
    · injection h with h2 h3
      injection h2 with h2
      subst h2 h3
      simp

theorem flushReadRecord_offset (g : Globals) (hopen : g.s_chunkOpen = true) :
    (FlushReadRecord g).s_currentFile.streamOffset
        = g.s_currentFile.streamOffset + g.s_chunkHeader.length
      ∧ (FlushReadRecord g).s_currentFile.data = g.s_currentFile.data
      ∧ (FlushReadRecord g).s_pluginHeader = g.s_pluginHeader
      ∧ (FlushReadRecord g).s_chunkOpen = false := by
  unfold FlushReadRecord
  simp only [hopen, if_true]
  by_cases h : g.s_chunkHeader.length = 0
  · simp [h]
  · simp [h, IFileStream.Skip]

theorem getNextRecordInfo_open (g : Globals) (hopen : g.s_chunkOpen = true)
    (hn : g.s_pluginHeader.numChunks ≠ 0)
    (hfile : g.s_currentFile.streamOffset + g.s_chunkHeader.length + 12
      ≤ g.s_currentFile.data.length) :
    ∃ g2, GetNextRecordInfo g =
        .ok (some
          ((ChunkHeader.ofBytes (slice g.s_currentFile.data
              (g.s_currentFile.streamOffset + g.s_chunkHeader.length) 12)).type,
           (ChunkHeader.ofBytes (slice g.s_currentFile.data
              (g.s_currentFile.streamOffset + g.s_chunkHeader.length) 12)).version,
           (ChunkHeader.ofBytes (slice g.s_currentFile.data
              (g.s_currentFile.streamOffset + g.s_chunkHeader.length) 12)).length)) g2
      ∧ g2.s_currentFile.streamOffset = g.s_currentFile.streamOffset + g.s_chunkHeader.length + 12
      ∧ g2.s_pluginHeader.numChunks = g.s_pluginHeader.numChunks - 1 := by
  obtain ⟨ho, hd, hp, -⟩ := flushReadRecord_offset g hopen
  unfold GetNextRecordInfo
  simp only [hp, hn, if_false]
  unfold IFileStream.ReadBuf
  simp only [ho, hd, hfile, if_true]
  exact ⟨_, rfl, rfl, rfl⟩

/-- C3: partial-read tolerance. Let `GetNextRecordInfo` have returned a chunk
of declared length `L` whose payload starts at offset `p` (the stream offset
right after the call). After any sequence of `ReadRecordData` calls on that
chunk, whatever their number and requested lengths, stream offset plus
remaining chunk length is still `p + L`; the flush at the start of the next
`GetNextRecordInfo` puts the stream at `p + L`; and when the chunk counter of
the section is non-zero, that next call decodes the 12 bytes at `p + L` (they
lie within the file) and returns their type, version and length, leaving the
stream at `p + L + 12`. -/
theorem partial_read_tolerance (g0 g : Globals) (type version L : Nat)
    (hnext : GetNextRecordInfo g0 = .ok (some (type, version, L)) g) (reqs : List Nat) :
    (readRecordDataCalls reqs g).2.s_currentFile.streamOffset
          + (readRecordDataCalls reqs g).2.s_chunkHeader.length
        = g.s_currentFile.streamOffset + L
      ∧ (FlushReadRecord (readRecordDataCalls reqs g).2).s_currentFile.streamOffset
        = g.s_currentFile.streamOffset + L
      ∧ ((readRecordDataCalls reqs g).2.s_pluginHeader.numChunks ≠ 0 →
          g.s_currentFile.streamOffset + L + 12 ≤ g.s_currentFile.data.length →
          ∃ g2, GetNextRecordInfo (readRecordDataCalls reqs g).2 =
              .ok (some
                ((ChunkHeader.ofBytes
                    (slice g.s_currentFile.data (g.s_currentFile.streamOffset + L) 12)).type,
                 (ChunkHeader.ofBytes
                    (slice g.s_currentFile.data (g.s_currentFile.streamOffset + L) 12)).version,
                 (ChunkHeader.ofBytes
                    (slice g.s_currentFile.data (g.s_currentFile.streamOffset + L) 12)).length)) g2
            ∧ g2.s_currentFile.streamOffset = g.s_currentFile.streamOffset + L + 12) := by
  obtain ⟨hopen, hlen, -, -⟩ := getNextRecordInfo_some g0 g _ hnext
  simp only at hlen
  obtain ⟨hinv, hopen1, hdata, -, -⟩ := readRecordDataCalls_inv reqs g hopen
  rw [hlen] at hinv
  refine ⟨hinv, ?_, ?_⟩
  · rw [(flushReadRecord_offset _ hopen1).1, hinv]
  · intro hn hfile
    have := getNextRecordInfo_open (readRecordDataCalls reqs g).2 hopen1 hn
      (by rw [hinv, hdata]; exact hfile)
    rw [hinv, hdata] at this
    obtain ⟨g2, h1, h2, -⟩ := this
    exact ⟨g2, h1, h2⟩

/-- C3, at a concrete input: the first chunk of `twoChunkState` has three
payload bytes starting at offset 12; after reading two of them the next header
is still taken from offset 15. -/
theorem partial_read_tolerance_witness :
    GetNextRecordInfo twoChunkState = .ok (some (1, 2, 3)) twoChunkOpen
      ∧ (FlushReadRecord (readRecordDataCalls [2] twoChunkOpen).2).s_currentFile.streamOffset
          = 15 :=
  ⟨by decide, (partial_read_tolerance twoChunkState twoChunkOpen 1 2 3 (by decide) [2]).2.1⟩

/-- C6: truncation contract of `ReadRecordData`. On an open chunk with
`r = s_chunkHeader.length` bytes remaining, a call asking for `n` bytes
returns `min n r`, hands out exactly the next `min n r` bytes of the file,
advances the stream by `min n r` and leaves `r - min n r` bytes remaining (the
bytes being present in the file); whichever way a call ends, the stream never
moves past the end of the chunk, because stream offset plus remaining length
is unchanged; and over any sequence of calls on the chunk the values returned
add up to at most `r`. -/
theorem readRecordData_truncation (g : Globals) (hopen : g.s_chunkOpen = true) :
    (∀ n, g.s_currentFile.streamOffset + min n g.s_chunkHeader.length
          ≤ g.s_currentFile.data.length →
        ReadRecordData n g =
          .ok (min n g.s_chunkHeader.length,
               slice g.s_currentFile.data g.s_currentFile.streamOffset
                 (min n g.s_chunkHeader.length))
            { g with
              s_currentFile :=
                { g.s_currentFile with
                  streamOffset := g.s_currentFile.streamOffset + min n g.s_chunkHeader.length }
              s_chunkHeader :=
                { g.s_chunkHeader with
                  length := g.s_chunkHeader.length - min n g.s_chunkHeader.length } })
      ∧ (∀ n, (ReadRecordData n g).globals.s_currentFile.streamOffset
              + (ReadRecordData n g).globals.s_chunkHeader.length
            = g.s_currentFile.streamOffset + g.s_chunkHeader.length)
      ∧ (∀ reqs, (readRecordDataCalls reqs g).1.sum ≤ g.s_chunkHeader.length) :=
  ⟨fun n hfile => readRecordData_ok n g hopen hfile,
   fun n => (readRecordData_globals n g hopen).1,
   fun reqs => Nat.le_trans (Nat.le_add_right _ _) (readRecordDataCalls_inv reqs g hopen).2.2.2.2⟩

/-- C6, at a concrete input: asking for two of the three payload bytes of the
open chunk of `twoChunkOpen` returns 2 and the bytes `10 20`. -/
theorem readRecordData_truncation_witness :
    twoChunkOpen.s_chunkOpen = true
      ∧ ReadRecordData 2 twoChunkOpen =
          .ok (2, [10, 20])
            { twoChunkOpen with
              s_currentFile := { twoChunkOpen.s_currentFile with streamOffset := 14 }
              s_chunkHeader := { twoChunkOpen.s_chunkHeader with length := 1 } } :=
  ⟨by decide, (readRecordData_truncation twoChunkOpen (by decide)).1 2 (by decide)⟩

theorem flushReadRecord_frame (g : Globals) :
    (FlushReadRecord g).s_currentFile.data = g.s_currentFile.data
      ∧ (FlushReadRecord g).s_pluginHeader = g.s_pluginHeader := by
  unfold FlushReadRecord
  split_ifs <;> exact ⟨rfl, rfl⟩

theorem getNextRecordInfo_frame (g : Globals) :
    (GetNextRecordInfo g).globals.s_currentFile.data = g.s_currentFile.data
      ∧ (GetNextRecordInfo g).globals.s_pluginHeader.signature = g.s_pluginHeader.signature
      ∧ (GetNextRecordInfo g).globals.s_pluginHeader.length = g.s_pluginHeader.length := by
  obtain ⟨h1, h2⟩ := flushReadRecord_frame g
  unfold GetNextRecordInfo
  simp only
  split_ifs
  · exact ⟨h1, by rw [Outcome.globals, h2], by rw [Outcome.globals, h2]⟩
  · unfold IFileStream.ReadBuf
    split_ifs
    · exact ⟨h1, by simp only [Outcome.globals]; rw [h2], by simp only [Outcome.globals]; rw [h2]⟩
    · exact ⟨h1, by simp only [Outcome.globals]; rw [h2], by simp only [Outcome.globals]; rw [h2]⟩

theorem readRecordData_frame (n : Nat) (g : Globals) :
    (ReadRecordData n g).globals.s_currentFile.data = g.s_currentFile.data
      ∧ (ReadRecordData n g).globals.s_pluginHeader = g.s_pluginHeader := by
  unfold ReadRecordData IFileStream.ReadBuf
  simp only
  split_ifs <;> exact ⟨rfl, rfl⟩

theorem runLoad_frame {α : Type} (cb : LoadCallback α) (g : Globals) :
    (runLoad cb g).globals.s_currentFile.data = g.s_currentFile.data
      ∧ (runLoad cb g).globals.s_pluginHeader.signature = g.s_pluginHeader.signature
      ∧ (runLoad cb g).globals.s_pluginHeader.length = g.s_pluginHeader.length := by
  induction cb generalizing g with
  | ret a => exact ⟨rfl, rfl, rfl⟩
  | raise => exact ⟨rfl, rfl, rfl⟩
  | getNextRecordInfo k ih =>
    have hf := getNextRecordInfo_frame g
    unfold runLoad
    cases hr : GetNextRecordInfo g with
    | ok r g1 =>
      rw [hr] at hf
      simp only [Outcome.globals] at hf
      obtain ⟨h1, h2, h3⟩ := ih r g1
      exact ⟨by rw [h1, hf.1], by rw [h2, hf.2.1], by rw [h3, hf.2.2]⟩
    | fault why g1 =>
      rw [hr] at hf
      exact hf
  | readRecordData n k ih =>
    have hf := readRecordData_frame n g
    unfold runLoad
    cases hr : ReadRecordData n g with
    | ok r g1 =>
      rw [hr] at hf
      simp only [Outcome.globals] at hf
      obtain ⟨h1, h2, h3⟩ := ih r g1
      exact ⟨by rw [h1, hf.1], by rw [h2, hf.2], by rw [h3, hf.2]⟩
    | fault why g1 =>
      rw [hr] at hf
      simp only [Outcome.globals] at hf ⊢
      exact ⟨hf.1, by rw [hf.2], by rw [hf.2]⟩

theorem decodeLE_encodeU32 (n : Nat) (h : n < 2 ^ 32) : decodeLE (encodeU32 n) = n := by
  simp only [encodeU32, decodeLE, byteOf]
  omega

theorem pluginHeader_ofBytes_bytes (a b c : Nat) (ha : a < 2 ^ 32) (hb : b < 2 ^ 32)
    (hc : c < 2 ^ 32) : PluginHeader.ofBytes (PluginHeader.mk a b c).bytes = ⟨a, b, c⟩ := by
  have h1 : slice (PluginHeader.mk a b c).bytes 0 4 = encodeU32 a := rfl
  have h2 : slice (PluginHeader.mk a b c).bytes 4 4 = encodeU32 b := rfl
  have h3 : slice (PluginHeader.mk a b c).bytes 8 4 = encodeU32 c := rfl
  unfold PluginHeader.ofBytes
  rw [h1, h2, h3, decodeLE_encodeU32 a ha, decodeLE_encodeU32 b hb, decodeLE_encodeU32 c hc]

theorem chunkHeader_ofBytes_bytes (a b c : Nat) (ha : a < 2 ^ 32) (hb : b < 2 ^ 32)
    (hc : c < 2 ^ 32) : ChunkHeader.ofBytes (ChunkHeader.mk a b c).bytes = ⟨a, b, c⟩ := by
  have h1 : slice (ChunkHeader.mk a b c).bytes 0 4 = encodeU32 a := rfl
  have h2 : slice (ChunkHeader.mk a b c).bytes 4 4 = encodeU32 b := rfl
  have h3 : slice (ChunkHeader.mk a b c).bytes 8 4 = encodeU32 c := rfl
  unfold ChunkHeader.ofBytes
  rw [h1, h2, h3, decodeLE_encodeU32 a ha, decodeLE_encodeU32 b hb, decodeLE_encodeU32 c hc]

theorem header_ofBytes_bytes (h : Header) (h1 : h.signature < 2 ^ 32)
    (h2 : h.formatVersion < 2 ^ 32) (h3 : h.f4seVersion < 2 ^ 32)
    (h4 : h.runtimeVersion < 2 ^ 32) (h5 : h.numPlugins < 2 ^ 32) :
    Header.ofBytes h.bytes = h := by
  have e1 : slice h.bytes 0 4 = encodeU32 h.signature := rfl
  have e2 : slice h.bytes 4 4 = encodeU32 h.formatVersion := rfl
  have e3 : slice h.bytes 8 4 = encodeU32 h.f4seVersion := rfl
  have e4 : slice h.bytes 12 4 = encodeU32 h.runtimeVersion := rfl
  have e5 : slice h.bytes 16 4 = encodeU32 h.numPlugins := rfl
  unfold Header.ofBytes
  rw [e1, e2, e3, e4, e5, decodeLE_encodeU32 _ h1, decodeLE_encodeU32 _ h2,
    decodeLE_encodeU32 _ h3, decodeLE_encodeU32 _ h4, decodeLE_encodeU32 _ h5]

theorem findPlugin_congr {α : Type} (l1 l2 : List (PluginCallbacks α)) (i signature acc : Nat)
    (h : l1.map PluginCallbacks.clearData = l2.map PluginCallbacks.clearData) :
    findPlugin l1 i signature acc = findPlugin l2 i signature acc := by
  induction l1 generalizing l2 i acc with
  | nil =>
    cases l2 with
    | nil => rfl
    | cons b l2 => simp at h
  | cons a l1 ih =>
    cases l2 with
    | nil => simp at h
    | cons b l2 =>
      simp only [List.map_cons, List.cons.injEq] at h
      obtain ⟨hab, ht⟩ := h
      have hu : a.hadUID = b.hadUID := by
        have : a.clearData.hadUID = b.clearData.hadUID := by rw [hab]
        exact this
      have hi : a.uid = b.uid := by
        have : a.clearData.uid = b.clearData.uid := by rw [hab]
        exact this
      unfold findPlugin
      rw [hu, hi]
      exact ih l2 (i + 1) _ ht

theorem getElem?_congr_clear {α : Type} (l1 l2 : List (PluginCallbacks α)) (i : Nat)
    (h : l1.map PluginCallbacks.clearData = l2.map PluginCallbacks.clearData) :
    (l1[i]?).map PluginCallbacks.clearData = (l2[i]?).map PluginCallbacks.clearData := by
  rw [← List.getElem?_map, ← List.getElem?_map, h]

theorem set_hadData_clear {α : Type} (l : List (PluginCallbacks α)) (i : Nat)
    (info : PluginCallbacks α) (h : l[i]? = some info) (b : Bool) :
    (l.set i { info with hadData := b }).map PluginCallbacks.clearData
      = l.map PluginCallbacks.clearData := by
  apply List.ext_getElem?
  intro k
  rw [List.getElem?_map, List.getElem?_map, List.getElem?_set]
  split_ifs with h1 h2
  · subst h1
    rw [h]
    rfl
  · subst h1
    rw [h]
    rw [List.getElem?_eq_none (by omega)] at h
    exact Option.noConfusion h
  · rfl

/-! ## The registry: lemmas -/

theorem getPluginInfo_valid {α : Type} (tbl : List (PluginCallbacks α)) (plugin : Nat)
    (h : plugin < 2 ^ 32 - 1) :
    (GetPluginInfo tbl plugin).length = max tbl.length (plugin + 1)
      ∧ (∀ j, j < tbl.length → (GetPluginInfo tbl plugin)[j]? = tbl[j]?)
      ∧ (∀ j, tbl.length ≤ j → j < plugin + 1 →
          (GetPluginInfo tbl plugin)[j]? = some PluginCallbacks.empty) := by
  have hm : (plugin + 1) % 2 ^ 32 = plugin + 1 := Nat.mod_eq_of_lt (by omega)
  unfold GetPluginInfo resize
  rw [hm]
  by_cases hp : plugin ≥ tbl.length
  · simp only [hp, if_true]
    have ht : List.take (plugin + 1) tbl = tbl := List.take_of_length_le (by omega)
    rw [ht]
    refine ⟨by simp; omega, ?_, ?_⟩
    · intro j hj
      rw [List.getElem?_append_left hj]
    · intro j h1 h2
      rw [List.getElem?_append_right h1, List.getElem?_replicate]
      simp
      omega
  · simp only [hp, if_false]
    refine ⟨by omega, by intros; trivial, ?_⟩
    intro j h1 h2
    omega

theorem setUniqueID_fault_iff {α : Type} (tbl : List (PluginCallbacks α)) (plugin uid : Nat)
    (h : plugin < 2 ^ 32 - 1) :
    ((SetUniqueID tbl plugin uid).fault = some Fault.assertion
        ↔ ∃ info, tbl[plugin]? = some info ∧ info.hadUID = true)
      ∧ ((SetUniqueID tbl plugin uid).fault = some Fault.assertion
          ∨ (SetUniqueID tbl plugin uid).fault = none) := by
  obtain ⟨hlen, hold, hnew⟩ := getPluginInfo_valid tbl plugin h
  unfold SetUniqueID
  by_cases hp : plugin < tbl.length
  · have h1 := hold plugin hp
    obtain ⟨info, hinfo⟩ : ∃ info, tbl[plugin]? = some info := ⟨tbl[plugin], List.getElem?_eq_getElem hp⟩
    rw [hinfo] at h1
    simp only [h1, hinfo]
    cases hu : info.hadUID <;> simp [hu]
  · have h1 := hnew plugin (by omega) (by omega)
    have h2 : tbl[plugin]? = none := List.getElem?_eq_none (by omega)
    simp [h1, h2, PluginCallbacks.empty]

/-- C9 (amended): `SetUniqueID` is write-once per handle. For every registry,
every uid and every handle other than `kPluginHandle_Invalid` (0xFFFFFFFF),
the call fails, by its assertion, exactly when the record of the handle
already has a UID, and then the registry is unchanged. Otherwise it succeeds:
the table has `max (old size) (handle + 1)` records, the record of the handle
is its old content (a fresh record when the handle is new) with `uid` and
`hadUID` set, and every other record is as before, fresh records filling the
new positions; so a record of another handle that already carried `uid` still
carries it. -/
theorem setUniqueID_write_once {α : Type} (tbl : List (PluginCallbacks α)) (plugin uid : Nat)
    (h : plugin < 2 ^ 32 - 1) :
    ((SetUniqueID tbl plugin uid).fault = some Fault.assertion
        ↔ ∃ info, tbl[plugin]? = some info ∧ info.hadUID = true)
      ∧ ((SetUniqueID tbl plugin uid).fault = some Fault.assertion →
          (SetUniqueID tbl plugin uid).table = tbl)
      ∧ ((¬ ∃ info, tbl[plugin]? = some info ∧ info.hadUID = true) →
          (SetUniqueID tbl plugin uid).fault = none
            ∧ (SetUniqueID tbl plugin uid).table.length = max tbl.length (plugin + 1)
            ∧ (SetUniqueID tbl plugin uid).table[plugin]?
                = some { (tbl[plugin]?.getD PluginCallbacks.empty) with uid := uid, hadUID := true }
            ∧ ∀ j, j ≠ plugin →
                (SetUniqueID tbl plugin uid).table[j]?
                  = if j < tbl.length then tbl[j]?
                    else if j < plugin + 1 then some PluginCallbacks.empty else none) := by
  obtain ⟨hlen, hold, hnew⟩ := getPluginInfo_valid tbl plugin h
  have hiff := (setUniqueID_fault_iff tbl plugin uid h).1
  have hor := (setUniqueID_fault_iff tbl plugin uid h).2
  refine ⟨hiff, ?_, ?_⟩
  · intro hf
    obtain ⟨info, hinfo, hu⟩ := hiff.1 hf
    have hp : plugin < tbl.length := by
      by_contra hc
      rw [List.getElem?_eq_none (by omega)] at hinfo
      exact Option.noConfusion hinfo
    have h1 := hold plugin hp
    rw [hinfo] at h1
    have hg : GetPluginInfo tbl plugin = tbl := by
      unfold GetPluginInfo
      rw [if_neg (by omega)]
    unfold SetUniqueID
    simp only [hg, hinfo, hu, if_true]
  · intro hno
    have hnone : (SetUniqueID tbl plugin uid).fault = none := by
      rcases hor with h1 | h1
      · exact absurd (hiff.1 h1) hno
      · exact h1
    have hget : (GetPluginInfo tbl plugin)[plugin]?
        = some (tbl[plugin]?.getD PluginCallbacks.empty) := by
      by_cases hp : plugin < tbl.length
      · rw [hold plugin hp, List.getElem?_eq_getElem hp]
        rfl
      · rw [hnew plugin (by omega) (by omega), List.getElem?_eq_none (by omega)]
        rfl
    have hnu : (tbl[plugin]?.getD PluginCallbacks.empty).hadUID = false := by
      by_cases hp : plugin < tbl.length
      · cases hb : (tbl[plugin]?.getD PluginCallbacks.empty).hadUID
        · rfl
        · exfalso
          apply hno
          refine ⟨tbl[plugin], List.getElem?_eq_getElem hp, ?_⟩
          rw [List.getElem?_eq_getElem hp] at hb
          exact hb
      · rw [List.getElem?_eq_none (by omega)]
        rfl
    have htab : (SetUniqueID tbl plugin uid).table
        = (GetPluginInfo tbl plugin).set plugin
            { (tbl[plugin]?.getD PluginCallbacks.empty) with uid := uid, hadUID := true } := by
      unfold SetUniqueID
      simp only [hget, hnu]
      rfl
    have hplen : plugin < (GetPluginInfo tbl plugin).length := by rw [hlen]; omega
    refine ⟨hnone, ?_, ?_, ?_⟩
    · rw [htab, List.length_set, hlen]
    · rw [htab, List.getElem?_set_self hplen]
    · intro j hj
      rw [htab, List.getElem?_set_ne (Ne.symm hj)]
      by_cases h1 : j < tbl.length
      · rw [if_pos h1, hold j h1]
      · rw [if_neg h1]
        by_cases h2 : j < plugin + 1
        · rw [if_pos h2, hnew j (by omega) h2]
        · rw [if_neg h2]
          exact List.getElem?_eq_none (by rw [hlen]; omega)

/-- C9, at a concrete input: handle 3 is new to `twinRegs` and receives the
UID 7 that handles 0 and 1 already carry. -/
theorem setUniqueID_write_once_witness :
    (3 < 2 ^ 32 - 1 ∧ ¬ ∃ info, twinRegs[3]? = some info ∧ info.hadUID = true)
      ∧ (SetUniqueID twinRegs 3 7).fault = none
      ∧ (SetUniqueID twinRegs 3 7).table.length = 4 :=
  have hnew : ¬ ∃ info, twinRegs[3]? = some info ∧ info.hadUID = true := by
    rintro ⟨info, h, -⟩
    exact Option.noConfusion h
  ⟨⟨by decide, hnew⟩,
   ((setUniqueID_write_once twinRegs 3 7 (by decide)).2.2 hnew).1,
   ((setUniqueID_write_once twinRegs 3 7 (by decide)).2.2 hnew).2.1⟩

/-- C9 as stated fails for the handle 0xFFFFFFFF: `plugin + 1` wraps to 0, the
table is resized to no records, and the call ends addressing a record outside
the table, although handle 0xFFFFFFFF had no record and so no UID. -/
theorem setUniqueID_invalid_handle :
    twinRegs[4294967295]?.isNone = true
      ∧ (SetUniqueID twinRegs 4294967295 5).fault = some Fault.badIndex
      ∧ (SetUniqueID twinRegs 4294967295 5).table.length = 0 := by
  decide

/-! ## The load pass: lemmas -/

theorem loadSection_log {α : Type} (offset : Nat) (bs : List Byte) (f : IFileStream)
    (st : LoadState α) : ∃ more, (loadSection offset bs f st).log = st.log ++ more := by
  unfold loadSection reconcile deliverSection
  simp only
  split_ifs
  all_goals first
    | exact ⟨_, rfl⟩
    | (split <;> first
        | exact ⟨_, rfl⟩
        | (split <;> first | exact ⟨_, rfl⟩ | exact ⟨_, List.append_assoc _ _ _⟩))

theorem loadSections_log {α : Type} (fuel : Nat) (st : LoadState α) :
    ∃ more, (loadSections fuel st).1.log = st.log ++ more := by
  induction fuel generalizing st with
  | zero => exact ⟨[], by simp [loadSections]⟩
  | succ n ih =>
    unfold loadSections
    split_ifs
    · split
      · exact ⟨[], by simp⟩
      · rename_i bs f _
        obtain ⟨m1, h1⟩ := loadSection_log st.g.s_currentFile.GetOffset bs f st
        obtain ⟨m2, h2⟩ := ih (loadSection st.g.s_currentFile.GetOffset bs f st)
        exact ⟨m1 ++ m2, by rw [h2, h1, List.append_assoc]⟩
    · exact ⟨[], by simp⟩

theorem loadNoData_log {α : Type} (regs : List (PluginCallbacks α)) (i : Nat) (g : Globals)
    (log : List (Event α)) : ∃ more, (loadNoData regs i g log).2 = log ++ more := by
  induction regs generalizing i g log with
  | nil => exact ⟨[], by simp [loadNoData]⟩
  | cons info rest ih =>
    unfold loadNoData
    split_ifs
    · split
      · split
        · rename_i a g1 _
          obtain ⟨m, hm⟩ := ih (i + 1) g1 (log ++ [Event.load i false g (.ok a g1)])
          exact ⟨_ :: m, by rw [hm, List.append_assoc]; rfl⟩
        · exact ⟨_, rfl⟩
      · exact ih _ _ _
    · exact ih _ _ _

theorem loadAccepted_log {α : Type} (header : Header) (regs : List (PluginCallbacks α))
    (g : Globals) :
    ∃ rest, (loadAccepted header regs g).log = Event.headerAccepted header :: rest := by
  unfold loadAccepted
  simp only
  obtain ⟨m1, h1⟩ := loadSections_log g.s_currentFile.GetRemain
    { regs := regs.map fun info => { info with hadData := false }, g := g,
      log := [Event.headerAccepted header] }
  split_ifs
  · rw [h1]
    exact ⟨m1, rfl⟩
  · obtain ⟨m2, h2⟩ := loadNoData_log
      (loadSections g.s_currentFile.GetRemain
        { regs := regs.map fun info => { info with hadData := false }, g := g,
          log := [Event.headerAccepted header] }).1.regs 0
      (loadSections g.s_currentFile.GetRemain
        { regs := regs.map fun info => { info with hadData := false }, g := g,
          log := [Event.headerAccepted header] }).1.g
      (loadSections g.s_currentFile.GetRemain
        { regs := regs.map fun info => { info with hadData := false }, g := g,
          log := [Event.headerAccepted header] }).1.log
    rw [h2, h1]
    exact ⟨m1 ++ m2, rfl⟩

theorem readBuf_of_le (f : IFileStream) (n : Nat) (h : f.streamOffset + n ≤ f.data.length) :
    f.ReadBuf n
      = some (slice f.data f.streamOffset n, { f with streamOffset := f.streamOffset + n }) := by
  unfold IFileStream.ReadBuf
  rw [if_pos h]

/-- C7: header acceptance gate of `HandleLoadGlobalData`. For every file that
starts with a 20-byte header, the load pass begins section processing (its
first event is `headerAccepted`) if and only if the signature is the magic
constant and `1 ≤ formatVersion ≤ kVersion`, where `kVersion = 1`; when the
header is rejected the pass is a no-op: no event is logged, so no load
callback is invoked, and the registry, `hadData` flags included, is returned
as it was. -/
theorem load_header_gate {α : Type} (content : List Byte) (regs : List (PluginCallbacks α))
    (g : Globals) (h20 : 20 ≤ content.length) :
    kVersion = 1
      ∧ ((∃ rest, (HandleLoadGlobalData (some content) regs g).log
            = Event.headerAccepted (Header.ofBytes (content.take 20)) :: rest)
          ↔ ((Header.ofBytes (content.take 20)).signature = kSignature
              ∧ 1 ≤ (Header.ofBytes (content.take 20)).formatVersion
              ∧ (Header.ofBytes (content.take 20)).formatVersion ≤ kVersion))
      ∧ (¬ ((Header.ofBytes (content.take 20)).signature = kSignature
              ∧ 1 ≤ (Header.ofBytes (content.take 20)).formatVersion
              ∧ (Header.ofBytes (content.take 20)).formatVersion ≤ kVersion) →
          (HandleLoadGlobalData (some content) regs g).log = []
            ∧ (HandleLoadGlobalData (some content) regs g).regs = regs) := by
  have hrd : (IFileStream.Open content).ReadBuf 20
      = some (content.take 20, { IFileStream.Open content with streamOffset := 0 + 20 }) := by
    rw [readBuf_of_le _ _ (by simpa [IFileStream.Open] using h20)]
    simp [IFileStream.Open, slice]
  have hrej : ¬ ((Header.ofBytes (content.take 20)).signature = kSignature
              ∧ 1 ≤ (Header.ofBytes (content.take 20)).formatVersion
              ∧ (Header.ofBytes (content.take 20)).formatVersion ≤ kVersion) →
          (HandleLoadGlobalData (some content) regs g).log = []
            ∧ (HandleLoadGlobalData (some content) regs g).regs = regs := by
    intro hno
    unfold HandleLoadGlobalData
    simp only [hrd]
    split_ifs with h1 h2 h3
    · exact ⟨rfl, rfl⟩
    · exact ⟨rfl, rfl⟩
    · exact ⟨rfl, rfl⟩
    · exfalso
      apply hno
      simp only [kVersion_Invalid, kVersion] at h2 h3 ⊢
      exact ⟨not_not.mp h1, by omega, by omega⟩
  refine ⟨rfl, ⟨?_, ?_⟩, hrej⟩
  · rintro ⟨rest, hrest⟩
    by_contra hno
    rw [(hrej hno).1] at hrest
    exact List.noConfusion hrest
  · rintro ⟨hs, hv1, hv2⟩
    unfold HandleLoadGlobalData
    simp only [hrd]
    rw [if_neg (not_not.mpr hs), if_neg (by simp only [kVersion_Invalid]; omega),
      if_neg (by omega)]
    exact loadAccepted_log _ _ _

/-- C7, at a concrete input: `twinFile` is longer than 20 bytes and its
header is accepted. -/
theorem load_header_gate_witness :
    20 ≤ twinFile.length
      ∧ ((∃ rest, (HandleLoadGlobalData (some twinFile) twinRegs idleGlobals).log
            = Event.headerAccepted (Header.ofBytes (twinFile.take 20)) :: rest)
          ↔ ((Header.ofBytes (twinFile.take 20)).signature = kSignature
              ∧ 1 ≤ (Header.ofBytes (twinFile.take 20)).formatVersion
              ∧ (Header.ofBytes (twinFile.take 20)).formatVersion ≤ kVersion)) :=
  ⟨by decide, (load_header_gate twinFile twinRegs idleGlobals (by decide)).2.1⟩

theorem reconcile_eq {α : Type} (start : Nat) (st2 : LoadState α) :
    reconcile start st2
      = { st2 with
          g := { st2.g with
            s_currentFile :=
              ⟨st2.g.s_currentFile.data, start + st2.g.s_pluginHeader.length⟩ } } := by
  unfold reconcile
  simp only
  split_ifs with hc
  · rfl
  · have hc' : st2.g.s_currentFile.streamOffset = start + st2.g.s_pluginHeader.length :=
      not_not.mp hc
    rw [← hc']

theorem deliverSection_frame {α : Type} (offset : Nat) (bs : List Byte) (f : IFileStream)
    (st : LoadState α) :
    (deliverSection offset bs f st).g.s_currentFile.data = f.data
      ∧ (deliverSection offset bs f st).g.s_pluginHeader.signature
          = (PluginHeader.ofBytes bs).signature
      ∧ (deliverSection offset bs f st).g.s_pluginHeader.length
          = (PluginHeader.ofBytes bs).length
      ∧ (deliverSection offset bs f st).regs.map PluginCallbacks.clearData
          = st.regs.map PluginCallbacks.clearData := by
  unfold deliverSection
  simp only
  split_ifs with hidx
  · split
    · exact ⟨rfl, rfl, rfl, rfl⟩
    · rename_i info hget
      split
      · rename_i cb hload
        have hfr := runLoad_frame cb
          { st.g with
            s_currentFile := f, s_pluginHeader := PluginHeader.ofBytes bs, s_chunkOpen := false }
        exact ⟨hfr.1, hfr.2.1, hfr.2.2, set_hadData_clear _ _ _ hget true⟩
      · exact ⟨rfl, rfl, rfl, set_hadData_clear _ _ _ hget true⟩
  · exact ⟨rfl, rfl, rfl, rfl⟩

theorem deliverSection_visits {α : Type} (offset : Nat) (bs : List Byte) (f : IFileStream)
    (st : LoadState α) :
    (deliverSection offset bs f st).log.filterMap Event.visit
      = st.log.filterMap Event.visit
        ++ Visit.header offset (PluginHeader.ofBytes bs)
          :: deliveredTo st.regs f.streamOffset (PluginHeader.ofBytes bs) := by
  unfold deliverSection deliveredTo
  simp only
  split_ifs with hidx
  · cases hget : st.regs[findPlugin st.regs 0 (PluginHeader.ofBytes bs).signature
        kPluginHandle_Invalid]? with
    | none => simp [Event.visit]
    | some info =>
      cases hload : info.load with
      | none => simp [Event.visit, hload]
      | some cb => simp [Event.visit, hload]
  · simp [Event.visit]

theorem deliveredTo_congr {α : Type} (l1 l2 : List (PluginCallbacks α)) (offset : Nat)
    (hdr : PluginHeader)
    (h : l1.map PluginCallbacks.clearData = l2.map PluginCallbacks.clearData) :
    deliveredTo l1 offset hdr = deliveredTo l2 offset hdr := by
  unfold deliveredTo
  simp only
  rw [findPlugin_congr l1 l2 0 hdr.signature kPluginHandle_Invalid h]
  have hg := getElem?_congr_clear l1 l2 (findPlugin l2 0 hdr.signature kPluginHandle_Invalid) h
  cases h1 : l1[findPlugin l2 0 hdr.signature kPluginHandle_Invalid]? with
  | none =>
    cases h2 : l2[findPlugin l2 0 hdr.signature kPluginHandle_Invalid]? with
    | none => rfl
    | some b => rw [h1, h2] at hg; simp at hg
  | some a =>
    cases h2 : l2[findPlugin l2 0 hdr.signature kPluginHandle_Invalid]? with
    | none => rw [h1, h2] at hg; simp at hg
    | some b =>
      rw [h1, h2] at hg
      simp only [Option.map_some', Option.some.injEq] at hg
      have hl : a.load = b.load := by
        have : a.clearData.load = b.clearData.load := by rw [hg]
        exact this
      simp only [hl]

theorem loadSections_visits {α : Type} (regs : List (PluginCallbacks α)) (D : List Byte)
    (secs : List Section) (fuel off : Nat) (st : LoadState α)
    (hregs : st.regs.map PluginCallbacks.clearData = regs.map PluginCallbacks.clearData)
    (hfile : st.g.s_currentFile = ⟨D, off⟩)
    (hholds : holds D off (sectionsBytes secs))
    (hlo : off + (sectionsBytes secs).length ≤ D.length)
    (hhi : D.length < off + (sectionsBytes secs).length + 12)
    (hbound : ∀ s ∈ secs, s.uid < 2 ^ 32 ∧ s.numChunks < 2 ^ 32 ∧ s.body.length < 2 ^ 32)
    (hfuel : D.length - off ≤ fuel) :
    (loadSections fuel st).2 = false
      ∧ (loadSections fuel st).1.log.filterMap Event.visit
          = st.log.filterMap Event.visit ++ expectedVisits regs off secs
      ∧ (loadSections fuel st).1.g.s_currentFile = ⟨D, off + (sectionsBytes secs).length⟩
      ∧ (loadSections fuel st).1.regs.map PluginCallbacks.clearData
          = regs.map PluginCallbacks.clearData := by
  induction secs generalizing fuel off st with
  | nil =>
    simp only [sectionsBytes, List.length_nil, Nat.add_zero] at hlo hhi ⊢
    have hstop : loadSections fuel st = (st, false) := by
      cases fuel with
      | zero => rfl
      | succ n =>
        unfold loadSections
        rw [if_neg (by unfold IFileStream.GetRemain; rw [hfile]; simp only; omega)]
    rw [hstop]
    exact ⟨rfl, by simp [expectedVisits], hfile, hregs⟩
  | cons s ss ih =>
    obtain ⟨hu, hn, hb⟩ := hbound s (List.mem_cons_self _ _)
    simp only [sectionsBytes, Section.image, List.length_append, pluginHeader_bytes_length]
      at hlo hhi hholds ⊢
    rw [holds_append, holds_append] at hholds
    obtain ⟨⟨hh1, -⟩, hh3⟩ := hholds
    simp only [List.length_append, pluginHeader_bytes_length] at hh3
    rw [← Nat.add_assoc] at hh3
    have hslice : slice D off 12 = (PluginHeader.mk s.uid s.numChunks s.body.length).bytes :=
      holds_slice D off _ hh1 (by rw [pluginHeader_bytes_length]; omega)
    cases fuel with
    | zero => omega
    | succ n =>
      have hrd : st.g.s_currentFile.ReadBuf 12 = some (slice D off 12, ⟨D, off + 12⟩) := by
        rw [readBuf_of_le _ _ (by rw [hfile]; simp only; omega), hfile]
      have hstep : loadSections (n + 1) st
          = loadSections n (loadSection off (slice D off 12) ⟨D, off + 12⟩ st) := by
        rw [loadSections]
        rw [if_pos (by unfold IFileStream.GetRemain; rw [hfile]; simp only; omega), hrd]
        simp only [IFileStream.GetOffset, hfile]
      have hof : PluginHeader.ofBytes (slice D off 12) = ⟨s.uid, s.numChunks, s.body.length⟩ := by
        rw [hslice]
        exact pluginHeader_ofBytes_bytes _ _ _ hu hn hb
      obtain ⟨hd1, -, hd3, hd4⟩ := deliverSection_frame off (slice D off 12) ⟨D, off + 12⟩ st
      have hv := deliverSection_visits off (slice D off 12) ⟨D, off + 12⟩ st
      have hls : loadSection off (slice D off 12) ⟨D, off + 12⟩ st
          = reconcile (off + 12) (deliverSection off (slice D off 12) ⟨D, off + 12⟩ st) := rfl
      rw [reconcile_eq, hd1, hd3, hof] at hls
      simp only at hls
      have := ih n (off + 12 + s.body.length)
        (loadSection off (slice D off 12) ⟨D, off + 12⟩ st)
        (by rw [hls]; simp only; rw [hd4, hregs])
        (by rw [hls])
        hh3 (by omega) (by omega)
        (fun x hx => hbound x (List.mem_cons_of_mem _ hx)) (by omega)
      rw [hstep]
      obtain ⟨h1, h2, h3, h4⟩ := this
      refine ⟨h1, ?_, ?_, h4⟩
      · rw [h2, hls]
        simp only
        rw [hv, hof]
        simp only [expectedVisits]
        rw [deliveredTo_congr st.regs regs (off + 12) _ hregs]
        simp
      · rw [h3]
        congr 1
        omega

theorem loadNoData_visits {α : Type} (regs : List (PluginCallbacks α)) (i : Nat) (g : Globals)
    (log : List (Event α)) :
    (loadNoData regs i g log).2.filterMap Event.visit = log.filterMap Event.visit := by
  induction regs generalizing i g log with
  | nil => rfl
  | cons info rest ih =>
    unfold loadNoData
    split_ifs
    · split
      · split
        · rw [ih]
          simp [Event.visit]
        · simp [Event.visit]
      · exact ih _ _ _
    · exact ih _ _ _

theorem deliveredTo_headerOffset {α : Type} (regs : List (PluginCallbacks α)) (offset : Nat)
    (hdr : PluginHeader) : (deliveredTo regs offset hdr).filterMap Visit.headerOffset = [] := by
  unfold deliveredTo
  simp only
  split_ifs
  · split
    · split_ifs <;> rfl
    · rfl
  · rfl

theorem expectedVisits_offsets {α : Type} (regs : List (PluginCallbacks α)) (off : Nat)
    (secs : List Section) :
    (expectedVisits regs off secs).filterMap Visit.headerOffset
      = (List.range secs.length).map
          (fun k => off + ((secs.take k).map (fun s => 12 + s.body.length)).sum) := by
  induction secs generalizing off with
  | nil => rfl
  | cons s ss ih =>
    simp only [expectedVisits, List.filterMap_cons, Visit.headerOffset, List.filterMap_append,
      deliveredTo_headerOffset, List.nil_append, List.length_cons]
    rw [ih, List.range_succ_eq_map]
    simp only [List.map_cons, List.take_zero, List.map_nil, List.sum_nil, Nat.add_zero,
      List.map_map, List.cons.injEq, true_and]
    apply List.map_congr_left
    intro k _
    simp only [Function.comp, List.take_succ_cons, List.map_cons, List.sum_cons]
    omega

/-- C2: section-level skip in `HandleLoadGlobalData`. For every file made of an
accepted 20-byte header, sections whose declared byte lengths lie within the
file (each is the image of its header fields and body) and fewer than 12
trailing bytes, for every registry and every behaviour of the load callbacks
(any tree of `GetNextRecordInfo` and `ReadRecordData` calls, returning or
faulting): the section headers are read exactly at the offsets
`20 + sum over the earlier sections of (12 + declared length)`, so a section
whose UID matches no record is skipped by exactly its declared length; and
every section whose UID the lookup finds is handed to that record's load
callback with the stream at its first chunk header, its own section header in
`s_pluginHeader` and no chunk open. -/
theorem load_section_skip {α : Type} (hb : List Byte) (secs : List Section) (tail : List Byte)
    (regs : List (PluginCallbacks α)) (g : Globals)
    (hhl : hb.length = 20)
    (hacc : (Header.ofBytes hb).signature = kSignature ∧ 1 ≤ (Header.ofBytes hb).formatVersion
      ∧ (Header.ofBytes hb).formatVersion ≤ kVersion)
    (htail : tail.length < 12)
    (hbound : ∀ s ∈ secs, s.uid < 2 ^ 32 ∧ s.numChunks < 2 ^ 32 ∧ s.body.length < 2 ^ 32) :
    (HandleLoadGlobalData (some (hb ++ sectionsBytes secs ++ tail)) regs g).log.filterMap
        Event.visit = expectedVisits regs 20 secs
      ∧ ((HandleLoadGlobalData (some (hb ++ sectionsBytes secs ++ tail)) regs g).log.filterMap
          Event.visit).filterMap Visit.headerOffset
        = (List.range secs.length).map
            (fun k => 20 + ((secs.take k).map (fun s => 12 + s.body.length)).sum) := by
  have hmain : (HandleLoadGlobalData (some (hb ++ sectionsBytes secs ++ tail)) regs g).log.filterMap
      Event.visit = expectedVisits regs 20 secs := by
    have hlen : (hb ++ sectionsBytes secs ++ tail).length
        = 20 + (sectionsBytes secs).length + tail.length := by
      simp only [List.length_append, hhl]
    have hrd : (IFileStream.Open (hb ++ sectionsBytes secs ++ tail)).ReadBuf 20
        = some (hb, ⟨hb ++ sectionsBytes secs ++ tail, 20⟩) := by
      rw [readBuf_of_le _ _ (by simp only [IFileStream.Open]; omega)]
      simp only [IFileStream.Open, slice, List.drop_zero, Nat.zero_add, List.append_assoc]
      rw [← hhl, List.take_left]
    unfold HandleLoadGlobalData
    simp only [hrd]
    rw [if_neg (not_not.mpr hacc.1), if_neg (by simp only [kVersion_Invalid]; omega),
      if_neg (by omega)]
    have hloop := loadSections_visits regs (hb ++ sectionsBytes secs ++ tail) secs
      (IFileStream.GetRemain ⟨hb ++ sectionsBytes secs ++ tail, 20⟩) 20
      { regs := regs.map fun info => { info with hadData := false },
        g := { g with s_currentFile := ⟨hb ++ sectionsBytes secs ++ tail, 20⟩ },
        log := [Event.headerAccepted (Header.ofBytes hb)] }
      (by
        simp only [List.map_map]
        apply List.map_congr_left
        intro a _
        rfl)
      rfl
      (by rw [← hhl]; exact holds_of_eq _ hb (sectionsBytes secs) tail rfl)
      (by omega) (by omega) hbound
      (by simp only [IFileStream.GetRemain]; omega)
    obtain ⟨h1, h2, -, -⟩ := hloop
    unfold loadAccepted
    simp only
    rw [h1]
    simp only [Bool.false_eq_true, if_false]
    rw [loadNoData_visits, h2]
    simp [Event.visit]
  exact ⟨hmain, by rw [hmain, expectedVisits_offsets]⟩

/-- C2, at a concrete input: a section of the absent UID 2 with one chunk header,
followed by a section of UID 7, loaded with the registry `twinRegs`. -/
theorem load_section_skip_witness :
    (acceptedHeader.bytes.length = 20
        ∧ ((Header.ofBytes acceptedHeader.bytes).signature = kSignature
            ∧ 1 ≤ (Header.ofBytes acceptedHeader.bytes).formatVersion
            ∧ (Header.ofBytes acceptedHeader.bytes).formatVersion ≤ kVersion)
        ∧ ([] : List Byte).length < 12
        ∧ ∀ s ∈ ([⟨2, 1, (ChunkHeader.mk 0 0 0).bytes⟩, ⟨7, 0, []⟩] : List Section),
            s.uid < 2 ^ 32 ∧ s.numChunks < 2 ^ 32 ∧ s.body.length < 2 ^ 32)
      ∧ (HandleLoadGlobalData
            (some (acceptedHeader.bytes
              ++ sectionsBytes [⟨2, 1, (ChunkHeader.mk 0 0 0).bytes⟩, ⟨7, 0, []⟩] ++ []))
            twinRegs idleGlobals).log.filterMap Event.visit
          = [Visit.header 20 ⟨2, 1, 12⟩, Visit.header 44 ⟨7, 0, 0⟩,
             Visit.delivered 1 56 ⟨7, 0, 0⟩ false] :=
  ⟨⟨by decide, by decide, by decide, by decide⟩,
   (load_section_skip acceptedHeader.bytes [⟨2, 1, (ChunkHeader.mk 0 0 0).bytes⟩, ⟨7, 0, []⟩] []
      twinRegs idleGlobals (by decide) (by decide) (by decide) (by decide)).1⟩

theorem flushReadRecord_quiet (g : Globals)
    (h : g.s_chunkOpen = false ∨ g.s_chunkHeader.length = 0) :
    FlushReadRecord g = { g with s_chunkOpen := false } := by
  unfold FlushReadRecord
  rcases h with h | h
  · rw [h]
    simp only [Bool.false_eq_true, if_false]
    cases g
    simp only at h
    subst h
    rfl
  · split_ifs with h1 h2
    · exact absurd h h2
    · rfl
    · have : g.s_chunkOpen = false := by simpa using h1
      cases g
      simp only at this
      subst this
      rfl

theorem runLoad_readAll (recs : List Record) (n : Nat) (acc : List Record) (g : Globals)
    (hn : recs.length < n)
    (hnum : g.s_pluginHeader.numChunks = recs.length)
    (hquiet : g.s_chunkOpen = false ∨ g.s_chunkHeader.length = 0)
    (hholds : holds g.s_currentFile.data g.s_currentFile.streamOffset (bodyImage recs))
    (hlen : g.s_currentFile.streamOffset + bodyLength recs ≤ g.s_currentFile.data.length)
    (hbound : ∀ r ∈ recs, r.type < 2 ^ 32 ∧ r.version < 2 ^ 32 ∧ r.payload.length < 2 ^ 32) :
    ∃ g1, runLoad (readAll n acc) g = .ok (acc ++ recs) g1
      ∧ g1.s_pluginHeader.numChunks = 0 ∧ g1.s_chunkOpen = false
      ∧ g1.s_currentFile.streamOffset = g.s_currentFile.streamOffset + bodyLength recs := by
  induction recs generalizing n acc g with
  | nil =>
    cases n with
    | zero => simp at hn
    | succ n =>
      have hnext : GetNextRecordInfo g = .ok none { g with s_chunkOpen := false } := by
        unfold GetNextRecordInfo
        simp only [flushReadRecord_quiet g hquiet]
        rw [if_pos (by simpa using hnum)]
      refine ⟨{ g with s_chunkOpen := false }, ?_, by simpa using hnum, rfl, by simp [bodyLength]⟩
      simp only [readAll, runLoad, hnext, List.append_nil]
  | cons r rs ih =>
    obtain ⟨ht, hv, hp⟩ := hbound r (List.mem_cons_self _ _)
    cases n with
    | zero => simp at hn
    | succ n =>
      simp only [List.length_cons] at hn hnum
      simp only [bodyImage, Record.image, bodyLength] at hholds hlen
      rw [holds_append, holds_append] at hholds
      obtain ⟨⟨hh1, hh2⟩, hh3⟩ := hholds
      simp only [List.length_append, chunkHeader_bytes_length] at hh2 hh3
      have hslice : slice g.s_currentFile.data g.s_currentFile.streamOffset 12
          = (ChunkHeader.mk r.type r.version r.payload.length).bytes :=
        holds_slice _ _ _ hh1 (by rw [chunkHeader_bytes_length]; omega)
      have hpay : slice g.s_currentFile.data (g.s_currentFile.streamOffset + 12)
          r.payload.length = r.payload := holds_slice _ _ _ hh2 (by omega)
      have hnext : GetNextRecordInfo g
          = .ok (some (r.type, r.version, r.payload.length))
              { g with
                s_currentFile := ⟨g.s_currentFile.data, g.s_currentFile.streamOffset + 12⟩
                s_pluginHeader := { g.s_pluginHeader with numChunks := rs.length }
                s_chunkHeader := ⟨r.type, r.version, r.payload.length⟩
                s_chunkOpen := true } := by
        unfold GetNextRecordInfo
        simp only [flushReadRecord_quiet g hquiet]
        rw [if_neg (by rw [hnum]; omega)]
        rw [readBuf_of_le _ _ (by show g.s_currentFile.streamOffset + 12 ≤ _; omega)]
        simp only
        rw [hslice, chunkHeader_ofBytes_bytes _ _ _ ht hv hp, hnum]
        simp
      have hread : ReadRecordData r.payload.length
          { g with
            s_currentFile := ⟨g.s_currentFile.data, g.s_currentFile.streamOffset + 12⟩
            s_pluginHeader := { g.s_pluginHeader with numChunks := rs.length }
            s_chunkHeader := ⟨r.type, r.version, r.payload.length⟩
            s_chunkOpen := true }
          = .ok (r.payload.length, r.payload)
              { g with
                s_currentFile :=
                  ⟨g.s_currentFile.data, g.s_currentFile.streamOffset + 12 + r.payload.length⟩
                s_pluginHeader := { g.s_pluginHeader with numChunks := rs.length }
                s_chunkHeader := ⟨r.type, r.version, 0⟩
                s_chunkOpen := true } := by
        rw [readRecordData_ok _ _ rfl (by simp only [Nat.min_self]; omega)]
        simp only [Nat.min_self, Nat.sub_self, hpay]
      obtain ⟨g1, hg1, h1, h2, h3⟩ := ih n (acc ++ [r])
        { g with
          s_currentFile :=
            ⟨g.s_currentFile.data, g.s_currentFile.streamOffset + 12 + r.payload.length⟩
          s_pluginHeader := { g.s_pluginHeader with numChunks := rs.length }
          s_chunkHeader := ⟨r.type, r.version, 0⟩
          s_chunkOpen := true }
        (by omega) rfl (Or.inr rfl)
        (by
          show holds g.s_currentFile.data (g.s_currentFile.streamOffset + 12 + r.payload.length) _
          rw [Nat.add_assoc]
          exact hh3)
        (by
          show g.s_currentFile.streamOffset + 12 + r.payload.length + bodyLength rs
            ≤ g.s_currentFile.data.length
          omega)
        (fun x hx => hbound x (List.mem_cons_of_mem _ hx))
      refine ⟨g1, ?_, h1, h2, ?_⟩
      · simp only [readAll, runLoad, hnext, hread]
        rw [hg1]
        simp
      · rw [h3]
        simp only [bodyLength]
        omega

theorem findPlugin_none {α : Type} (rest : List (PluginCallbacks α)) (i signature acc : Nat)
    (hno : ∀ (k : Nat) (r : PluginCallbacks α), rest[k]? = some r →
      ¬ (r.hadUID = true ∧ r.uid = signature)) :
    findPlugin rest i signature acc = acc := by
  induction rest generalizing i acc with
  | nil => rfl
  | cons info rest ih =>
    unfold findPlugin
    have h0 := hno 0 info (by simp)
    have hc : (info.hadUID && decide (info.uid = signature)) = false := by
      cases hb : info.hadUID
      · rfl
      · simp only [Bool.true_and, decide_eq_false_iff_not]
        intro hu
        exact h0 ⟨hb, hu⟩
    rw [hc]
    exact ih (i + 1) acc (fun k r hk => hno (k + 1) r (by simpa using hk))

theorem findPlugin_last {α : Type} (rest : List (PluginCallbacks α)) (i signature acc k : Nat)
    (info : PluginCallbacks α) (hlen : i + rest.length ≤ 2 ^ 32)
    (hk : rest[k]? = some info) (hm : info.hadUID = true ∧ info.uid = signature)
    (hlast : ∀ (j : Nat) (r : PluginCallbacks α), k < j → rest[j]? = some r →
      ¬ (r.hadUID = true ∧ r.uid = signature)) :
    findPlugin rest i signature acc = i + k := by
  induction rest generalizing i acc k with
  | nil => simp at hk
  | cons r rest ih =>
    unfold findPlugin
    simp only [List.length_cons] at hlen
    cases k with
    | zero =>
      simp only [List.getElem?_cons_zero, Option.some.injEq] at hk
      subst hk
      have hc : (r.hadUID && decide (r.uid = signature)) = true := by
        simp [hm.1, hm.2]
      rw [hc, if_pos rfl]
      rw [findPlugin_none rest (i + 1) signature _
        (fun j r hj => hlast (j + 1) r (by omega) (by simpa using hj))]
      exact Nat.mod_eq_of_lt (by omega)
    | succ k =>
      have := ih (i + 1)
        (if (r.hadUID && decide (r.uid = signature)) = true then i % 2 ^ 32 else acc) k
        (by omega) (by simpa using hk)
        (fun j r hj hr => hlast (j + 1) r (by omega) (by simpa using hr))
      rw [this]
      omega

/-- C8 (amended): UID lookup during load resolves to the last match. In the
body of the section loop of `HandleLoadGlobalData`, for every registry of
fewer than 2^32 records and every section header: if handle `i` carries the
UID of the section and no larger handle does, then `i` is the record the pass
selects: exactly that record is marked `hadData`, and its load callback, when
it has one, is the one invoked, on the state positioned behind the section
header with no chunk open. -/
theorem load_selects_last_match {α : Type} (offset : Nat) (bs : List Byte) (f : IFileStream)
    (st : LoadState α) (i : Nat) (info : PluginCallbacks α)
    (hlen : st.regs.length < 2 ^ 32)
    (hi : st.regs[i]? = some info)
    (hm : info.hadUID = true ∧ info.uid = (PluginHeader.ofBytes bs).signature)
    (hlast : ∀ (j : Nat) (r : PluginCallbacks α), i < j → st.regs[j]? = some r →
      ¬ (r.hadUID = true ∧ r.uid = (PluginHeader.ofBytes bs).signature)) :
    (loadSection offset bs f st).regs = st.regs.set i { info with hadData := true }
      ∧ ∀ cb, info.load = some cb →
          (loadSection offset bs f st).log
            = st.log ++
              [Event.sectionHeader offset (PluginHeader.ofBytes bs),
               Event.load i true
                 { st.g with
                   s_currentFile := f, s_pluginHeader := PluginHeader.ofBytes bs,
                   s_chunkOpen := false }
                 (runLoad cb
                   { st.g with
                     s_currentFile := f, s_pluginHeader := PluginHeader.ofBytes bs,
                     s_chunkOpen := false })] := by
  have hfind : findPlugin st.regs 0 (PluginHeader.ofBytes bs).signature kPluginHandle_Invalid = i := by
    rw [findPlugin_last st.regs 0 _ _ i info (by omega) hi hm hlast]
    omega
  have hil : i < st.regs.length := by
    by_contra hc
    rw [List.getElem?_eq_none (by omega)] at hi
    exact Option.noConfusion hi
  have hne : i ≠ kPluginHandle_Invalid := by
    unfold kPluginHandle_Invalid
    omega
  unfold loadSection reconcile deliverSection
  simp only [hfind, hne, ne_eq, not_false_eq_true, if_true, hi]
  constructor
  · cases hl : info.load <;> simp only <;> split_ifs <;> rfl
  · intro cb hcb
    simp only [hcb]
    split_ifs <;> simp


/-- C8, at a concrete input: of the two records of `twinRegs` carrying UID 7,
handle 1 is selected for a section of UID 7. -/
theorem load_selects_last_match_witness :
    (twinRegs.length < 2 ^ 32
        ∧ twinRegs[1]? = some
            { revert := none, save := none, load := some (.ret 1), formDelete := none,
              uid := 7, hadUID := true, hadData := false }
        ∧ (PluginHeader.ofBytes (PluginHeader.mk 7 0 0).bytes).signature = 7)
      ∧ (loadSection 20 (PluginHeader.mk 7 0 0).bytes (IFileStream.mk twinFile 32)
            { regs := twinRegs, g := idleGlobals, log := [] }).regs
          = twinRegs.set 1
              { revert := none, save := none, load := some (.ret 1), formDelete := none,
                uid := 7, hadUID := true, hadData := true } :=
  ⟨⟨by decide, rfl, by decide⟩,
   (load_selects_last_match 20 (PluginHeader.mk 7 0 0).bytes (IFileStream.mk twinFile 32)
      { regs := twinRegs, g := idleGlobals, log := [] } 1
      { revert := none, save := none, load := some (.ret 1), formDelete := none,
        uid := 7, hadUID := true, hadData := false }
      (by decide) rfl ⟨rfl, by decide⟩
      (fun j r hj hr => by
        have hnone : twinRegs[j]? = none := List.getElem?_eq_none (by simp [twinRegs]; omega)
        rw [hnone] at hr
        exact Option.noConfusion hr)).1⟩

/-- C8 as stated fails: with handles 0 and 1 both carrying UID 7, the section
of UID 7 is delivered to handle 1, the larger one; handle 1 is marked
`hadData` and handle 0 is not. -/
theorem load_twin_uid_selects_larger_handle :
    (HandleLoadGlobalData (some twinFile) twinRegs idleGlobals).log.filterMap
        Event.loadedInSection = [1]
      ∧ (HandleLoadGlobalData (some twinFile) twinRegs idleGlobals).regs.map
          (fun info => info.hadData) = [false, true] := by
  decide

/-- C10 fails on the code: loading `orphanFile` with the registry `probeRegs`.
The only section belongs to an absent plugin and is skipped, which leaves its
chunk count 1 in `s_pluginHeader`. The load callback of handle 0, which got no
data, is then invoked in the state `orphanEntry`; its first
`GetNextRecordInfo` call does not return `false`: it decrements the stale
counter and reads a chunk header at the end of the file. -/
theorem load_no_data_sees_stale_section :
    (HandleLoadGlobalData (some orphanFile) probeRegs idleGlobals).log.getLast?
        = some (Event.load 0 false orphanEntry (runLoad probe orphanEntry))
      ∧ orphanEntry.s_pluginHeader.numChunks = 1
      ∧ GetNextRecordInfo orphanEntry
          = .fault Fault.endOfStream
              { orphanEntry with s_pluginHeader := ⟨2, 0, 12⟩ }
      ∧ GetNextRecordInfo orphanEntry ≠ .ok none orphanEntry := by
  decide

theorem loadSections_stop {α : Type} (fuel : Nat) (st : LoadState α)
    (h : st.g.s_currentFile.GetRemain < 12) : loadSections fuel st = (st, false) := by
  cases fuel with
  | zero => rfl
  | succ n =>
    unfold loadSections
    rw [if_neg (by omega)]

theorem loadSections_step {α : Type} (n : Nat) (st : LoadState α) (D : List Byte) (off : Nat)
    (hfile : st.g.s_currentFile = ⟨D, off⟩) (h : off + 12 ≤ D.length) :
    loadSections (n + 1) st
      = loadSections n
          (reconcile (off + 12) (deliverSection off (slice D off 12) ⟨D, off + 12⟩ st)) := by
  have hrd : st.g.s_currentFile.ReadBuf 12 = some (slice D off 12, ⟨D, off + 12⟩) := by
    rw [readBuf_of_le _ _ (by rw [hfile]; exact h), hfile]
  rw [loadSections]
  rw [if_pos (by unfold IFileStream.GetRemain; rw [hfile]; simp only; omega), hrd]
  simp only [IFileStream.GetOffset, hfile]
  rfl

theorem uid_unique (regs pre rest : List (PluginCallbacks (List Record)))
    (info : PluginCallbacks (List Record))
    (hnodup : (regs.map fun info => info.uid).Nodup) (hsplit : regs = pre ++ info :: rest)
    (j : Nat) (r : PluginCallbacks (List Record)) (hj : pre.length < j)
    (hr : regs[j]? = some r) : r.uid ≠ info.uid := by
  intro heq
  have hjl : j < regs.length := by
    by_contra hc
    rw [List.getElem?_eq_none (by omega)] at hr
    exact Option.noConfusion hr
  have h1 : (regs.map fun info => info.uid)[pre.length]? = some info.uid := by
    rw [List.getElem?_map, hsplit, List.getElem?_append_right (Nat.le_refl _)]
    simp
  have h2 : (regs.map fun info => info.uid)[j]? = some r.uid := by
    rw [List.getElem?_map, hr]
    rfl
  have := List.nodup_iff_getElem?_ne_getElem?.mp hnodup pre.length j hj
    (by rw [List.length_map]; exact hjl)
  rw [h1, h2, heq] at this
  exact this rfl

theorem deliverSection_matched {α : Type} (offset : Nat) (bs : List Byte) (f : IFileStream)
    (st : LoadState α) (i : Nat) (info : PluginCallbacks α) (cb : LoadCallback α)
    (hfind : findPlugin st.regs 0 (PluginHeader.ofBytes bs).signature kPluginHandle_Invalid = i)
    (hne : i ≠ kPluginHandle_Invalid) (hget : st.regs[i]? = some info)
    (hload : info.load = some cb) :
    deliverSection offset bs f st
      = { regs := st.regs.set i { info with hadData := true }
          g := (runLoad cb
            { st.g with
              s_currentFile := f, s_pluginHeader := PluginHeader.ofBytes bs,
              s_chunkOpen := false }).globals
          log := st.log ++ [Event.sectionHeader offset (PluginHeader.ofBytes bs)]
            ++ [Event.load i true
                { st.g with
                  s_currentFile := f, s_pluginHeader := PluginHeader.ofBytes bs,
                  s_chunkOpen := false }
                (runLoad cb
                  { st.g with
                    s_currentFile := f, s_pluginHeader := PluginHeader.ofBytes bs,
                    s_chunkOpen := false })] } := by
  unfold deliverSection
  simp only [hfind, hne, ne_eq, not_false_eq_true, if_true, hget, hload]

theorem loadSections_roundtrip (regs : List (PluginCallbacks (List Record))) (D : List Byte)
    (hlen : regs.length < 2 ^ 32) (hnodup : (regs.map fun info => info.uid).Nodup)
    (hready : ∀ info ∈ regs, RoundTripReady info)
    (rest pre : List (PluginCallbacks (List Record))) (fuel off : Nat)
    (st : LoadState (List Record))
    (hsplit : regs = pre ++ rest)
    (hregs : st.regs = pre.map PluginCallbacks.markData ++ rest.map PluginCallbacks.clearData)
    (hfile : st.g.s_currentFile = ⟨D, off⟩)
    (hholds : holds D off (sectionsImage (savedSections rest)))
    (hend : off + (sectionsImage (savedSections rest)).length = D.length)
    (hfuel : D.length - off ≤ fuel) :
    (loadSections fuel st).2 = false
      ∧ (loadSections fuel st).1.regs = regs.map PluginCallbacks.markData
      ∧ (loadSections fuel st).1.log.filterMap Event.observed
          = st.log.filterMap Event.observed ++ sectionLoads pre.length rest
      ∧ (loadSections fuel st).1.g.s_currentFile.data = D
      ∧ ((savedSections rest ≠ [] ∨ quiet st.g) → quiet (loadSections fuel st).1.g) := by
  induction rest generalizing pre fuel off st with
  | nil =>
    simp only [savedSections, sectionsImage, List.length_nil, Nat.add_zero] at hend
    rw [loadSections_stop fuel st (by unfold IFileStream.GetRemain; rw [hfile]; simp only; omega)]
    refine ⟨rfl, ?_, by simp [sectionLoads], by rw [hfile], ?_⟩
    · rw [hregs, hsplit]
      simp
    · rintro (h | h)
      · exact absurd rfl h
      · exact h
  | cons info rest ih =>
    have hinfo := hready info (by rw [hsplit]; simp)
    have hsplit2 : regs = (pre ++ [info]) ++ rest := by rw [hsplit]; simp
    cases hw : written info with
    | nil =>
      rw [savedSections_cons_nil info rest hw] at hholds hend ⊢
      have := ih (pre ++ [info]) fuel off st hsplit2
        (by rw [hregs]; simp [markData_of_nil info hw]) hfile hholds hend hfuel
      simp only [sectionLoads, hw, List.isEmpty_nil, if_true]
      simpa using this
    | cons r rs =>
      obtain ⟨n, hload, hn⟩ := hinfo.loads
      rw [savedSections_cons_cons info rest r rs hinfo.hasUID hw] at hholds hend ⊢
      have htot := hinfo.total
      have hfields := hinfo.fields
      rw [hw] at htot hfields hn
      have hcount := bodyLength_ge (r :: rs)
      simp only [sectionsImage, sectionImage, List.length_append, pluginHeader_bytes_length,
        bodyImage_length] at hend hholds
      rw [holds_append, holds_append] at hholds
      obtain ⟨⟨hh1, hh2⟩, hh3⟩ := hholds
      simp only [List.length_append, pluginHeader_bytes_length, bodyImage_length] at hh2 hh3
      have hslice : slice D off 12
          = (PluginHeader.mk info.uid (r :: rs).length (bodyLength (r :: rs))).bytes :=
        holds_slice D off _ hh1 (by rw [pluginHeader_bytes_length]; omega)
      have hof : PluginHeader.ofBytes (slice D off 12)
          = ⟨info.uid, (r :: rs).length, bodyLength (r :: rs)⟩ := by
        rw [hslice]
        exact pluginHeader_ofBytes_bytes _ _ _ hinfo.uidLt (by omega) htot
      cases fuel with
      | zero => omega
      | succ m =>
        rw [loadSections_step m st D off hfile (by omega)]
        have hclear : st.regs.map PluginCallbacks.clearData
            = regs.map PluginCallbacks.clearData := by
          rw [hregs, hsplit]
          simp only [List.map_append, List.map_map]
          congr 1
        have hfind : findPlugin st.regs 0 (PluginHeader.ofBytes (slice D off 12)).signature
            kPluginHandle_Invalid = pre.length := by
          rw [findPlugin_congr st.regs regs 0 _ _ hclear, hof]
          rw [findPlugin_last regs 0 info.uid kPluginHandle_Invalid pre.length info (by omega)
            (by rw [hsplit, List.getElem?_append_right (Nat.le_refl _)]; simp)
            ⟨hinfo.hasUID, rfl⟩
            (fun j x hj hx hm => uid_unique regs pre rest info hnodup hsplit j x hj hx hm.2)]
          omega
        have hpl : pre.length < regs.length := by
          rw [hsplit]
          simp
        have hne : pre.length ≠ kPluginHandle_Invalid := by
          unfold kPluginHandle_Invalid
          omega
        have hget : st.regs[pre.length]? = some info.clearData := by
          rw [hregs, List.getElem?_append_right (by simp)]
          simp
        have hdel := deliverSection_matched off (slice D off 12) ⟨D, off + 12⟩ st pre.length
          info.clearData (readAll n []) hfind hne hget hload
        rw [hof] at hdel
        obtain ⟨g1, hg1, hq1, hq2, hq3⟩ := runLoad_readAll (r :: rs) n []
          { st.g with
            s_currentFile := ⟨D, off + 12⟩
            s_pluginHeader := ⟨info.uid, (r :: rs).length, bodyLength (r :: rs)⟩
            s_chunkOpen := false }
          hn rfl (Or.inl rfl) hh2
          (by show off + 12 + bodyLength (r :: rs) ≤ D.length; omega)
          (fun x hx => ⟨(hfields x hx).1, (hfields x hx).2.1, by
            have := (hfields x hx).2.2
            omega⟩)
        have hfr := runLoad_frame (readAll n [])
          { st.g with
            s_currentFile := ⟨D, off + 12⟩
            s_pluginHeader := ⟨info.uid, (r :: rs).length, bodyLength (r :: rs)⟩
            s_chunkOpen := false }
        rw [hg1] at hdel hfr
        simp only [Outcome.globals, List.nil_append] at hdel hfr
        have hrec : reconcile (off + 12)
              (deliverSection off (slice D off 12) ⟨D, off + 12⟩ st)
            = { regs := st.regs.set pre.length { info.clearData with hadData := true }
                g := { g1 with s_currentFile := ⟨D, off + 12 + bodyLength (r :: rs)⟩ }
                log := st.log
                  ++ [Event.sectionHeader off
                        ⟨info.uid, (r :: rs).length, bodyLength (r :: rs)⟩]
                  ++ [Event.load pre.length true
                        { st.g with
                          s_currentFile := ⟨D, off + 12⟩
                          s_pluginHeader := ⟨info.uid, (r :: rs).length, bodyLength (r :: rs)⟩
                          s_chunkOpen := false }
                        (.ok (r :: rs) g1)] } := by
          rw [reconcile_eq, hdel]
          simp only
          rw [hfr.1, hfr.2.2]
        rw [hrec]
        have := ih (pre ++ [info]) m (off + 12 + bodyLength (r :: rs))
          { regs := st.regs.set pre.length { info.clearData with hadData := true }
            g := { g1 with s_currentFile := ⟨D, off + 12 + bodyLength (r :: rs)⟩ }
            log := st.log
              ++ [Event.sectionHeader off
                    ⟨info.uid, (r :: rs).length, bodyLength (r :: rs)⟩]
              ++ [Event.load pre.length true
                    { st.g with
                      s_currentFile := ⟨D, off + 12⟩
                      s_pluginHeader := ⟨info.uid, (r :: rs).length, bodyLength (r :: rs)⟩
                      s_chunkOpen := false }
                    (.ok (r :: rs) g1)] }
          hsplit2
          (by
            show st.regs.set pre.length { info.clearData with hadData := true } = _
            rw [hregs, List.set_append_right _ _ (by simp)]
            simp [markData_of_cons info r rs hw])
          rfl
          (by rw [Nat.add_assoc]; exact hh3)
          (by omega) (by omega)
        obtain ⟨h1, h2, h3, h4, h5⟩ := this
        refine ⟨h1, h2, ?_, h4, ?_⟩
        · rw [h3]
          simp [Event.observed, sectionLoads, hw]
        · intro _
          exact h5 (Or.inr ⟨hq1, hq2⟩)

theorem runLoad_readAll_quiet (n : Nat) (acc : List Record) (g : Globals) (hq : quiet g) :
    runLoad (readAll n acc) g = .ok acc g := by
  cases n with
  | zero => rfl
  | succ n =>
    have hflush : FlushReadRecord g = g := by
      unfold FlushReadRecord
      rw [hq.2]
      rfl
    have hnext : GetNextRecordInfo g = .ok none g := by
      unfold GetNextRecordInfo
      simp only [hflush]
      rw [if_pos hq.1]
    simp only [readAll, runLoad, hnext]

theorem loadNoData_roundtrip (rest : List (PluginCallbacks (List Record))) (i : Nat)
    (g : Globals) (log : List (Event (List Record))) (hq : rest ≠ [] → quiet g)
    (hready : ∀ info ∈ rest, RoundTripReady info) :
    (loadNoData (rest.map PluginCallbacks.markData) i g log).2.filterMap Event.observed
      = log.filterMap Event.observed ++ noDataLoads i rest := by
  induction rest generalizing i log with
  | nil => simp [loadNoData, noDataLoads]
  | cons info rest ih =>
    have hinfo := hready info (List.mem_cons_self _ _)
    have hrest : ∀ x ∈ rest, RoundTripReady x := fun x hx => hready x (List.mem_cons_of_mem _ hx)
    obtain ⟨n, hload, -⟩ := hinfo.loads
    have hq : quiet g := hq (by simp)
    rw [List.map_cons, loadNoData]
    cases hw : written info with
    | nil =>
      have hd : info.markData.hadData = false := by
        simp [PluginCallbacks.markData, hw]
      have hl : info.markData.load = some (readAll n []) := hload
      rw [hd, hl]
      simp only [Bool.not_false, if_true, runLoad_readAll_quiet n [] g hq]
      rw [ih (i + 1) _ (fun _ => hq) hrest]
      simp [Event.observed, noDataLoads, hw]
    | cons r rs =>
      have hd : info.markData.hadData = true := by
        simp [PluginCallbacks.markData, hw]
      rw [hd]
      simp only [Bool.not_true, Bool.false_eq_true, if_false]
      rw [ih (i + 1) _ (fun _ => hq) hrest]
      simp [noDataLoads, hw]

theorem written_nil_of_savedSections (regs : List (PluginCallbacks (List Record)))
    (hready : ∀ info ∈ regs, RoundTripReady info) (h : savedSections regs = []) :
    ∀ info ∈ regs, written info = [] := by
  induction regs with
  | nil => simp
  | cons info rest ih =>
    have hinfo := hready info (List.mem_cons_self _ _)
    cases hw : written info with
    | nil =>
      rw [savedSections_cons_nil info rest hw] at h
      intro x hx
      simp only [List.mem_cons] at hx
      rcases hx with rfl | hx
      · exact hw
      · exact ih (fun y hy => hready y (List.mem_cons_of_mem _ hy)) h x hx
    | cons r rs =>
      rw [savedSections_cons_cons info rest r rs hinfo.hasUID hw] at h
      simp at h

theorem sectionStateAfter_quiet (regs : List (PluginCallbacks (List Record)))
    (st : PluginHeader × Bool)
    (hready : ∀ info ∈ regs, RoundTripReady info) (hw : ∀ info ∈ regs, written info = [])
    (h : regs ≠ [] ∨ (st.1.numChunks = 0 ∧ st.2 = false)) :
    (sectionStateAfter regs st).1.numChunks = 0 ∧ (sectionStateAfter regs st).2 = false := by
  induction regs generalizing st with
  | nil =>
    rcases h with h | h
    · exact absurd rfl h
    · exact h
  | cons info rest ih =>
    have hinfo := hready info (List.mem_cons_self _ _)
    have hwi := hw info (List.mem_cons_self _ _)
    have hs := hinfo.saves
    rw [hwi] at hs
    unfold sectionStateAfter
    simp only [hs, hinfo.hasUID, if_true]
    exact ih _ (fun y hy => hready y (List.mem_cons_of_mem _ hy))
      (fun y hy => hw y (List.mem_cons_of_mem _ hy)) (Or.inr ⟨rfl, rfl⟩)

theorem header_ofBytes_gate (h : Header) (h1 : h.signature < 2 ^ 32)
    (h2 : h.formatVersion < 2 ^ 32) :
    (Header.ofBytes h.bytes).signature = h.signature
      ∧ (Header.ofBytes h.bytes).formatVersion = h.formatVersion := by
  have e1 : slice h.bytes 0 4 = encodeU32 h.signature := rfl
  have e2 : slice h.bytes 4 4 = encodeU32 h.formatVersion := rfl
  unfold Header.ofBytes
  simp only
  rw [e1, e2, decodeLE_encodeU32 _ h1, decodeLE_encodeU32 _ h2]
  exact ⟨rfl, rfl⟩

theorem sectionLoads_ge {α : Type} (i : Nat) (rest : List (PluginCallbacks α)) :
    ∀ p ∈ sectionLoads i rest, i ≤ p.1 := by
  induction rest generalizing i with
  | nil => simp [sectionLoads]
  | cons info rest ih =>
    intro p hp
    unfold sectionLoads at hp
    split_ifs at hp
    · have := ih (i + 1) p hp
      omega
    · simp only [List.mem_cons] at hp
      rcases hp with rfl | hp
      · exact Nat.le_refl _
      · have := ih (i + 1) p hp
        omega

theorem noDataLoads_ge {α : Type} (i : Nat) (rest : List (PluginCallbacks α)) :
    ∀ p ∈ noDataLoads i rest, i ≤ p.1 := by
  induction rest generalizing i with
  | nil => simp [noDataLoads]
  | cons info rest ih =>
    intro p hp
    unfold noDataLoads at hp
    split_ifs at hp
    · simp only [List.mem_cons] at hp
      rcases hp with rfl | hp
      · exact Nat.le_refl _
      · have := ih (i + 1) p hp
        omega
    · have := ih (i + 1) p hp
      omega

theorem loads_of_handle {α : Type} (i : Nat) (rest : List (PluginCallbacks α)) (j : Nat)
    (info : PluginCallbacks α) (hj : i ≤ j) (hget : rest[j - i]? = some info) :
    (sectionLoads i rest ++ noDataLoads i rest).filter (fun p => p.1 == j)
      = [(j, some (written info))] := by
  induction rest generalizing i with
  | nil => simp at hget
  | cons x rest ih =>
    have hs := sectionLoads_ge (i + 1) rest
    have hn := noDataLoads_ge (i + 1) rest
    by_cases hij : j = i
    · subst hij
      simp only [Nat.sub_self, List.getElem?_cons_zero, Option.some.injEq] at hget
      subst hget
      have h1 : (sectionLoads (j + 1) rest).filter (fun p => p.1 == j) = [] := by
        rw [List.filter_eq_nil_iff]
        intro p hp
        have := hs p hp
        simp only [beq_iff_eq]
        omega
      have h2 : (noDataLoads (j + 1) rest).filter (fun p => p.1 == j) = [] := by
        rw [List.filter_eq_nil_iff]
        intro p hp
        have := hn p hp
        simp only [beq_iff_eq]
        omega
      unfold sectionLoads noDataLoads
      split_ifs
      · simp [List.filter_append, List.filter_cons, h1, h2]
      · simp [List.filter_append, List.filter_cons, h1, h2]
    · have hget2 : rest[j - (i + 1)]? = some info := by
        have : j - i = (j - (i + 1)) + 1 := by omega
        rw [this] at hget
        simpa using hget
      have := ih (i + 1) (by omega) hget2
      rw [List.filter_append] at this ⊢
      unfold sectionLoads noDataLoads
      split_ifs
      · simp only [List.filter_cons]
        rw [if_neg (by simp only [beq_iff_eq]; omega)]
        exact this
      · simp only [List.filter_cons]
        rw [if_neg (by simp only [beq_iff_eq]; omega)]
        exact this

theorem save_load_observed (f4seVersion runtimeVersion : Nat)
    (regs : List (PluginCallbacks (List Record))) (g : Globals)
    (hlen : regs.length < 2 ^ 32) (hnodup : (regs.map fun info => info.uid).Nodup)
    (hready : ∀ info ∈ regs, RoundTripReady info) :
    (HandleLoadGlobalData (HandleSaveGlobalData true f4seVersion runtimeVersion regs g).2 regs
        (HandleSaveGlobalData true f4seVersion runtimeVersion regs g).1).log.filterMap
        Event.observed
      = sectionLoads 0 regs ++ noDataLoads 0 regs := by
  have hreg : ∀ info ∈ regs, ∀ cb, info.save = some cb → info.hadUID = true →
      writesInsideChunks cb = true ∧ (∀ r ∈ recordsOf cb, r.payload.length < 2 ^ 31)
        ∧ bodyLength (recordsOf cb) < 2 ^ 32 := by
    intro info hi cb hcb _
    have hinfo := hready info hi
    have hcb2 : cb = saveScript (written info) := by
      have := hinfo.saves
      rw [hcb] at this
      exact Option.some.inj this
    have hrec : recordsOf cb = written info := by
      rw [hcb2, recordsOf_saveScript]
    refine ⟨by rw [hcb2]; exact writesInsideChunks_saveScript _, ?_, ?_⟩
    · rw [hrec]
      exact fun r hr => (hinfo.fields r hr).2.2
    · rw [hrec]
      exact hinfo.total
  obtain ⟨hfile, hstate⟩ := save_file_image f4seVersion runtimeVersion regs g hlen hreg
  generalize HandleSaveGlobalData true f4seVersion runtimeVersion regs g = S at hfile hstate
  rw [hfile]
  have hsl := savedSections_length_le regs
  have hgate := header_ofBytes_gate
    (Header.mk kSignature kVersion f4seVersion runtimeVersion (savedSections regs).length)
    (by show kSignature < 2 ^ 32; decide) (by show kVersion < 2 ^ 32; decide)
  have hrd : (IFileStream.Open (fileImage f4seVersion runtimeVersion (savedSections regs))).ReadBuf
        20
      = some ((Header.mk kSignature kVersion f4seVersion runtimeVersion
            (savedSections regs).length).bytes,
          ⟨fileImage f4seVersion runtimeVersion (savedSections regs), 20⟩) := by
    rw [readBuf_of_le _ _ (by simp [IFileStream.Open, fileImage])]
    simp only [IFileStream.Open, slice, List.drop_zero, Nat.zero_add, fileImage]
    rw [← header_bytes_length (Header.mk kSignature kVersion f4seVersion runtimeVersion
      (savedSections regs).length), List.take_left]
  unfold HandleLoadGlobalData
  simp only [hrd]
  rw [if_neg (by rw [hgate.1]; simp),
    if_neg (by rw [hgate.2]; show ¬ kVersion ≤ kVersion_Invalid; decide),
    if_neg (by rw [hgate.2]; show ¬ kVersion > kVersion; decide)]
  have hloop := loadSections_roundtrip regs
    (fileImage f4seVersion runtimeVersion (savedSections regs)) hlen hnodup hready regs []
    (IFileStream.GetRemain ⟨fileImage f4seVersion runtimeVersion (savedSections regs), 20⟩) 20
    { regs := regs.map fun info => { info with hadData := false },
      g := { S.1 with
        s_currentFile := ⟨fileImage f4seVersion runtimeVersion (savedSections regs), 20⟩ },
      log := [Event.headerAccepted (Header.ofBytes
        (Header.mk kSignature kVersion f4seVersion runtimeVersion
          (savedSections regs).length).bytes)] }
    rfl rfl rfl
    (by
      have := holds_of_eq (fileImage f4seVersion runtimeVersion (savedSections regs))
        (Header.mk kSignature kVersion f4seVersion runtimeVersion
          (savedSections regs).length).bytes
        (sectionsImage (savedSections regs)) [] (by simp [fileImage])
      rwa [header_bytes_length] at this)
    (by simp [fileImage])
    (by simp [IFileStream.GetRemain])
  obtain ⟨h1, h2, h3, -, h5⟩ := hloop
  unfold loadAccepted
  simp only
  rw [h1]
  simp only [Bool.false_eq_true, if_false]
  rw [h2, loadNoData_roundtrip regs 0 _ _ ?_ hready, h3]
  · simp [Event.observed]
  · intro hne
    apply h5
    by_cases hs : savedSections regs = []
    · right
      have hq := sectionStateAfter_quiet regs (g.s_pluginHeader, g.s_chunkOpen) hready
        (written_nil_of_savedSections regs hready hs) (Or.inl hne)
      rw [← hstate] at hq
      exact hq
    · exact Or.inl hs

/-- C1 (amended): round trip. For every registry of fewer than 2^32 records
with pairwise distinct UIDs in which every record has a UID, a save callback
that emits a finite sequence of (type, version, payload) chunks with
`OpenRecord` followed by `WriteRecordData` (32-bit type and version tags, each
payload shorter than 2^31 bytes, and the section, chunk headers included,
shorter than 2^32 bytes) and a load callback that calls `GetNextRecordInfo`
until it returns `false`, reading each chunk in full with `ReadRecordData`:
running `HandleSaveGlobalData` and then `HandleLoadGlobalData` on the produced
file, from the global state the save pass left, invokes the load callback of
every record exactly once, and that invocation returns exactly the sequence of
chunks the record wrote, in the same order. The records that wrote chunks are
invoked first, in handle order, for their sections; the records that wrote
none are invoked afterwards, in handle order. -/
theorem save_load_round_trip (f4seVersion runtimeVersion : Nat)
    (regs : List (PluginCallbacks (List Record))) (g : Globals)
    (hlen : regs.length < 2 ^ 32) (hnodup : (regs.map fun info => info.uid).Nodup)
    (hready : ∀ info ∈ regs, RoundTripReady info) :
    (HandleLoadGlobalData (HandleSaveGlobalData true f4seVersion runtimeVersion regs g).2 regs
        (HandleSaveGlobalData true f4seVersion runtimeVersion regs g).1).log.filterMap
        Event.observed
      = sectionLoads 0 regs ++ noDataLoads 0 regs
    ∧ ∀ i info, regs[i]? = some info →
        ((HandleLoadGlobalData (HandleSaveGlobalData true f4seVersion runtimeVersion regs g).2
            regs (HandleSaveGlobalData true f4seVersion runtimeVersion regs g).1).log.filterMap
            Event.observed).filter (fun p => p.1 == i)
          = [(i, some (written info))] := by
  have h := save_load_observed f4seVersion runtimeVersion regs g hlen hnodup hready
  refine ⟨h, ?_⟩
  intro i info hget
  rw [h]
  exact loads_of_handle 0 regs i info (Nat.zero_le _) hget

theorem roundTripRegs_ready : ∀ info ∈ roundTripRegs, RoundTripReady info := by
  intro info h
  simp only [roundTripRegs, List.mem_cons, List.mem_singleton, List.not_mem_nil, or_false] at h
  rcases h with rfl | rfl | rfl
  · exact ⟨rfl, by decide, rfl, ⟨5, rfl, by decide⟩, by decide, by decide⟩
  · exact ⟨rfl, by decide, rfl, ⟨5, rfl, by decide⟩, by decide, by decide⟩
  · exact ⟨rfl, by decide, rfl, ⟨5, rfl, by decide⟩, by decide, by decide⟩

/-- C1, at a concrete input: the three records of `roundTripRegs`, saved and
loaded from the idle state. -/
theorem save_load_round_trip_witness :
    (roundTripRegs.length < 2 ^ 32 ∧ (roundTripRegs.map fun info => info.uid).Nodup
        ∧ ∀ info ∈ roundTripRegs, RoundTripReady info)
      ∧ (HandleLoadGlobalData (HandleSaveGlobalData true 1 2 roundTripRegs idleGlobals).2
            roundTripRegs
            (HandleSaveGlobalData true 1 2 roundTripRegs idleGlobals).1).log.filterMap
            Event.observed
          = [(0, some [⟨1, 2, [10, 20, 30]⟩, ⟨3, 4, [9]⟩]), (2, some [⟨5, 6, []⟩]),
             (1, some [])] :=
  ⟨⟨by decide, by decide, roundTripRegs_ready⟩,
   (save_load_round_trip 1 2 roundTripRegs idleGlobals (by decide) (by decide)
      roundTripRegs_ready).1⟩

theorem roundTripRegs_bounded : ∀ info ∈ roundTripRegs, ∀ cb, info.save = some cb →
    info.hadUID = true →
    writesInsideChunks cb = true ∧ (∀ r ∈ recordsOf cb, r.payload.length < 2 ^ 31)
      ∧ bodyLength (recordsOf cb) < 2 ^ 32 := by
  intro info h cb hcb _
  simp only [roundTripRegs, List.mem_cons, List.mem_singleton, List.not_mem_nil, or_false] at h
  rcases h with rfl | rfl | rfl
  all_goals
    have := Option.some.inj hcb
    subst this
    exact ⟨rfl, by decide, by decide⟩

/-- C4, at a concrete input: of the three records of `roundTripRegs`, handles 0
and 2 get a section, handle 1 opened no chunk and gets none. -/
theorem save_section_list_witness :
    (roundTripRegs.length < 2 ^ 32
        ∧ ∀ info ∈ roundTripRegs, ∀ cb, info.save = some cb → info.hadUID = true →
            writesInsideChunks cb = true ∧ (∀ r ∈ recordsOf cb, r.payload.length < 2 ^ 31)
              ∧ bodyLength (recordsOf cb) < 2 ^ 32)
      ∧ (HandleSaveGlobalData true 1 2 roundTripRegs idleGlobals).2
          = some
              ((Header.mk kSignature kVersion 1 2 2).bytes
                ++ (sectionImage 77 [⟨1, 2, [10, 20, 30]⟩, ⟨3, 4, [9]⟩]
                  ++ sectionImage 79 [⟨5, 6, []⟩])) :=
  ⟨⟨by decide, roundTripRegs_bounded⟩,
   (save_section_list 1 2 roundTripRegs idleGlobals (by decide) roundTripRegs_bounded).1⟩

theorem zeroHeader_getD (j : Nat) : (ChunkHeader.mk 0 0 0).bytes.getD j 0 = 0 := by
  have h : (ChunkHeader.mk 0 0 0).bytes = List.replicate 12 (0 : Byte) := by decide
  rw [h, List.getD_eq_getElem?_getD, List.getElem?_replicate]
  split_ifs <;> rfl

theorem flushWriteChunk_zeroRun (h0 : Header) (o c : Nat) (g : Globals)
    (hz : ZeroRun h0 o c g) :
    ∃ g1, FlushWriteChunk g = .ok () g1
      ∧ g1.s_chunkOpen = false
      ∧ g1.s_pluginHeader.numChunks = c % 2 ^ 32
      ∧ g1.s_currentFile.streamOffset = o + 12 * c + 12
      ∧ (∀ k, g1.s_currentFile.data.getD k 0 = 0)
      ∧ g1.s_currentFile.data.length = o + 12 * c + 12
      ∧ g1.s_fileHeader = h0
      ∧ g1.s_pluginHeaderOffset = g.s_pluginHeaderOffset := by
  have hcs : sub64 (sub64 g.s_currentFile.GetOffset g.s_chunkHeaderOffset) 12 = 0 := by
    have h1 : sub64 g.s_currentFile.GetOffset g.s_chunkHeaderOffset = 12 := by
      unfold sub64 IFileStream.GetOffset
      rw [hz.off, hz.chOff, if_pos (by omega)]
      omega
    rw [h1]
    rfl
  have hres : FlushWriteChunk g = .ok ()
      { g with
        s_chunkHeader := ChunkHeader.mk 0 0 0
        s_currentFile :=
          ((g.s_currentFile.SetOffset g.s_chunkHeaderOffset).WriteBuf
            (ChunkHeader.mk 0 0 0).bytes).SetOffset g.s_currentFile.GetOffset
        s_pluginHeader :=
          { g.s_pluginHeader with length := (g.s_pluginHeader.length + (0 + 12)) % 2 ^ 32 }
        s_chunkOpen := false } := by
    unfold FlushWriteChunk
    rw [hz.isOpen]
    simp only [Bool.not_true, Bool.false_eq_true, if_false]
    rw [hcs, if_neg (by omega), hz.chdr]
    rfl
  refine ⟨_, hres, rfl, hz.num, hz.off, ?_, ?_, hz.fh, rfl⟩
  · intro k
    show ((g.s_currentFile.SetOffset g.s_chunkHeaderOffset).WriteBuf _).data.getD k 0 = 0
    rw [writeBuf_getD]
    split_ifs
    · exact zeroHeader_getD _
    · exact hz.zero k
  · show ((g.s_currentFile.SetOffset g.s_chunkHeaderOffset).WriteBuf _).data.length = _
    rw [writeBuf_length]
    show max g.s_currentFile.data.length (g.s_chunkHeaderOffset + 12) = _
    rw [hz.chOff]
    have := hz.lenLe
    omega

theorem openRecord_zeroRun (h0 : Header) (o c : Nat) (g : Globals)
    (hz : ZeroRun h0 o c g) (hc : c % 2 ^ 32 ≠ 0) :
    ∃ g1, OpenRecord 0 0 g = .ok true g1 ∧ ZeroRun h0 o (c + 1) g1
      ∧ g1.s_pluginHeaderOffset = g.s_pluginHeaderOffset := by
  obtain ⟨g1, hg1, h1, h2, h3, h4, h5, h6, h7⟩ := flushWriteChunk_zeroRun h0 o c g hz
  have hres : OpenRecord 0 0 g = .ok true
      { g1 with
        s_chunkHeaderOffset := g1.s_currentFile.GetOffset
        s_currentFile := g1.s_currentFile.Skip 12
        s_pluginHeader :=
          { g1.s_pluginHeader with numChunks := (g1.s_pluginHeader.numChunks + 1) % 2 ^ 32 }
        s_chunkHeader := { type := 0, version := 0, length := 0 }
        s_chunkOpen := true } := by
    unfold OpenRecord
    simp only
    rw [if_neg (by rw [hz.num]; exact hc), hg1]
  refine ⟨_, hres, ?_, h7⟩
  constructor
  · rfl
  · show (g1.s_pluginHeader.numChunks + 1) % 2 ^ 32 = _
    rw [h2]
    omega
  · show g1.s_currentFile.streamOffset = _
    rw [h3]
    omega
  · show g1.s_currentFile.streamOffset + 12 = _
    rw [h3]
    omega
  · rfl
  · exact h4
  · show g1.s_currentFile.data.length ≤ _
    rw [h5]
    omega
  · exact h6

theorem writeRecordData_zeroRun (h0 : Header) (o c : Nat) (g : Globals)
    (hz : ZeroRun h0 o c g) :
    ZeroRun h0 o c { g with s_currentFile := g.s_currentFile.WriteBuf [] } := by
  constructor
  · exact hz.isOpen
  · exact hz.num
  · exact hz.chOff
  · show g.s_currentFile.streamOffset + 0 = _
    rw [hz.off]
  · exact hz.chdr
  · intro k
    show (g.s_currentFile.WriteBuf []).data.getD k 0 = 0
    rw [writeBuf_getD, if_neg (by simp)]
    exact hz.zero k
  · show (g.s_currentFile.WriteBuf []).data.length ≤ _
    rw [writeBuf_length, hz.off]
    have := hz.lenLe
    simp only [List.length_nil]
    omega
  · exact hz.fh

theorem saveScript_replicate_succ (k : Nat) :
    saveScript (List.replicate (k + 1) ⟨0, 0, []⟩)
      = SaveCall.openRecord 0 0 :: SaveCall.writeRecordData []
          :: saveScript (List.replicate k ⟨0, 0, []⟩) := by
  simp only [saveScript, List.replicate_succ, List.map_cons, scriptOf, List.map_nil,
    List.cons_append, List.nil_append]

theorem runSave_zeroRun (h0 : Header) (o : Nat) (k c : Nat) (g : Globals)
    (hz : ZeroRun h0 o c g) (hc : 1 ≤ c) (hk : c + k ≤ 2 ^ 32) :
    ∃ g1, runSave (saveScript (List.replicate k ⟨0, 0, []⟩)) g = .ok () g1
      ∧ ZeroRun h0 o (c + k) g1 ∧ g1.s_pluginHeaderOffset = g.s_pluginHeaderOffset := by
  induction k generalizing c g with
  | zero => exact ⟨g, rfl, hz, rfl⟩
  | succ k ih =>
    obtain ⟨g1, hg1, hz1, hp1⟩ := openRecord_zeroRun h0 o c g hz
      (by rw [Nat.mod_eq_of_lt (by omega)]; omega)
    obtain ⟨g2, hg2, hz2, hp2⟩ := ih (c + 1) _ (writeRecordData_zeroRun h0 o (c + 1) g1 hz1)
      (by omega) (by omega)
    refine ⟨g2, ?_, ?_, by rw [hp2]; exact hp1⟩
    · rw [saveScript_replicate_succ]
      simp only [runSave, hg1, WriteRecordData]
      exact hg2
    · have : c + (k + 1) = c + 1 + k := by omega
      rw [this]
      exact hz2

theorem openRecord_first_zero (g : Globals)
    (hn : g.s_pluginHeader.numChunks = 0) (hopen : g.s_chunkOpen = false)
    (hzero : ∀ k, g.s_currentFile.data.getD k 0 = 0)
    (hlen : g.s_currentFile.data.length ≤ g.s_currentFile.streamOffset + 12) :
    ∃ g1, OpenRecord 0 0 g = .ok true g1
      ∧ ZeroRun g.s_fileHeader g.s_currentFile.streamOffset 1 g1
      ∧ g1.s_pluginHeaderOffset = g.s_currentFile.streamOffset := by
  have hres : OpenRecord 0 0 g = .ok true
      { g with
        s_pluginHeaderOffset := g.s_currentFile.GetOffset
        s_chunkHeaderOffset := (g.s_currentFile.Skip 12).GetOffset
        s_currentFile := (g.s_currentFile.Skip 12).Skip 12
        s_pluginHeader :=
          { g.s_pluginHeader with numChunks := (g.s_pluginHeader.numChunks + 1) % 2 ^ 32 }
        s_chunkHeader := { type := 0, version := 0, length := 0 }
        s_chunkOpen := true } := by
    unfold OpenRecord
    simp only
    rw [if_pos hn, hopen]
    simp only [Bool.false_eq_true, if_false]
    unfold FlushWriteChunk
    simp only [hopen, Bool.not_false, if_true]
  refine ⟨_, hres, ?_, rfl⟩
  constructor
  · rfl
  · show (g.s_pluginHeader.numChunks + 1) % 2 ^ 32 = _
    rw [hn]
  · rfl
  · rfl
  · rfl
  · exact hzero
  · show g.s_currentFile.data.length ≤ _
    omega
  · rfl

theorem savePlugin_wrap (i uid : Nat) (g : Globals)
    (hzero : ∀ k, g.s_currentFile.data.getD k 0 = 0)
    (hlen : g.s_currentFile.data.length ≤ g.s_currentFile.streamOffset + 12) :
    ∃ g1, savePlugin i uid wrapScript g = .ok () g1
      ∧ g1.s_chunkOpen = false
      ∧ g1.s_pluginHeader.numChunks = 0
      ∧ g1.s_currentFile.streamOffset = g.s_currentFile.streamOffset + 12 * 4294967297
      ∧ (∀ k, g1.s_currentFile.data.getD k 0 = 0)
      ∧ g1.s_currentFile.data.length = g.s_currentFile.streamOffset + 12 * 4294967297
      ∧ g1.s_fileHeader = g.s_fileHeader := by
  have hscript : wrapScript
      = SaveCall.openRecord 0 0 :: SaveCall.writeRecordData []
          :: saveScript (List.replicate 4294967295 ⟨0, 0, []⟩) :=
    saveScript_replicate_succ 4294967295
  obtain ⟨g1, hg1, hz1, -⟩ := openRecord_first_zero
    { g with
      s_currentPlugin := i
      s_pluginHeader := { signature := uid, numChunks := 0, length := 0 }
      s_chunkOpen := false } rfl rfl hzero hlen
  have hz1' : ZeroRun g.s_fileHeader g.s_currentFile.streamOffset 1 g1 := hz1
  obtain ⟨g2, hg2, hz2, -⟩ := runSave_zeroRun _ _ 4294967295 1 _
    (writeRecordData_zeroRun _ _ _ g1 hz1') (Nat.le_refl _) (by decide)
  obtain ⟨g3, hg3, h1, h2, h3, h4, h5, h6, -⟩ := flushWriteChunk_zeroRun _ _ _ g2 hz2
  have hrun : (runSave wrapScript
      { g with
        s_currentPlugin := i
        s_pluginHeader := { signature := uid, numChunks := 0, length := 0 }
        s_chunkOpen := false }).globals = g2 := by
    rw [hscript]
    generalize saveScript (List.replicate 4294967295 ⟨0, 0, []⟩) = tail at hg2 ⊢
    simp only [runSave, hg1, WriteRecordData, hg2, Outcome.globals]
  have hnum : g3.s_pluginHeader.numChunks = 0 := by
    rw [h2]
    norm_num
  unfold savePlugin
  simp only [hrun, hg3]
  rw [if_neg (by rw [hnum]; simp)]
  exact ⟨g3, rfl, h1, hnum, by rw [h3], h4, by rw [h5], h6⟩

theorem savePlugins_single {α : Type} (info : PluginCallbacks α) (cb : SaveCallback)
    (i : Nat) (g g1 : Globals) (hs : info.save = some cb) (hu : info.hadUID = true)
    (h : savePlugin i info.uid cb g = .ok () g1) :
    savePlugins [info] i g = .ok () g1 := by
  simp only [savePlugins, hs, hu, if_true, h]

theorem handleSave_ok {α : Type} (f4seVersion runtimeVersion : Nat)
    (regs : List (PluginCallbacks α)) (g g2 : Globals)
    (h : savePlugins regs 0
        { g with
          s_currentFile := IFileStream.Create.Skip 20
          s_fileHeader :=
            { signature := kSignature, formatVersion := kVersion, f4seVersion := f4seVersion,
              runtimeVersion := runtimeVersion, numPlugins := 0 } } = .ok () g2) :
    HandleSaveGlobalData true f4seVersion runtimeVersion regs g
      = ({ g2 with
            s_currentFile := (g2.s_currentFile.SetOffset 0).WriteBuf g2.s_fileHeader.bytes },
          some ((g2.s_currentFile.SetOffset 0).WriteBuf g2.s_fileHeader.bytes).data) := by
  unfold HandleSaveGlobalData
  simp only [Bool.not_true, Bool.false_eq_true, if_false, h]

theorem save_wrap (f4seVersion runtimeVersion : Nat) (g : Globals) :
    (HandleSaveGlobalData true f4seVersion runtimeVersion wrapRegs g).2
        = some ((Header.mk kSignature kVersion f4seVersion runtimeVersion 0).bytes
            ++ List.replicate (12 * 4294967297) (0 : Byte))
      ∧ (HandleSaveGlobalData true f4seVersion runtimeVersion wrapRegs g).1.s_chunkOpen = false
      ∧ (HandleSaveGlobalData true f4seVersion runtimeVersion wrapRegs g).1.s_pluginHeader.numChunks
          = 0 := by
  obtain ⟨g1, hg1, h1, h2, h3, h4, h5, h6⟩ := savePlugin_wrap 0 1
    { g with
      s_currentFile := IFileStream.Create.Skip 20
      s_fileHeader :=
        { signature := kSignature, formatVersion := kVersion, f4seVersion := f4seVersion,
          runtimeVersion := runtimeVersion, numPlugins := 0 } }
    (fun k => by simp [IFileStream.Create, IFileStream.Skip])
    (by simp [IFileStream.Create, IFileStream.Skip])
  have h3' : g1.s_currentFile.streamOffset = 20 + 12 * 4294967297 := h3
  have h5' : g1.s_currentFile.data.length = 20 + 12 * 4294967297 := h5
  have h6' : g1.s_fileHeader
      = Header.mk kSignature kVersion f4seVersion runtimeVersion 0 := h6
  have hres : HandleSaveGlobalData true f4seVersion runtimeVersion wrapRegs g
      = ({ g1 with
            s_currentFile := (g1.s_currentFile.SetOffset 0).WriteBuf g1.s_fileHeader.bytes },
          some ((g1.s_currentFile.SetOffset 0).WriteBuf g1.s_fileHeader.bytes).data) := by
    have hsp := savePlugins_single wrapRecord wrapScript 0 _ g1
      rfl rfl hg1
    have hsp1 : savePlugins wrapRegs 0 _ = .ok () g1 := hsp
    exact handleSave_ok _ _ _ _ _ hsp1
  rw [hres]
  refine ⟨?_, h1, h2⟩
  simp only [Option.some.injEq]
  apply holds_eq
  · rw [holds_append]
    constructor
    · rw [← h6']
      exact holds_writeBuf_self (g1.s_currentFile.SetOffset 0) _
    · intro k hk
      rw [writeBuf_getD, if_neg (by
        simp only [header_bytes_length]
        show ¬ (0 ≤ 0 + 20 + k ∧ 0 + 20 + k < 0 + 20)
        omega)]
      rw [show (g1.s_currentFile.SetOffset 0).data = g1.s_currentFile.data from rfl, h4,
        List.getD_eq_getElem?_getD, List.getElem?_replicate]
      split_ifs <;> rfl
  · rw [writeBuf_length]
    show max g1.s_currentFile.data.length (0 + g1.s_fileHeader.bytes.length) = _
    rw [h5', List.length_append, List.length_replicate, header_bytes_length,
      header_bytes_length]
    omega

theorem loadSections_zeros {α : Type} (m : Nat) :
    ∀ (fuel : Nat) (st : LoadState α) (D : List Byte) (off : Nat),
      st.g.s_currentFile = ⟨D, off⟩ → D.length = off + 12 * m →
      (∀ k, off ≤ k → D.getD k 0 = 0) → m ≤ fuel →
      findPlugin st.regs 0 0 kPluginHandle_Invalid = kPluginHandle_Invalid →
      (0 < m ∨ st.g.s_pluginHeader.numChunks = 0) →
      (loadSections fuel st).2 = false
        ∧ (loadSections fuel st).1.regs = st.regs
        ∧ (loadSections fuel st).1.log.filterMap Event.observed
            = st.log.filterMap Event.observed
        ∧ (loadSections fuel st).1.g.s_chunkOpen = st.g.s_chunkOpen
        ∧ (loadSections fuel st).1.g.s_pluginHeader.numChunks = 0 := by
  induction m with
  | zero =>
    intro fuel st D off hfile hlen _ _ _ hnum
    rw [loadSections_stop fuel st (by
      rw [hfile]
      show D.length - off < 12
      omega)]
    rcases hnum with h | h
    · omega
    · exact ⟨rfl, rfl, rfl, rfl, h⟩
  | succ m ih =>
    intro fuel st D off hfile hlen hzero hfuel hno _
    obtain ⟨n, rfl⟩ : ∃ n, fuel = n + 1 := ⟨fuel - 1, by omega⟩
    rw [loadSections_step n st D off hfile (by omega)]
    have hsl : slice D off 12 = List.replicate 12 (0 : Byte) := by
      have := holds_slice D off (List.replicate 12 (0 : Byte)) (by
        intro k _
        rw [hzero (off + k) (by omega), List.getD_eq_getElem?_getD, List.getElem?_replicate]
        split_ifs <;> rfl) (by simp only [List.length_replicate]; omega)
      simpa using this
    have hph : PluginHeader.ofBytes (List.replicate 12 (0 : Byte)) = ⟨0, 0, 0⟩ := by decide
    have hdel : deliverSection off (slice D off 12) ⟨D, off + 12⟩ st
        = { regs := st.regs,
            g := { st.g with s_currentFile := ⟨D, off + 12⟩, s_pluginHeader := ⟨0, 0, 0⟩ },
            log := st.log ++ [Event.sectionHeader off ⟨0, 0, 0⟩] } := by
      unfold deliverSection
      simp only [hsl, hph, hno, ne_eq, not_true_eq_false, if_false]
    rw [hdel, reconcile_eq]
    have := ih n
      { regs := st.regs,
        g := { st.g with s_currentFile := ⟨D, off + 12 + 0⟩, s_pluginHeader := ⟨0, 0, 0⟩ },
        log := st.log ++ [Event.sectionHeader off ⟨0, 0, 0⟩] } D (off + 12 + 0) rfl (by omega)
      (fun k hk => hzero k (by omega)) (by omega) hno (Or.inr rfl)
    obtain ⟨h1, h2, h3, h4, h5⟩ := this
    refine ⟨h1, h2, ?_, h4, h5⟩
    rw [h3]
    simp [Event.observed]

theorem loadNoData_single_quiet (info : PluginCallbacks (List Record)) (n : Nat) (g : Globals)
    (log : List (Event (List Record))) (hd : info.hadData = false)
    (hl : info.load = some (readAll n [])) (hq : quiet g) :
    loadNoData [info] 0 g log = (g, log ++ [Event.load 0 false g (.ok [] g)]) := by
  simp only [loadNoData, hd, hl, Bool.not_false, if_true, runLoad_readAll_quiet n [] g hq]

theorem load_wrap (disk : Option (List Byte)) (D : List Byte) (g : Globals)
    (hdisk : disk = some D)
    (hD : (Header.mk kSignature kVersion 0 0 0).bytes
      ++ List.replicate (12 * 4294967297) (0 : Byte) = D)
    (hopen : g.s_chunkOpen = false) :
    (HandleLoadGlobalData disk wrapRegs g).log.filterMap Event.observed = [(0, some [])] := by
  subst hdisk
  have hgate := header_ofBytes_gate (Header.mk kSignature kVersion 0 0 0)
    (by show kSignature < 2 ^ 32; decide) (by show kVersion < 2 ^ 32; decide)
  have hDlen : D.length = 20 + 12 * 4294967297 := by
    rw [← hD, List.length_append, header_bytes_length, List.length_replicate]
  have hDz : ∀ k, 20 ≤ k → D.getD k 0 = 0 := by
    intro k hk
    rw [← hD, List.getD_eq_getElem?_getD, List.getElem?_append_right
      (by rw [header_bytes_length]; exact hk), List.getElem?_replicate]
    split_ifs <;> rfl
  have hrd : (IFileStream.Open D).ReadBuf 20
      = some ((Header.mk kSignature kVersion 0 0 0).bytes, ⟨D, 20⟩) := by
    rw [readBuf_of_le _ _ (by
      show 0 + 20 ≤ D.length
      omega)]
    simp only [IFileStream.Open, slice, List.drop_zero, Nat.zero_add]
    rw [← hD, ← header_bytes_length (Header.mk kSignature kVersion 0 0 0), List.take_left]
  unfold HandleLoadGlobalData
  simp only [hrd]
  rw [if_neg (by rw [hgate.1]; simp),
    if_neg (by rw [hgate.2]; show ¬ kVersion ≤ kVersion_Invalid; decide),
    if_neg (by rw [hgate.2]; show ¬ kVersion > kVersion; decide)]
  have hloop := loadSections_zeros 4294967297 (IFileStream.GetRemain ⟨D, 20⟩)
    { regs := wrapRegs.map fun info => { info with hadData := false },
      g := { g with s_currentFile := ⟨D, 20⟩ },
      log := [Event.headerAccepted (Header.ofBytes (Header.mk kSignature kVersion 0 0 0).bytes)] }
    D 20 rfl hDlen hDz
    (by
      show 4294967297 ≤ D.length - 20
      omega)
    (findPlugin_none _ _ _ _ (by
      intro k r hr
      cases k with
      | zero =>
        have : r.uid = 1 := by
          have := Option.some.inj hr
          rw [← this]
          rfl
        rw [this]
        omega
      | succ k => cases hr))
    (Or.inl (by omega))
  obtain ⟨h1, h2, h3, h4, h5⟩ := hloop
  unfold loadAccepted
  simp only
  rw [h1]
  simp only [Bool.false_eq_true, if_false]
  rw [h2]
  have hnd := loadNoData_single_quiet { wrapRecord with hadData := false }
    4294967297 _ (loadSections (IFileStream.GetRemain ⟨D, 20⟩)
      { regs := wrapRegs.map fun info => { info with hadData := false },
        g := { g with s_currentFile := ⟨D, 20⟩ },
        log := [Event.headerAccepted
          (Header.ofBytes (Header.mk kSignature kVersion 0 0 0).bytes)] }).1.log
    rfl rfl ⟨h5, by rw [h4]; exact hopen⟩
  have hnd2 : loadNoData (wrapRegs.map fun info => { info with hadData := false }) 0 _ _ = _ :=
    hnd
  rw [hnd2]
  simp only [List.filterMap_append, h3]
  simp [Event.observed]

/-- C1 as stated fails for a record that writes 2^32 chunks: the registry
`wrapRegs` has one record, with a UID, whose save callback emits the 2^32 empty
chunks of `wrapRecords` with `OpenRecord` followed by `WriteRecordData`, and
whose load callback reads every chunk until `GetNextRecordInfo` returns
`false`. The chunk count of the section wraps to zero, so the save pass writes
no section header, and the load pass on the produced file makes the load
callback observe no chunk at all. -/
theorem round_trip_chunk_count_wraps :
    (wrapRegs.map fun info => info.uid).Nodup
      ∧ (∀ info ∈ wrapRegs, info.hadUID = true ∧ info.save = some (saveScript wrapRecords)
          ∧ info.load = some (readAll 4294967297 []) ∧ written info = wrapRecords)
      ∧ wrapRecords = List.replicate 4294967296 ⟨0, 0, []⟩
      ∧ (HandleLoadGlobalData (HandleSaveGlobalData true 0 0 wrapRegs idleGlobals).2 wrapRegs
            (HandleSaveGlobalData true 0 0 wrapRegs idleGlobals).1).log.filterMap
            Event.observed
          = [(0, some [])] := by
  refine ⟨List.nodup_singleton _, ?_, rfl, ?_⟩
  · intro info h
    simp only [wrapRegs, List.mem_singleton] at h
    subst h
    exact ⟨rfl, rfl, rfl, recordsOf_saveScript wrapRecords⟩
  · exact load_wrap _ _ _ (save_wrap 0 0 idleGlobals).1 rfl (save_wrap 0 0 idleGlobals).2.1

/-- C4 as stated fails for a record that opens 2^32 chunks: the record of
`wrapRegs` has a save callback, has a UID and opens chunks, writing only inside
them, so its UID 1 is expected in the section list; the chunk count wraps to
zero, and the output file is a header with `numPlugins = 0` followed by zero
bytes only, with no section header carrying UID 1. -/
theorem save_chunk_count_wraps :
    (∀ info ∈ wrapRegs, ∀ cb, info.save = some cb → writesInsideChunks cb = true)
      ∧ (wrapRegs.filter savesSection).map (fun info => info.uid) = [1]
      ∧ (HandleSaveGlobalData true 0 0 wrapRegs idleGlobals).2
          = some ((Header.mk kSignature kVersion 0 0 0).bytes
              ++ List.replicate (12 * 4294967297) (0 : Byte)) := by
  have hscript : wrapScript
      = SaveCall.openRecord 0 0 :: SaveCall.writeRecordData []
          :: saveScript (List.replicate 4294967295 ⟨0, 0, []⟩) :=
    saveScript_replicate_succ 4294967295
  refine ⟨?_, ?_, (save_wrap 0 0 idleGlobals).1⟩
  · intro info h cb hcb
    simp only [wrapRegs, List.mem_singleton] at h
    subst h
    have : cb = saveScript wrapRecords := (Option.some.inj hcb).symm
    rw [this]
    exact writesInsideChunks_saveScript _
  · have hs : savesSection wrapRecord = true := by
      show (true && opensChunk wrapScript) = true
      rw [hscript]
      rfl
    show (List.filter savesSection [wrapRecord]).map (fun info => info.uid) = [1]
    simp only [List.filter, hs, List.map_cons, List.map_nil]
    rfl

/-! ## Identifier resolution: theorems -/

theorem regular_out (x r : Nat) (hr : r < 0xFF) :
    (x &&& 0x00FFFFFF) ||| ((r <<< 24) % 2 ^ 32) = 16777216 * r + x % 16777216 := by
  have h1 : x &&& 0x00FFFFFF = x % 2 ^ 24 := Nat.and_pow_two_sub_one_eq_mod x 24
  have h2 : (r <<< 24) % 2 ^ 32 = 2 ^ 24 * r := by
    rw [Nat.shiftLeft_eq, Nat.mod_eq_of_lt (by omega), Nat.mul_comm]
  have h3 : x % 2 ^ 24 < 2 ^ 24 := Nat.mod_lt _ (by norm_num)
  rw [h1, h2, Nat.lor_comm, ← Nat.mul_add_lt_is_or h3 r]
  norm_num

theorem light_out (x r : Nat) :
    ((r <<< 12) % 2 ^ 32) ||| (x &&& 0x00000FFF) = 4096 * (r % 1048576) + x % 4096 := by
  have h1 : x &&& 0x00000FFF = x % 2 ^ 12 := Nat.and_pow_two_sub_one_eq_mod x 12
  have h2 : (r <<< 12) % 2 ^ 32 = 2 ^ 12 * (r % 1048576) := by
    rw [Nat.shiftLeft_eq]
    omega
  have h3 : x % 2 ^ 12 < 2 ^ 12 := Nat.mod_lt _ (by norm_num)
  rw [h1, h2, ← Nat.mul_add_lt_is_or h3]
  norm_num

theorem light_formula (x r : Nat) :
    ((r <<< 12) ||| (x &&& 0x00000FFF)) % 2 ^ 32 = 4096 * (r % 1048576) + x % 4096 := by
  have h1 : x &&& 0x00000FFF = x % 2 ^ 12 := Nat.and_pow_two_sub_one_eq_mod x 12
  have h2 : r <<< 12 = 2 ^ 12 * r := by
    rw [Nat.shiftLeft_eq, Nat.mul_comm]
  have h3 : x % 2 ^ 12 < 2 ^ 12 := Nat.mod_lt _ (by norm_num)
  rw [h1, h2, ← Nat.mul_add_lt_is_or h3]
  omega

theorem testBit_of_lt (x k j : Nat) (h : x < 2 ^ k) (hj : k ≤ j) : x.testBit j = false :=
  Nat.testBit_lt_two_pow (Nat.lt_of_lt_of_le h (Nat.pow_le_pow_right (by decide) hj))

theorem handle_slot_byte (x : Nat) : ((x &&& 0xFF000000) >>> 24) % 2 ^ 32 = x / 2 ^ 24 % 256 := by
  have hm : (0xFF000000 : Nat) = (2 ^ 8 - 1) <<< 24 := by decide
  apply Nat.eq_of_testBit_eq
  intro i
  rw [hm, show (256 : Nat) = 2 ^ 8 from rfl, ← Nat.shiftRight_eq_div_pow]
  simp only [Nat.testBit_mod_two_pow, Nat.testBit_shiftRight, Nat.testBit_and,
    Nat.testBit_shiftLeft, Nat.testBit_two_pow_sub_one]
  by_cases h8 : i < 8
  · have h32 : i < 32 := by omega
    simp [h8, h32]
  · simp [h8]

theorem handle_slot_light (x : Nat) :
    ((x >>> 12) &&& 0xFFFFF) % 2 ^ 32 = x / 2 ^ 12 % 2 ^ 20 := by
  have h1 : (x >>> 12) &&& 0xFFFFF = (x >>> 12) % 2 ^ 20 :=
    Nat.and_pow_two_sub_one_eq_mod (x >>> 12) 20
  rw [h1, Nat.shiftRight_eq_div_pow]
  omega

theorem handle_regular_low (h r : Nat) :
    ((h &&& 0xFFFFFFFF00FFFFFF) ||| ((r <<< 24) % 2 ^ 64)) % 2 ^ 32
      = ((h % 2 ^ 32) &&& 0x00FFFFFF) ||| ((r <<< 24) % 2 ^ 32) := by
  have hm : (0xFFFFFFFF00FFFFFF : Nat) = (2 ^ 24 - 1) ||| ((2 ^ 32 - 1) <<< 32) := by decide
  have hm2 : (0x00FFFFFF : Nat) = 2 ^ 24 - 1 := by decide
  apply Nat.eq_of_testBit_eq
  intro i
  rw [hm, hm2]
  simp only [Nat.testBit_mod_two_pow, Nat.testBit_and, Nat.testBit_or,
    Nat.testBit_shiftLeft, Nat.testBit_two_pow_sub_one]
  by_cases h24 : i < 24
  · have h32 : i < 32 := by omega
    have h64 : i < 64 := by omega
    have hge : ¬ i ≥ 24 := by omega
    simp [h24, h32, h64, hge]
  · by_cases h32 : i < 32
    · have h64 : i < 64 := by omega
      have hge : i ≥ 24 := by omega
      have hge32 : ¬ i ≥ 32 := by omega
      simp [h24, h32, h64, hge, hge32]
    · simp [h32]

theorem handle_regular_high (h r : Nat) (hh : h < 2 ^ 64) (hr : r < 0xFF) :
    ((h &&& 0xFFFFFFFF00FFFFFF) ||| ((r <<< 24) % 2 ^ 64)) / 2 ^ 32 = h / 2 ^ 32 := by
  have hm : (0xFFFFFFFF00FFFFFF : Nat) = (2 ^ 24 - 1) ||| ((2 ^ 32 - 1) <<< 32) := by decide
  rw [← Nat.shiftRight_eq_div_pow, ← Nat.shiftRight_eq_div_pow]
  apply Nat.eq_of_testBit_eq
  intro i
  rw [hm]
  simp only [Nat.testBit_mod_two_pow, Nat.testBit_and, Nat.testBit_or,
    Nat.testBit_shiftLeft, Nat.testBit_two_pow_sub_one, Nat.testBit_shiftRight]
  have hr8 : r.testBit (32 + i - 24) = false := testBit_of_lt r 8 _ (by omega) (by omega)
  rw [hr8]
  by_cases h32 : i < 32
  · have h1 : 32 + i - 32 < 32 := by omega
    have h2 : 32 + i ≥ 32 := by omega
    simp [h1, h2, h32]
  · have h1 : h.testBit (32 + i) = false := testBit_of_lt h 64 _ hh (by omega)
    simp [h1]

theorem handle_light_low (h r : Nat) :
    ((h &&& 0xFFFFFFFF00000FFF) ||| ((r <<< 12) % 2 ^ 64)) % 2 ^ 32
      = ((r <<< 12) % 2 ^ 32) ||| ((h % 2 ^ 32) &&& 0x00000FFF) := by
  have hm : (0xFFFFFFFF00000FFF : Nat) = (2 ^ 12 - 1) ||| ((2 ^ 32 - 1) <<< 32) := by decide
  have hm2 : (0x00000FFF : Nat) = 2 ^ 12 - 1 := by decide
  apply Nat.eq_of_testBit_eq
  intro i
  rw [hm, hm2]
  simp only [Nat.testBit_mod_two_pow, Nat.testBit_and, Nat.testBit_or,
    Nat.testBit_shiftLeft, Nat.testBit_two_pow_sub_one]
  by_cases h12 : i < 12
  · have h32 : i < 32 := by omega
    have h64 : i < 64 := by omega
    have hge : ¬ i ≥ 12 := by omega
    simp [h12, h32, h64, hge]
  · by_cases h32 : i < 32
    · have h64 : i < 64 := by omega
      have hge : i ≥ 12 := by omega
      have hge32 : ¬ i ≥ 32 := by omega
      simp [h12, h32, h64, hge, hge32]
    · simp [h32]

theorem handle_light_high (h r : Nat) (hh : h < 2 ^ 64) (hr : r < 2 ^ 20) :
    ((h &&& 0xFFFFFFFF00000FFF) ||| ((r <<< 12) % 2 ^ 64)) / 2 ^ 32 = h / 2 ^ 32 := by
  have hm : (0xFFFFFFFF00000FFF : Nat) = (2 ^ 12 - 1) ||| ((2 ^ 32 - 1) <<< 32) := by decide
  rw [← Nat.shiftRight_eq_div_pow, ← Nat.shiftRight_eq_div_pow]
  apply Nat.eq_of_testBit_eq
  intro i
  rw [hm]
  simp only [Nat.testBit_mod_two_pow, Nat.testBit_and, Nat.testBit_or,
    Nat.testBit_shiftLeft, Nat.testBit_two_pow_sub_one, Nat.testBit_shiftRight]
  have hr8 : r.testBit (32 + i - 12) = false := testBit_of_lt r 20 _ hr (by omega)
  rw [hr8]
  by_cases h32 : i < 32
  · have h1 : 32 + i - 32 < 32 := by omega
    have h2 : 32 + i ≥ 32 := by omega
    simp [h1, h2, h32]
  · have h1 : h.testBit (32 + i) = false := testBit_of_lt h 64 _ hh (by omega)
    simp [h1]

theorem resolveFormId_eq (R : Nat → Nat) (formId formIdOut : Nat) (hf : formId < 2 ^ 32)
    (hs : formId / 2 ^ 24 % 256 ≠ 0xFF) :
    ResolveFormId R formId formIdOut
      = if R (extractedSlot formId) % 2 ^ 32 < 0xFF then
          { ret := true
            out := (formId &&& 0x00FFFFFF) ||| (((R (extractedSlot formId) % 2 ^ 32) <<< 24) % 2 ^ 32)
            queried := [extractedSlot formId] }
        else if R (extractedSlot formId) % 2 ^ 32 > 0xFF then
          { ret := true
            out := (((R (extractedSlot formId) % 2 ^ 32) <<< 12) % 2 ^ 32) ||| (formId &&& 0x00000FFF)
            queried := [extractedSlot formId] }
        else { ret := false, out := formIdOut, queried := [extractedSlot formId] } := by
  have h1 : formId >>> 24 = formId / 2 ^ 24 % 256 := by
    rw [Nat.shiftRight_eq_div_pow]
    omega
  have h2 : formId >>> 12 = formId / 2 ^ 12 % 2 ^ 20 := by
    rw [Nat.shiftRight_eq_div_pow]
    omega
  have h3 : (if formId >>> 24 = 0xFE then formId >>> 12 else formId >>> 24)
      = extractedSlot formId := by
    unfold extractedSlot
    rw [h1, h2]
  unfold ResolveFormId
  simp only []
  rw [h3, h1, if_neg hs]

theorem resolveHandle_eq (R : Nat → Nat) (handle handleOut : Nat)
    (hs : handle / 2 ^ 24 % 256 ≠ 0xFF) :
    ResolveHandle R handle handleOut
      = if R (extractedSlot handle) % 2 ^ 32 < 0xFF then
          { ret := true
            out := (handle &&& 0xFFFFFFFF00FFFFFF)
              ||| (((R (extractedSlot handle) % 2 ^ 32) <<< 24) % 2 ^ 64)
            queried := [extractedSlot handle] }
        else if R (extractedSlot handle) % 2 ^ 32 > 0xFF then
          { ret := true
            out := (handle &&& 0xFFFFFFFF00000FFF)
              ||| (((R (extractedSlot handle) % 2 ^ 32) <<< 12) % 2 ^ 64)
            queried := [extractedSlot handle] }
        else { ret := false, out := handleOut, queried := [extractedSlot handle] } := by
  have h3 : (if ((handle &&& 0xFF000000) >>> 24) % 2 ^ 32 = 0xFE
        then ((handle >>> 12) &&& 0xFFFFF) % 2 ^ 32
        else ((handle &&& 0xFF000000) >>> 24) % 2 ^ 32)
      = extractedSlot handle := by
    unfold extractedSlot
    rw [handle_slot_byte, handle_slot_light]
  unfold ResolveHandle
  simp only []
  rw [h3, handle_slot_byte, if_neg hs]

theorem extractedSlot_low (handle : Nat) : extractedSlot (handle % 2 ^ 32) = extractedSlot handle := by
  unfold extractedSlot
  have h1 : handle % 2 ^ 32 / 2 ^ 24 % 256 = handle / 2 ^ 24 % 256 := by omega
  have h2 : handle % 2 ^ 32 / 2 ^ 12 % 2 ^ 20 = handle / 2 ^ 12 % 2 ^ 20 := by omega
  rw [h1, h2]

theorem resolveFormId_sentinel (R : Nat → Nat) (formId formIdOut : Nat)
    (hf : formId < 2 ^ 32) (hfs : formId / 2 ^ 24 % 256 = 0xFF) :
    ResolveFormId R formId formIdOut = { ret := true, out := formId, queried := [] } := by
  have h1 : formId >>> 24 = 0xFF := by
    rw [Nat.shiftRight_eq_div_pow]
    omega
  unfold ResolveFormId
  simp only []
  rw [if_pos h1]

theorem resolveHandle_sentinel (R : Nat → Nat) (handle handleOut : Nat)
    (hhs : handle / 2 ^ 24 % 256 = 0xFF) :
    ResolveHandle R handle handleOut = { ret := true, out := handle, queried := [] } := by
  unfold ResolveHandle
  simp only []
  rw [handle_slot_byte, if_pos hhs]

/-- C11: sentinel pass-through. For every form identifier of 32 bits whose
bits 24..31 are `0xFF`, `ResolveFormId` returns `true` with the output equal to
the input, and for every handle (of 64 bits or any other width) whose bits
24..31 are `0xFF`, `ResolveHandle`
returns `true` with the output equal to the input. This holds for every
lookup function and every earlier content of the output parameter, and the
lookup is not called (`queried = []`). -/
theorem resolve_sentinel_passthrough (R : Nat → Nat) (formId formIdOut handle handleOut : Nat)
    (hf : formId < 2 ^ 32) (hfs : formId / 2 ^ 24 % 256 = 0xFF)
    (hhs : handle / 2 ^ 24 % 256 = 0xFF) :
    ResolveFormId R formId formIdOut = { ret := true, out := formId, queried := [] }
      ∧ ResolveHandle R handle handleOut = { ret := true, out := handle, queried := [] } :=
  ⟨resolveFormId_sentinel R formId formIdOut hf hfs,
    resolveHandle_sentinel R handle handleOut hhs⟩

theorem resolve_sentinel_passthrough_witness :
    ((0xFF001234 : Nat) < 2 ^ 32 ∧ 0xFF001234 / 2 ^ 24 % 256 = 0xFF
        ∧ 0xABCD0000FF001234 / 2 ^ 24 % 256 = 0xFF)
      ∧ ResolveFormId absentLookup 0xFF001234 7 = { ret := true, out := 0xFF001234, queried := [] }
      ∧ ResolveHandle absentLookup 0xABCD0000FF001234 7
          = { ret := true, out := 0xABCD0000FF001234, queried := [] } :=
  ⟨by decide,
   resolve_sentinel_passthrough absentLookup 0xFF001234 7 0xABCD0000FF001234 7 (by decide)
     (by decide) (by decide)⟩

/-- C12: resolution failure. For every lookup function (its results are
`UInt32` values) and every form identifier, respectively handle, whose bits
24..31 are not `0xFF`: the lookup is called once, with the extracted slot; the
function returns `false` if and only if the lookup returns `0xFF` for that
slot; and whenever it returns `false` the output parameter keeps the value it
had before the call. -/
theorem resolve_failure (R : Nat → Nat) (formId formIdOut handle handleOut : Nat)
    (hR : ∀ m, R m < 2 ^ 32)
    (hf : formId < 2 ^ 32) (hfs : formId / 2 ^ 24 % 256 ≠ 0xFF)
    (hhs : handle / 2 ^ 24 % 256 ≠ 0xFF) :
    ((ResolveFormId R formId formIdOut).queried = [extractedSlot formId]
        ∧ ((ResolveFormId R formId formIdOut).ret = false ↔ R (extractedSlot formId) = 0xFF)
        ∧ ((ResolveFormId R formId formIdOut).ret = false →
            (ResolveFormId R formId formIdOut).out = formIdOut))
      ∧ ((ResolveHandle R handle handleOut).queried = [extractedSlot handle]
        ∧ ((ResolveHandle R handle handleOut).ret = false ↔ R (extractedSlot handle) = 0xFF)
        ∧ ((ResolveHandle R handle handleOut).ret = false →
            (ResolveHandle R handle handleOut).out = handleOut)) := by
  constructor
  · rw [resolveFormId_eq R formId formIdOut hf hfs, Nat.mod_eq_of_lt (hR _)]
    split_ifs with h1 h2
    · exact ⟨rfl, by simp; omega, by simp⟩
    · exact ⟨rfl, by simp; omega, by simp⟩
    · exact ⟨rfl, by simp; omega, by simp⟩
  · rw [resolveHandle_eq R handle handleOut hhs, Nat.mod_eq_of_lt (hR _)]
    split_ifs with h1 h2
    · exact ⟨rfl, by simp; omega, by simp⟩
    · exact ⟨rfl, by simp; omega, by simp⟩
    · exact ⟨rfl, by simp; omega, by simp⟩

theorem resolve_failure_witness :
    ((∀ m, absentLookup m < 2 ^ 32) ∧ (0xFE001234 : Nat) < 2 ^ 32
        ∧ 0xFE001234 / 2 ^ 24 % 256 ≠ 0xFF ∧ 0xABCD000003001234 / 2 ^ 24 % 256 ≠ 0xFF)
      ∧ (ResolveFormId absentLookup 0xFE001234 7).ret = false
      ∧ (ResolveFormId absentLookup 0xFE001234 7).out = 7
      ∧ (ResolveHandle absentLookup 0xABCD000003001234 7).ret = false
      ∧ (ResolveHandle absentLookup 0xABCD000003001234 7).out = 7 :=
  have h := resolve_failure absentLookup 0xFE001234 7 0xABCD000003001234 7
    (fun _ => by show (0xFF : Nat) < 2 ^ 32; decide) (by decide) (by decide) (by decide)
  ⟨⟨fun _ => by show (0xFF : Nat) < 2 ^ 32; decide, by decide, by decide, by decide⟩,
   h.1.2.1.mpr rfl, h.1.2.2 (h.1.2.1.mpr rfl), h.2.2.1.mpr rfl, h.2.2.2 (h.2.2.1.mpr rfl)⟩

/-- C13 (amended): index bits are preserved for regular references resolved to
a regular slot. For every lookup function and every 32-bit form identifier
whose bits 24..31 are neither `0xFF` nor `0xFE`, when the lookup returns a
value below `0xFF` for that slot `ResolveFormId` succeeds, the low 24 bits of
the output equal the low 24 bits of the input, and bits 24..31 of the output
hold the slot the lookup returned. -/
theorem resolveFormId_regular_slot (R : Nat → Nat) (formId formIdOut : Nat)
    (hR : ∀ m, R m < 2 ^ 32) (hf : formId < 2 ^ 32)
    (hs1 : formId / 2 ^ 24 ≠ 0xFF) (hs2 : formId / 2 ^ 24 ≠ 0xFE)
    (hr : R (formId / 2 ^ 24) < 0xFF) :
    (ResolveFormId R formId formIdOut).ret = true
      ∧ (ResolveFormId R formId formIdOut).queried = [formId / 2 ^ 24]
      ∧ (ResolveFormId R formId formIdOut).out % 2 ^ 24 = formId % 2 ^ 24
      ∧ (ResolveFormId R formId formIdOut).out / 2 ^ 24 = R (formId / 2 ^ 24) := by
  have hslot : extractedSlot formId = formId / 2 ^ 24 := by
    unfold extractedSlot
    rw [if_neg (by omega)]
    omega
  rw [resolveFormId_eq R formId formIdOut hf (by omega), hslot, Nat.mod_eq_of_lt (hR _),
    if_pos hr]
  refine ⟨rfl, rfl, ?_, ?_⟩
  · show ((formId &&& 0x00FFFFFF) ||| ((R (formId / 2 ^ 24) <<< 24) % 2 ^ 32)) % 2 ^ 24 = _
    rw [regular_out formId _ hr]
    omega
  · show ((formId &&& 0x00FFFFFF) ||| ((R (formId / 2 ^ 24) <<< 24) % 2 ^ 32)) / 2 ^ 24 = _
    rw [regular_out formId _ hr]
    omega

theorem resolveFormId_regular_slot_witness :
    ((∀ m, regularLookup m < 2 ^ 32) ∧ (0x01ABCDEF : Nat) < 2 ^ 32
        ∧ 0x01ABCDEF / 2 ^ 24 ≠ 0xFF ∧ 0x01ABCDEF / 2 ^ 24 ≠ 0xFE
        ∧ regularLookup (0x01ABCDEF / 2 ^ 24) < 0xFF)
      ∧ (ResolveFormId regularLookup 0x01ABCDEF 7).ret = true
      ∧ (ResolveFormId regularLookup 0x01ABCDEF 7).queried = [0x01ABCDEF / 2 ^ 24]
      ∧ (ResolveFormId regularLookup 0x01ABCDEF 7).out % 2 ^ 24 = 0x01ABCDEF % 2 ^ 24
      ∧ (ResolveFormId regularLookup 0x01ABCDEF 7).out / 2 ^ 24
          = regularLookup (0x01ABCDEF / 2 ^ 24) :=
  ⟨⟨fun _ => by show (5 : Nat) < 2 ^ 32; decide, by decide, by decide, by decide, by decide⟩,
   resolveFormId_regular_slot regularLookup 0x01ABCDEF 7 (fun _ => by show (5 : Nat) < 2 ^ 32; decide) (by decide)
     (by decide) (by decide) (by decide)⟩

/-- C13 as stated fails when the lookup answers a regular slot with a value
above `0xFF`: for the form identifier `0x01ABCDEF` (slot 1) and a lookup that
returns `0xFE001`, `ResolveFormId` succeeds with the output `0xFE001DEF`, whose
low 24 bits `0x001DEF` differ from the input's `0xABCDEF`. -/
theorem resolveFormId_regular_to_light :
    (0x01ABCDEF / 2 ^ 24 % 256 = 1)
      ∧ ResolveFormId lightLookup 0x01ABCDEF 7
          = { ret := true, out := 0xFE001DEF, queried := [1] }
      ∧ 0xFE001DEF % 2 ^ 24 ≠ 0x01ABCDEF % 2 ^ 24 := by
  decide

/-- C14 (amended): light-plugin path. For every lookup function and every
32-bit form identifier whose bits 24..31 are `0xFE`, `ResolveFormId` calls the
lookup once, with the 20-bit value `formId >> 12`; whenever the lookup result
`r` is above `0xFF` the call succeeds and the output is
`((r << 12) | (formId & 0xFFF))` modulo 2^32: the low 12 bits are those of the
input and the 20 bits above them are the low 20 bits of `r`. -/
theorem resolveFormId_light_slot (R : Nat → Nat) (formId formIdOut : Nat)
    (hR : ∀ m, R m < 2 ^ 32) (hf : formId < 2 ^ 32) (hs : formId / 2 ^ 24 = 0xFE) :
    (ResolveFormId R formId formIdOut).queried = [formId / 2 ^ 12]
      ∧ (R (formId / 2 ^ 12) > 0xFF →
          (ResolveFormId R formId formIdOut).ret = true
            ∧ (ResolveFormId R formId formIdOut).out
                = ((R (formId / 2 ^ 12) <<< 12) ||| (formId &&& 0xFFF)) % 2 ^ 32
            ∧ (ResolveFormId R formId formIdOut).out % 2 ^ 12 = formId % 2 ^ 12
            ∧ (ResolveFormId R formId formIdOut).out / 2 ^ 12 = R (formId / 2 ^ 12) % 2 ^ 20) := by
  have hslot : extractedSlot formId = formId / 2 ^ 12 := by
    unfold extractedSlot
    rw [if_pos (by omega)]
    omega
  rw [resolveFormId_eq R formId formIdOut hf (by omega), hslot, Nat.mod_eq_of_lt (hR _)]
  constructor
  · split_ifs <;> rfl
  · intro hr
    rw [if_neg (by omega), if_pos hr]
    refine ⟨rfl, ?_, ?_, ?_⟩
    · show ((R (formId / 2 ^ 12) <<< 12) % 2 ^ 32) ||| (formId &&& 0x00000FFF) = _
      rw [light_out, light_formula]
    · show (((R (formId / 2 ^ 12) <<< 12) % 2 ^ 32) ||| (formId &&& 0x00000FFF)) % 2 ^ 12 = _
      rw [light_out]
      omega
    · show (((R (formId / 2 ^ 12) <<< 12) % 2 ^ 32) ||| (formId &&& 0x00000FFF)) / 2 ^ 12 = _
      rw [light_out]
      omega

theorem resolveFormId_light_slot_witness :
    ((∀ m, lightLookup m < 2 ^ 32) ∧ (0xFE001234 : Nat) < 2 ^ 32 ∧ 0xFE001234 / 2 ^ 24 = 0xFE)
      ∧ (ResolveFormId lightLookup 0xFE001234 7).queried = [0xFE001234 / 2 ^ 12]
      ∧ (lightLookup (0xFE001234 / 2 ^ 12) > 0xFF →
          (ResolveFormId lightLookup 0xFE001234 7).ret = true
            ∧ (ResolveFormId lightLookup 0xFE001234 7).out
                = ((lightLookup (0xFE001234 / 2 ^ 12) <<< 12) ||| (0xFE001234 &&& 0xFFF)) % 2 ^ 32
            ∧ (ResolveFormId lightLookup 0xFE001234 7).out % 2 ^ 12 = 0xFE001234 % 2 ^ 12
            ∧ (ResolveFormId lightLookup 0xFE001234 7).out / 2 ^ 12
                = lightLookup (0xFE001234 / 2 ^ 12) % 2 ^ 20) :=
  ⟨⟨fun _ => by show (0xFE001 : Nat) < 2 ^ 32; decide, by decide, by decide⟩,
   resolveFormId_light_slot lightLookup 0xFE001234 7 (fun _ => by show (0xFE001 : Nat) < 2 ^ 32; decide) (by decide)
     (by decide)⟩

/-- C14 as stated fails when the lookup answers a light reference with a value
below `0xFF`: for the form identifier `0xFE001234` and a lookup that returns 5,
`ResolveFormId` succeeds with the output `0x05001234` (the low 24 bits kept,
the slot in bits 24..31), not with `(5 << 12) | 0x234 = 0x5234`. -/
theorem resolveFormId_light_to_regular :
    (0xFE001234 / 2 ^ 24 % 256 = 0xFE)
      ∧ ResolveFormId regularLookup 0xFE001234 7
          = { ret := true, out := 0x05001234, queried := [0xFE001] }
      ∧ ((regularLookup 0xFE001 <<< 12) ||| (0xFE001234 &&& 0xFFF)) % 2 ^ 32 = 0x5234 := by
  decide

/-- C20 (amended): `ResolveHandle` refines `ResolveFormId`. For every lookup
function and every 64-bit handle `h` such that the lookup result for the slot
of `h` is below 2^20 (no condition when bits 24..31 of `h` are `0xFF`, where
the lookup is not called): `ResolveHandle(h)` succeeds exactly when
`ResolveFormId` applied to the low 32 bits of `h` succeeds, both make the same
lookup call, and on success the low 32 bits of the output of `ResolveHandle`
equal the output of `ResolveFormId` and its high 32 bits equal the high 32
bits of `h`. -/
theorem resolveHandle_refines_resolveFormId (R : Nat → Nat)
    (handle handleOut formIdOut : Nat)
    (hR : ∀ m, R m < 2 ^ 32) (hh : handle < 2 ^ 64)
    (hb : handle / 2 ^ 24 % 256 ≠ 0xFF → R (extractedSlot handle) < 2 ^ 20) :
    (ResolveHandle R handle handleOut).ret = (ResolveFormId R (handle % 2 ^ 32) formIdOut).ret
      ∧ (ResolveHandle R handle handleOut).queried
          = (ResolveFormId R (handle % 2 ^ 32) formIdOut).queried
      ∧ ((ResolveHandle R handle handleOut).ret = true →
          (ResolveHandle R handle handleOut).out % 2 ^ 32
              = (ResolveFormId R (handle % 2 ^ 32) formIdOut).out
            ∧ (ResolveHandle R handle handleOut).out / 2 ^ 32 = handle / 2 ^ 32) := by
  have hlt : handle % 2 ^ 32 < 2 ^ 32 := Nat.mod_lt _ (by norm_num)
  have hbyte : handle % 2 ^ 32 / 2 ^ 24 % 256 = handle / 2 ^ 24 % 256 := by omega
  by_cases hs : handle / 2 ^ 24 % 256 = 0xFF
  · rw [resolveHandle_sentinel R handle handleOut hs,
      resolveFormId_sentinel R (handle % 2 ^ 32) formIdOut hlt (by rw [hbyte]; exact hs)]
    exact ⟨rfl, rfl, fun _ => ⟨rfl, rfl⟩⟩
  · have hb1 := hb hs
    rw [resolveHandle_eq R handle handleOut hs,
      resolveFormId_eq R (handle % 2 ^ 32) formIdOut hlt (by rw [hbyte]; exact hs),
      extractedSlot_low, Nat.mod_eq_of_lt (hR _)]
    split_ifs with h1 h2
    · refine ⟨rfl, rfl, fun _ => ⟨?_, ?_⟩⟩
      · exact handle_regular_low handle _
      · exact handle_regular_high handle _ hh h1
    · refine ⟨rfl, rfl, fun _ => ⟨?_, ?_⟩⟩
      · exact handle_light_low handle _
      · exact handle_light_high handle _ hh hb1
    · exact ⟨rfl, rfl, fun h => by simp at h⟩

theorem resolveHandle_refines_resolveFormId_witness :
    ((∀ m, lightLookup m < 2 ^ 32) ∧ (0xABCD000003123456 : Nat) < 2 ^ 64
        ∧ (0xABCD000003123456 / 2 ^ 24 % 256 ≠ 0xFF →
            lightLookup (extractedSlot 0xABCD000003123456) < 2 ^ 20))
      ∧ (ResolveHandle lightLookup 0xABCD000003123456 7).ret = true
      ∧ (ResolveHandle lightLookup 0xABCD000003123456 7).out % 2 ^ 32
          = (ResolveFormId lightLookup (0xABCD000003123456 % 2 ^ 32) 9).out
      ∧ (ResolveHandle lightLookup 0xABCD000003123456 7).out / 2 ^ 32
          = 0xABCD000003123456 / 2 ^ 32 :=
  have h := resolveHandle_refines_resolveFormId lightLookup 0xABCD000003123456 7 9
    (fun _ => by show (0xFE001 : Nat) < 2 ^ 32; decide) (by decide)
    (fun _ => by show (0xFE001 : Nat) < 2 ^ 20; decide)
  ⟨⟨fun _ => by show (0xFE001 : Nat) < 2 ^ 32; decide, by decide,
     fun _ => by show (0xFE001 : Nat) < 2 ^ 20; decide⟩,
   by decide, (h.2.2 (by decide)).1, (h.2.2 (by decide)).2⟩

/-- C20 as stated fails for a lookup result of 2^20 or more: with the handle 0
and a lookup that returns `0x100000`, both functions succeed, `ResolveFormId`
gives 0 and `ResolveHandle` gives `0x100000000`, whose high 32 bits are 1 while
those of the handle are 0. -/
theorem resolveHandle_out_of_range_lookup :
    ResolveHandle wideLookup 0 7 = { ret := true, out := 0x100000000, queried := [0] }
      ∧ ResolveFormId wideLookup (0 % 2 ^ 32) 7 = { ret := true, out := 0, queried := [0] }
      ∧ (0x100000000 : Nat) / 2 ^ 32 ≠ 0 / 2 ^ 32 := by
  decide

/-! ## The plugin registry: registration -/

theorem getPluginInfo_set {α : Type} (tbl : List (PluginCallbacks α)) (h : Nat)
    (hh : h < 2 ^ 32 - 1) (f : PluginCallbacks α → PluginCallbacks α) :
    (GetPluginInfo tbl h)[h]? = some (tbl[h]?.getD PluginCallbacks.empty)
      ∧ registeredWith tbl ((GetPluginInfo tbl h).set h (f (tbl[h]?.getD PluginCallbacks.empty)))
          h (f (tbl[h]?.getD PluginCallbacks.empty)) := by
  obtain ⟨hlen, hold, hnew⟩ := getPluginInfo_valid tbl h hh
  have hlt : h < (GetPluginInfo tbl h).length := by
    rw [hlen]
    omega
  refine ⟨?_, ?_, ?_, ?_⟩
  · by_cases hp : h < tbl.length
    · rw [hold h hp, List.getElem?_eq_getElem hp]
      rfl
    · rw [hnew h (by omega) (by omega), List.getElem?_eq_none (by omega)]
      rfl
  · rw [List.length_set, hlen]
  · rw [List.getElem?_set_self hlt]
  · intro j hj
    rw [List.getElem?_set_ne (fun e => hj e.symm)]
    by_cases h1 : j < tbl.length
    · rw [if_pos h1, hold j h1]
    · rw [if_neg h1]
      by_cases h2 : j < h + 1
      · rw [if_pos h2, hnew j (by omega) h2]
      · rw [if_neg h2]
        exact List.getElem?_eq_none (by rw [hlen]; omega)

/-- C18 (amended): `GetPluginInfo` registers without losing registrations. For
every registry table and every handle `h` other than `kPluginHandle_Invalid`
(0xFFFFFFFF): after `GetPluginInfo(h)` the table has `max (old size) (h + 1)`
records, every record that existed before is unchanged at its index, every
new record is empty, and the record returned, the one at index `h`, lies in
the table. Each of the four callback setters succeeds and leaves the table so
registered with only the named callback field of record `h` replaced. -/
theorem getPluginInfo_register {α : Type} (tbl : List (PluginCallbacks α)) (h : Nat)
    (hh : h < 2 ^ 32 - 1) (revert formDelete : Option CallbackId) (save : Option SaveCallback)
    (load : Option (LoadCallback α)) :
    ((GetPluginInfo tbl h).length = max tbl.length (h + 1)
        ∧ (∀ j, j < tbl.length → (GetPluginInfo tbl h)[j]? = tbl[j]?)
        ∧ (∀ j, tbl.length ≤ j → j < h + 1 →
            (GetPluginInfo tbl h)[j]? = some PluginCallbacks.empty)
        ∧ ∃ info, (GetPluginInfo tbl h)[h]? = some info)
      ∧ (∃ t, SetRevertCallback tbl h revert = some t
          ∧ registeredWith tbl t h
              { (tbl[h]?.getD PluginCallbacks.empty) with revert := revert })
      ∧ (∃ t, SetSaveCallback tbl h save = some t
          ∧ registeredWith tbl t h { (tbl[h]?.getD PluginCallbacks.empty) with save := save })
      ∧ (∃ t, SetLoadCallback tbl h load = some t
          ∧ registeredWith tbl t h { (tbl[h]?.getD PluginCallbacks.empty) with load := load })
      ∧ (∃ t, SetFormDeleteCallback tbl h formDelete = some t
          ∧ registeredWith tbl t h
              { (tbl[h]?.getD PluginCallbacks.empty) with formDelete := formDelete }) := by
  obtain ⟨hlen, hold, hnew⟩ := getPluginInfo_valid tbl h hh
  have hget := (getPluginInfo_set tbl h hh id).1
  refine ⟨⟨hlen, hold, hnew, _, hget⟩, ?_, ?_, ?_, ?_⟩
  · refine ⟨_, ?_, (getPluginInfo_set tbl h hh fun info => { info with revert := revert }).2⟩
    unfold SetRevertCallback
    simp only [hget]
  · refine ⟨_, ?_, (getPluginInfo_set tbl h hh fun info => { info with save := save }).2⟩
    unfold SetSaveCallback
    simp only [hget]
  · refine ⟨_, ?_, (getPluginInfo_set tbl h hh fun info => { info with load := load }).2⟩
    unfold SetLoadCallback
    simp only [hget]
  · refine ⟨_, ?_,
      (getPluginInfo_set tbl h hh fun info => { info with formDelete := formDelete }).2⟩
    unfold SetFormDeleteCallback
    simp only [hget]

theorem getPluginInfo_register_witness :
    (3 < 2 ^ 32 - 1)
      ∧ (GetPluginInfo twinRegs 3).length = max twinRegs.length (3 + 1)
      ∧ (∃ t, SetSaveCallback twinRegs 3 (some [SaveCall.openRecord 1 1]) = some t
          ∧ registeredWith twinRegs t 3
              { (twinRegs[3]?.getD PluginCallbacks.empty) with
                save := some [SaveCall.openRecord 1 1] }) :=
  ⟨by decide,
   (getPluginInfo_register twinRegs 3 (by decide) none none (some [SaveCall.openRecord 1 1])
      none).1.1,
   (getPluginInfo_register twinRegs 3 (by decide) none none (some [SaveCall.openRecord 1 1])
      none).2.2.1⟩

/-- C18 as stated fails for the handle 0xFFFFFFFF: `plugin + 1` wraps to 0 and
the table of two records is resized to none, so both registrations are lost,
the size is not `max 2 (h + 1)`, and a setter addresses a record outside the
table. -/
theorem getPluginInfo_invalid_handle :
    twinRegs.length = 2
      ∧ (GetPluginInfo twinRegs 4294967295).length = 0
      ∧ (SetLoadCallback twinRegs 4294967295 none).isNone = true := by
  decide

/-! ## Typed values: text, theorems -/

theorem cstring_of_no_zero (s : List Byte) (hz : ∀ b ∈ s, b ≠ 0) : cstring s = s := by
  unfold cstring
  rw [List.takeWhile_eq_self_iff]
  intro b hb
  simpa using hz b hb

theorem cstring_terminated (s rest : List Byte) (hz : ∀ b ∈ s, b ≠ 0) :
    cstring (s ++ 0 :: rest) = s := by
  unfold cstring
  induction s with
  | nil => simp [List.takeWhile]
  | cons a s ih =>
    have ha : a ≠ 0 := hz a (List.mem_cons_self _ _)
    have := ih (fun b hb => hz b (List.mem_cons_of_mem _ hb))
    have hb : (a != 0) = true := by simpa using ha
    simp only [List.cons_append, List.takeWhile_cons, hb, if_true, this]

theorem encodeU16_length (n : Nat) : (encodeU16 n).length = 2 := rfl

theorem decodeLE_encodeU16 (n : Nat) (h : n < 2 ^ 16) : decodeLE (encodeU16 n) = n := by
  simp only [encodeU16, decodeLE, byteOf]
  omega

theorem slice_add (data : List Byte) (off a b : Nat) :
    slice data off (a + b) = slice data off a ++ slice data (off + a) b := by
  unfold slice
  rw [List.take_add, List.drop_drop]

theorem slice_length (data : List Byte) (off n : Nat) (h : off + n ≤ data.length) :
    (slice data off n).length = n := by
  unfold slice
  rw [List.length_take, List.length_drop]
  omega

theorem writeData_string_ok (s : List Byte) (g : Globals) (h : s.length ≤ 32767) :
    ∃ g1, WriteData_string s g = .ok true g1
      ∧ g1.s_currentFile.streamOffset = g.s_currentFile.streamOffset + (2 + s.length)
      ∧ bytesWritten g g1 = encodeU16 s.length ++ s := by
  have hlen : s.length % 2 ^ 16 = s.length := Nat.mod_eq_of_lt (by omega)
  have h1 := holds_writeBuf_self g.s_currentFile (encodeU16 s.length)
  have hl1 := writeBuf_length g.s_currentFile (encodeU16 s.length)
  have ho1 : (g.s_currentFile.WriteBuf (encodeU16 s.length)).streamOffset
      = g.s_currentFile.streamOffset + 2 := rfl
  by_cases hn : s.length = 0
  · have hs : s = [] := List.eq_nil_of_length_eq_zero hn
    subst hs
    refine ⟨{ g with s_currentFile := g.s_currentFile.WriteBuf (encodeU16 0) }, ?_, rfl, ?_⟩
    · unfold WriteData_string
      simp [WriteRecordData, SHRT_MAX]
    · unfold bytesWritten
      show slice (g.s_currentFile.WriteBuf (encodeU16 0)).data g.s_currentFile.streamOffset
        (g.s_currentFile.streamOffset + 2 - g.s_currentFile.streamOffset) = _
      rw [Nat.add_sub_cancel_left, List.append_nil]
      have hl0 := writeBuf_length g.s_currentFile (encodeU16 0)
      exact holds_slice _ _ (encodeU16 0) h1 (by
        rw [hl0, encodeU16_length]
        omega)
  · refine ⟨{ g with
        s_currentFile := (g.s_currentFile.WriteBuf (encodeU16 s.length)).WriteBuf s }, ?_, ?_, ?_⟩
    · unfold WriteData_string
      simp only [hlen, SHRT_MAX, WriteRecordData]
      rw [if_neg (by omega), if_neg hn, List.take_length]
    · show g.s_currentFile.streamOffset + 2 + s.length = _
      omega
    · have h2 := holds_writeBuf_self (g.s_currentFile.WriteBuf (encodeU16 s.length)) s
      have h3 := holds_writeBuf_frame (g.s_currentFile.WriteBuf (encodeU16 s.length)) s
        g.s_currentFile.streamOffset (encodeU16 s.length) h1 (Or.inl (by
          rw [ho1, encodeU16_length]))
      have hl2 := writeBuf_length (g.s_currentFile.WriteBuf (encodeU16 s.length)) s
      have hall : holds ((g.s_currentFile.WriteBuf (encodeU16 s.length)).WriteBuf s).data
          g.s_currentFile.streamOffset (encodeU16 s.length ++ s) := by
        rw [holds_append]
        refine ⟨h3, ?_⟩
        rw [encodeU16_length, ← ho1]
        exact h2
      unfold bytesWritten
      show slice ((g.s_currentFile.WriteBuf (encodeU16 s.length)).WriteBuf s).data
        g.s_currentFile.streamOffset
        (g.s_currentFile.streamOffset + 2 + s.length - g.s_currentFile.streamOffset) = _
      have hsub : g.s_currentFile.streamOffset + 2 + s.length - g.s_currentFile.streamOffset
          = (encodeU16 s.length ++ s).length := by
        rw [List.length_append, encodeU16_length]
        omega
      rw [hsub]
      exact holds_slice _ _ _ hall (by
        rw [hl2, ho1, List.length_append, encodeU16_length]
        omega)

theorem writeData_constChar_eq (s : List Byte) (g : Globals) (hz : ∀ b ∈ s, b ≠ 0) :
    WriteData_constChar s g = WriteData_string s g := by
  unfold WriteData_constChar WriteData_string strlen
  rw [cstring_of_no_zero s hz]

theorem writeData_string_refuse (s : List Byte) (g : Globals)
    (h : s.length % 2 ^ 16 > 32767) : WriteData_string s g = .ok false g := by
  unfold WriteData_string
  simp only [SHRT_MAX]
  rw [if_pos h]

theorem writeData_string_wrapped (s : List Byte) (g : Globals) (h : s.length % 2 ^ 16 = 0) :
    WriteData_string s g
      = .ok true { g with s_currentFile := g.s_currentFile.WriteBuf (encodeU16 0) } := by
  unfold WriteData_string
  simp only [h, WriteRecordData, SHRT_MAX]
  rw [if_neg (by omega), if_pos trivial]

theorem newArray_length (junk : Nat → Byte) (n : Nat) : (newArray junk n).length = n := by
  simp [newArray]

theorem buffer_filled (buf s : List Byte) (hl : buf.length = s.length + 1) :
    (copyInto buf s).set s.length 0 = s ++ [0] := by
  unfold copyInto
  have hd : (buf.drop s.length).length = 1 := by
    rw [List.length_drop]
    omega
  obtain ⟨x, hx⟩ := List.length_eq_one.mp hd
  rw [hx, List.set_append_right _ _ (Nat.le_refl _), Nat.sub_self]
  rfl

theorem readData_string_ok (junk : Nat → Byte) (str0 s : List Byte) (g : Globals)
    (hopen : g.s_chunkOpen = true) (hn1 : 1 ≤ s.length) (hn2 : s.length ≤ 32767)
    (hz : ∀ b ∈ s, b ≠ 0) (hchunk : 2 + s.length ≤ g.s_chunkHeader.length)
    (hfile : slice g.s_currentFile.data g.s_currentFile.streamOffset (2 + s.length)
      = encodeU16 s.length ++ s) :
    ReadData_string junk str0 g
      = .ok (true, s)
          { g with
            s_currentFile :=
              { g.s_currentFile with
                streamOffset := g.s_currentFile.streamOffset + (2 + s.length) }
            s_chunkHeader :=
              { g.s_chunkHeader with length := g.s_chunkHeader.length - (2 + s.length) } } := by
  have hbound : g.s_currentFile.streamOffset + (2 + s.length) ≤ g.s_currentFile.data.length := by
    have := congrArg List.length hfile
    unfold slice at this
    rw [List.length_take, List.length_drop, List.length_append, encodeU16_length] at this
    omega
  have hsplit := slice_add g.s_currentFile.data g.s_currentFile.streamOffset 2 s.length
  rw [hfile] at hsplit
  have hparts := List.append_inj hsplit (by
    rw [encodeU16_length, slice_length _ _ _ (by omega)])
  have hm1 : min 2 g.s_chunkHeader.length = 2 := by omega
  have e1 := readRecordData_ok 2 g hopen (by rw [hm1]; omega)
  rw [hm1, ← hparts.1] at e1
  have hm2 : min s.length (g.s_chunkHeader.length - 2) = s.length := by omega
  have e2 := readRecordData_ok s.length
    { g with
      s_currentFile :=
        { g.s_currentFile with streamOffset := g.s_currentFile.streamOffset + 2 }
      s_chunkHeader := { g.s_chunkHeader with length := g.s_chunkHeader.length - 2 } }
    hopen (by
      show g.s_currentFile.streamOffset + 2 + min s.length (g.s_chunkHeader.length - 2)
        ≤ g.s_currentFile.data.length
      rw [hm2]
      omega)
  simp only [hm2] at e2
  rw [← hparts.2] at e2
  have hdec : decodeLE (copyInto (encodeU16 0) (encodeU16 s.length)) = s.length := by
    have : copyInto (encodeU16 0) (encodeU16 s.length) = encodeU16 s.length := by
      simp [copyInto, encodeU16]
    rw [this, decodeLE_encodeU16 _ (by omega)]
  have hbuf : (copyInto ((newArray junk (s.length + 1)).set 0 0) s).set s.length 0 = s ++ [0] :=
    buffer_filled _ s (by rw [List.length_set, newArray_length])
  unfold ReadData_string
  rw [e1]
  simp only [hdec, SHRT_MAX, e2, hbuf]
  rw [if_neg (by omega), if_neg (by omega), if_neg (by omega), if_neg (by omega),
    cstring_terminated s [] hz]
  have e3 : g.s_chunkHeader.length - 2 - s.length = g.s_chunkHeader.length - (2 + s.length) := by
    omega
  have e4 : g.s_currentFile.streamOffset + 2 + s.length
      = g.s_currentFile.streamOffset + (2 + s.length) := by omega
  simp only [e3, e4]

theorem readData_string_empty (junk : Nat → Byte) (str0 : List Byte) (g : Globals)
    (hopen : g.s_chunkOpen = true) (hchunk : 2 ≤ g.s_chunkHeader.length)
    (hfile : slice g.s_currentFile.data g.s_currentFile.streamOffset 2 = encodeU16 0) :
    ReadData_string junk str0 g
      = .ok (true, str0)
          { g with
            s_currentFile :=
              { g.s_currentFile with streamOffset := g.s_currentFile.streamOffset + 2 }
            s_chunkHeader := { g.s_chunkHeader with length := g.s_chunkHeader.length - 2 } } := by
  have hbound : g.s_currentFile.streamOffset + 2 ≤ g.s_currentFile.data.length := by
    have := congrArg List.length hfile
    unfold slice at this
    rw [List.length_take, List.length_drop, encodeU16_length] at this
    omega
  have hm1 : min 2 g.s_chunkHeader.length = 2 := by omega
  have e1 := readRecordData_ok 2 g hopen (by rw [hm1]; omega)
  rw [hm1, hfile] at e1
  have hdec : decodeLE (copyInto (encodeU16 0) (encodeU16 0)) = 0 := by decide
  unfold ReadData_string
  rw [e1]
  simp only [hdec]
  rw [if_pos trivial, if_neg (by omega)]

/-- C16 (amended): text round trip for texts without a zero byte. For every
`std::string` `s` of length `n` with `1 <= n <= 32767` none of whose bytes is
zero, written by `WriteData<std::string>` in any write-side state: the write
returns `true`, and `ReadData<std::string>` applied in an open chunk at the
start of the bytes the write produced (the chunk holding at least these
`2 + n` bytes) returns `true`, consumes exactly `2 + n` bytes of the chunk and
produces `s`, whatever the output string and the fresh buffer held before. -/
theorem text_round_trip (junk : Nat → Byte) (s str0 : List Byte) (gw gr : Globals)
    (hn1 : 1 ≤ s.length) (hn2 : s.length ≤ 32767) (hz : ∀ b ∈ s, b ≠ 0)
    (hopen : gr.s_chunkOpen = true) (hchunk : 2 + s.length ≤ gr.s_chunkHeader.length)
    (hfile : slice gr.s_currentFile.data gr.s_currentFile.streamOffset (2 + s.length)
      = bytesWritten gw (WriteData_string s gw).globals) :
    (WriteData_string s gw).returned = some true
      ∧ ∃ gr1, ReadData_string junk str0 gr = .ok (true, s) gr1
          ∧ gr1.s_currentFile.streamOffset = gr.s_currentFile.streamOffset + (2 + s.length)
          ∧ gr1.s_chunkHeader.length + (2 + s.length) = gr.s_chunkHeader.length := by
  obtain ⟨gw1, hw, -, hbytes⟩ := writeData_string_ok s gw hn2
  rw [hw] at hfile ⊢
  refine ⟨rfl, _, readData_string_ok junk str0 s gr hopen hn1 hn2 hz hchunk ?_, rfl, ?_⟩
  · rw [hfile]
    exact hbytes
  · show gr.s_chunkHeader.length - (2 + s.length) + (2 + s.length) = gr.s_chunkHeader.length
    omega

theorem text_round_trip_witness :
    (1 ≤ [(104 : Byte), 105].length ∧ [(104 : Byte), 105].length ≤ 32767
        ∧ (∀ b ∈ [(104 : Byte), 105], b ≠ 0)
        ∧ (chunkOf [2, 0, 104, 105, 9] 4).s_chunkOpen = true
        ∧ 2 + [(104 : Byte), 105].length ≤ (chunkOf [2, 0, 104, 105, 9] 4).s_chunkHeader.length
        ∧ slice (chunkOf [2, 0, 104, 105, 9] 4).s_currentFile.data
              (chunkOf [2, 0, 104, 105, 9] 4).s_currentFile.streamOffset
              (2 + [(104 : Byte), 105].length)
            = bytesWritten idleGlobals (WriteData_string [104, 105] idleGlobals).globals)
      ∧ ∃ gr1, ReadData_string staleMemory [7] (chunkOf [2, 0, 104, 105, 9] 4)
            = .ok (true, [104, 105]) gr1
          ∧ gr1.s_currentFile.streamOffset
              = (chunkOf [2, 0, 104, 105, 9] 4).s_currentFile.streamOffset
                + (2 + [(104 : Byte), 105].length)
          ∧ gr1.s_chunkHeader.length + (2 + [(104 : Byte), 105].length)
              = (chunkOf [2, 0, 104, 105, 9] 4).s_chunkHeader.length :=
  ⟨⟨by decide, by show 2 ≤ 32767; decide, by simp, rfl, by decide, by decide⟩,
   (text_round_trip staleMemory [104, 105] [7] idleGlobals (chunkOf [2, 0, 104, 105, 9] 4)
      (by decide) (by show 2 ≤ 32767; decide) (by simp) rfl (by decide) (by decide)).2⟩

/-- C16 as stated fails for a text with a zero byte inside: the three bytes
`61 00 62` are written in full behind the length 3, and the read consumes all
five bytes and returns `true`, but the string it produces is built from the
buffer as a C string and is the single byte `61`. -/
theorem text_round_trip_embedded_zero :
    (WriteData_string [97, 0, 98] idleGlobals).returned = some true
      ∧ bytesWritten idleGlobals (WriteData_string [97, 0, 98] idleGlobals).globals
          = [3, 0, 97, 0, 98]
      ∧ (ReadData_string staleMemory [] (chunkOf [3, 0, 97, 0, 98] 5)).returned
          = some (true, [97])
      ∧ (ReadData_string staleMemory [] (chunkOf [3, 0, 97, 0, 98] 5)).globals.s_currentFile.streamOffset
          = 5 := by
  decide

/-- C17: empty text. Writing the empty string with `WriteData` (the
`std::string` and the C string version alike) returns `true` and puts exactly
two bytes in the file, `00 00`; `ReadData<std::string>` applied in an open
chunk at the start of these bytes returns `true`, consumes exactly these two
bytes of the chunk and leaves the output string as it was before the call. -/
theorem empty_text (junk : Nat → Byte) (str0 : List Byte) (gw gr : Globals)
    (hopen : gr.s_chunkOpen = true) (hchunk : 2 ≤ gr.s_chunkHeader.length)
    (hfile : slice gr.s_currentFile.data gr.s_currentFile.streamOffset 2
      = bytesWritten gw (WriteData_string [] gw).globals) :
    (∃ gw1, WriteData_string [] gw = .ok true gw1
        ∧ WriteData_constChar [] gw = .ok true gw1
        ∧ gw1.s_currentFile.streamOffset = gw.s_currentFile.streamOffset + 2
        ∧ bytesWritten gw gw1 = [0, 0])
      ∧ ∃ gr1, ReadData_string junk str0 gr = .ok (true, str0) gr1
          ∧ gr1.s_currentFile.streamOffset = gr.s_currentFile.streamOffset + 2
          ∧ gr1.s_chunkHeader.length + 2 = gr.s_chunkHeader.length := by
  obtain ⟨gw1, hw, hoff, hbytes⟩ := writeData_string_ok [] gw (by decide)
  rw [hw] at hfile
  have hb : bytesWritten gw gw1 = [0, 0] := hbytes
  refine ⟨⟨gw1, hw, ?_, hoff, hb⟩, _, readData_string_empty junk str0 gr hopen hchunk ?_, rfl, ?_⟩
  · rw [writeData_constChar_eq [] gw (by simp), hw]
  · rw [hfile]
    exact hb
  · show gr.s_chunkHeader.length - 2 + 2 = gr.s_chunkHeader.length
    omega

theorem empty_text_witness :
    ((chunkOf [0, 0, 9] 2).s_chunkOpen = true ∧ 2 ≤ (chunkOf [0, 0, 9] 2).s_chunkHeader.length
        ∧ slice (chunkOf [0, 0, 9] 2).s_currentFile.data
              (chunkOf [0, 0, 9] 2).s_currentFile.streamOffset 2
            = bytesWritten idleGlobals (WriteData_string [] idleGlobals).globals)
      ∧ ∃ gr1, ReadData_string staleMemory [7, 8] (chunkOf [0, 0, 9] 2) = .ok (true, [7, 8]) gr1
          ∧ gr1.s_currentFile.streamOffset = (chunkOf [0, 0, 9] 2).s_currentFile.streamOffset + 2
          ∧ gr1.s_chunkHeader.length + 2 = (chunkOf [0, 0, 9] 2).s_chunkHeader.length :=
  ⟨⟨rfl, by decide, by decide⟩,
   (empty_text staleMemory [7, 8] idleGlobals (chunkOf [0, 0, 9] 2) rfl (by decide)
      (by decide)).2⟩

theorem longText_length : longText.length = 65536 := List.length_replicate _ _

theorem longText_no_zero : ∀ b ∈ longText, b ≠ 0 := by
  intro b hb
  have := List.eq_of_mem_replicate hb
  rw [this]
  decide

/-- C15 fails on the code: the length is narrowed to `UInt16` before it is
compared with `SHRT_MAX`. For `longText`, a text of 65536 bytes, both
`WriteData<std::string>` and `WriteData<const char>` return `true` and write
the two bytes `00 00`, the image of an empty text, instead of returning
`false` with nothing written. -/
theorem writeData_length_wraps :
    longText.length = 65536
      ∧ WriteData_string longText idleGlobals
          = .ok true { idleGlobals with s_currentFile := ⟨[0, 0], 2⟩ }
      ∧ WriteData_constChar longText idleGlobals
          = .ok true { idleGlobals with s_currentFile := ⟨[0, 0], 2⟩ } := by
  have h : WriteData_string longText idleGlobals
      = .ok true { idleGlobals with s_currentFile := ⟨[0, 0], 2⟩ } := by
    rw [writeData_string_wrapped longText idleGlobals (by rw [longText_length]; norm_num)]
    rfl
  exact ⟨longText_length, h, by rw [writeData_constChar_eq longText idleGlobals longText_no_zero, h]⟩

/-- C19 fails on the code: the result of the second `ReadRecordData` call is
only tested against zero. In an open chunk with three bytes left, `05 00 41`,
`ReadData<std::string>` and `ReadData<BSFixedString>` decode the length 5, get
one payload byte and return `true`: 3 bytes are consumed, not 2 + 5, and the
text produced is the byte read followed by what the fresh buffer happened to
hold. -/
theorem readData_short_payload :
    (ReadData_string staleMemory [] (chunkOf [5, 0, 0x41] 3)).returned
        = some (true, [0x41, 0x21, 0x21, 0x21, 0x21])
      ∧ (ReadData_string staleMemory [] (chunkOf [5, 0, 0x41] 3)).globals.s_currentFile.streamOffset
          = 3
      ∧ (ReadData_BSFixedString staleMemory [] (chunkOf [5, 0, 0x41] 3)).returned
          = some (true, [0x41, 0x21, 0x21, 0x21, 0x21])
      ∧ (ReadData_BSFixedString staleMemory []
            (chunkOf [5, 0, 0x41] 3)).globals.s_currentFile.streamOffset
          = 3 := by
  decide

end Serialization
